import Mathlib

/-!
Minimum-weight triangulation of a convex polygon (`src/src/Triangulation.cpp`)

A shallow embedding of `findTriangle`, `calculateDistance` and `triangulate`.

* The code is written over a type `α` of `float` values with `0`, `+`, `-`,
  `*` and `<`. The theorems read it as exact arithmetic in a linear ordered
  commutative ring (the reals, or the integers when a run has to be
  evaluated). The type `Flt` reads it with overflow to infinity (rounding is
  left out); a run on `Flt` shows where the `float` code leaves the exact
  reading.
* `sqrt` and the constant `MAXFLOAT` come from `<cmath>`; they are parameters.
* `int` is read as `Int`, without overflow: `N * N` and every index stay in
  the range of `int` as long as `N <= 46340`. `wrapInt` and `fillTable32`
  read the allocation of line 74 in 32 bits, for the inputs beyond. Every
  array access is checked and fails with `Err.outOfBounds` when the index is
  outside the allocation.
* `new Cell[N * N]`, `new float[diff - 1]` and `int localK;` leave `float` and
  `int` objects without a value; the values found there are the parameters
  `junkF` and `junkI`.
* The OpenMP loops are run in increasing index order; `costLevelIn` and
  `costPhaseIn` run the cells of a level in any other order.
* The recursion of `findTriangle` is bounded by an explicit `fuel`, an extra
  argument of `findTriangle` and `triangulate`; running out of it is the
  error `Err.outOfFuel`, and `N` units are enough for `N` points.
-/

set_option linter.unusedSectionVars false

namespace Triangulation

/-- Structure of a point in the 2D plane (`struct Point`). -/
structure Point (α : Type) where
  x : α
  y : α

/-- One cell of the table (`struct Cell`): `cost` and `dist` have no default
value in the source, the three indices default to `-1`. -/
structure Cell (α : Type) where
  cost : α
  dist : α
  i : Int := -1
  k : Int := -1
  j : Int := -1

/-- The ways a run of the embedding can fail. -/
inductive Err where
  | outOfBounds
  | outOfFuel
  deriving DecidableEq, Repr

/-- A triangle as pushed by `findTriangle`: `tuple(i, k, j)`. -/
abbrev Triangle := Int × Int × Int

/-- Checked read `xs[idx]`. -/
def readAt {β : Type} (xs : List β) (idx : Int) : Except Err β :=
  if 0 ≤ idx then
    match xs[idx.toNat]? with
    | some v => Except.ok v
    | none => Except.error Err.outOfBounds
  else Except.error Err.outOfBounds

/-- Checked write `xs[idx] = v`. -/
def writeAt {β : Type} (xs : List β) (idx : Int) (v : β) : Except Err (List β) :=
  if 0 ≤ idx ∧ idx < (xs.length : Int) then Except.ok (xs.set idx.toNat v)
  else Except.error Err.outOfBounds

/-- The loop `for (int v = lo; v < lo + n; ++v) body`, threading the state. -/
def forLoop {σ : Type} (body : Int → σ → Except Err σ) : Nat → Int → σ → Except Err σ
  | 0, _, s => Except.ok s
  | n + 1, lo, s =>
    match body lo s with
    | Except.ok s1 => forLoop body n (lo + 1) s1
    | Except.error e => Except.error e

section Code

variable {α : Type} [Zero α] [Add α] [Sub α] [Mul α] [LT α] [LE α]
  [∀ a b : α, Decidable (a < b)]

/-- The array `new float[n]`: `n` floats holding whatever was there. -/
def newFloats (junkF : Nat → α) (n : Int) : List α :=
  (List.range n.toNat).map junkF

/-- The array `new Cell[n]`: `cost` and `dist` hold whatever was there, the
indices are `-1`. -/
def newCells (junkF : Nat → α) (n : Int) : List (Cell α) :=
  (List.range n.toNat).map (fun t => { cost := junkF (2 * t), dist := junkF (2 * t + 1) })

/-- Source lines 32-53, `findTriangle`. -/
def findTriangle : Nat → Int → Int → List (Cell α) → Int → List Triangle →
    Except Err (List Triangle)
  | 0, _, _, _, _, _ => Except.error Err.outOfFuel
  | fuel + 1, c1, c2, C, N, triangles => do
    let i := (← readAt C (c1 * N + c2)).i
    let k := (← readAt C (c1 * N + c2)).k
    let j := (← readAt C (c1 * N + c2)).j
    if i < 0 then
      return triangles
    else
      let triangles := triangles ++ [(i, k, j)]
      let triangles ← findTriangle fuel i k C N triangles
      findTriangle fuel k j C N triangles

/-- Source lines 55-60, `calculateDistance`. -/
def calculateDistance (sqrt : α → α) (pId1 pId2 : Int) (points : List (Point α)) :
    Except Err α := do
  let p1 ← readAt points pId1
  let p2 ← readAt points pId2
  return sqrt ((p1.x - p2.x) * (p1.x - p2.x) + (p1.y - p2.y) * (p1.y - p2.y))

/-- Source lines 76-81: the distance loop of `triangulate`. -/
def distancePhase (sqrt : α → α) (points : List (Point α)) (N : Int) (C : List (Cell α)) :
    Except Err (List (Cell α)) :=
  forLoop (fun i C =>
    forLoop (fun j C => do
      let d ← calculateDistance sqrt i j points
      let c ← readAt C (i * N + j)
      writeAt C (i * N + j) { c with dist := d }) (N - i).toNat i C) N.toNat 0 C

/-- Source lines 98-100: fill `c1` with the left costs. The state is `(c1, it)`. -/
def fillLeft (N i j : Int) (C : List (Cell α)) (c1 : List α) (it : Int) :
    Except Err (List α × Int) :=
  forLoop (fun k s => do
    let a ← readAt C (i * N + k)
    let c1 ← writeAt s.1 s.2 (a.cost + a.dist)
    return (c1, s.2 + 1)) (j - (i + 1)).toNat (i + 1) (c1, it)

/-- Source lines 102-105: fill `c2` with the right costs. The state is `(c2, it)`. -/
def fillRight (N i j : Int) (C : List (Cell α)) (c2 : List α) (it : Int) :
    Except Err (List α × Int) :=
  forLoop (fun k s => do
    let a ← readAt C (k * N + j)
    let c2 ← writeAt s.1 s.2 (a.cost + a.dist)
    return (c2, s.2 + 1)) (j - (i + 1)).toNat (i + 1) (c2, it)

/-- Source lines 107-113: add `c2` into `c1` and scan for the minimum. The
state is `(c1, costIJ, localK)`. -/
def scan (i j : Int) (c2 : List α) (c1 : List α) (costIJ : α) (localK : Int) :
    Except Err (List α × α × Int) :=
  forLoop (fun it s => do
    let a ← readAt s.1 it
    let b ← readAt c2 it
    let c1 ← writeAt s.1 it (a + b)
    if s.2.1 > (← readAt c1 it) then
      return (c1, ← readAt c1 it, i + 1 + it)
    else
      return (c1, s.2.1, s.2.2)) (j - i - 1).toNat 0 (c1, costIJ, localK)

/-- Source lines 86-124: the body of the loop over `j` at level `diff`. -/
def costCell (MAXFLOAT : α) (junkF : Nat → α) (junkI : Int) (N diff j : Int)
    (C : List (Cell α)) : Except Err (List (Cell α)) := do
  let i := j - diff
  if j < i + 2 then
    let c ← readAt C (i * N + j)
    writeAt C (i * N + j) { c with cost := 0 }
  else
    let c ← readAt C (i * N + j)
    let C ← writeAt C (i * N + j) { c with cost := MAXFLOAT }
    let costIJ := (← readAt C (i * N + j)).cost
    let localK := junkI
    let it := 0
    let c1 := newFloats junkF (diff - 1)
    let c2 := newFloats junkF (diff - 1)
    let (c1, _) ← fillLeft N i j C c1 it
    let it := 0
    let (c2, _) ← fillRight N i j C c2 it
    let (_, costIJ, localK) ← scan i j c2 c1 costIJ localK
    let cell ← readAt C (i * N + j)
    if costIJ < cell.cost then
      writeAt C (i * N + j) { cell with cost := costIJ + cell.dist, i := i, k := localK, j := j }
    else
      return C

/-- Source lines 82-126: the loop over `diff` of `triangulate`. -/
def costPhase (MAXFLOAT : α) (junkF : Nat → α) (junkI : Int) (N : Int) (C : List (Cell α)) :
    Except Err (List (Cell α)) :=
  forLoop (fun diff C =>
    forLoop (fun j C => costCell MAXFLOAT junkF junkI N diff j C) (N - diff).toNat diff C)
    N.toNat 0 C

/-- Source lines 73-126: allocation of the table, distance loop and cost loop. -/
def fillTable (sqrt : α → α) (MAXFLOAT : α) (junkF : Nat → α) (junkI : Int)
    (points : List (Point α)) : Except Err (List (Cell α)) := do
  let N : Int := points.length
  let C := newCells junkF (N * N)
  let C ← distancePhase sqrt points N C
  costPhase MAXFLOAT junkF junkI N C

/-- Source lines 64-132, `triangulate`. -/
def triangulate (sqrt : α → α) (MAXFLOAT : α) (junkF : Nat → α) (junkI : Int) (fuel : Nat)
    (points : List (Point α)) : Except Err (List Triangle × α) := do
  let triangles : List Triangle := []
  let N : Int := points.length
  let C ← fillTable sqrt MAXFLOAT junkF junkI points
  let triangles ← findTriangle fuel 0 (N - 1) C N triangles
  let triagCost := (← readAt C (N - 1)).cost
  return (triangles, triagCost)

/-- The distance of points `i` and `j` as `calculateDistance` returns it
(`0` when an index is outside `points`). -/
def distOf (sqrt : α → α) (points : List (Point α)) (i j : Int) : α :=
  match calculateDistance sqrt i j points with
  | Except.ok d => d
  | Except.error _ => 0

/-- The cell `C[i * N + j]` (a zero cell when the index is outside the table). -/
def getCell (C : List (Cell α)) (N i j : Int) : Cell α :=
  match readAt C (i * N + j) with
  | Except.ok c => c
  | Except.error _ => { cost := 0, dist := 0 }

/-- The value stored in `c1[k - i - 1]` by source line 99. -/
def leftCost (C : List (Cell α)) (N i k : Int) : α :=
  (getCell C N i k).cost + (getCell C N i k).dist

/-- The value stored in `c2[k - i - 1]` by source line 103. -/
def rightCost (C : List (Cell α)) (N k j : Int) : α :=
  (getCell C N k j).cost + (getCell C N k j).dist

/-- The candidate sum `c1[it] + c2[it]` of source line 108 for the apex `k`. -/
def candidate (C : List (Cell α)) (N i k j : Int) : α :=
  leftCost C N i k + rightCost C N k j

/-! ## Views of the table and predicates used in the statements -/

/-- The three indices of a cell still hold the sentinel `-1`. -/
def Fresh (c : Cell α) : Prop := c.i = -1 ∧ c.k = -1 ∧ c.j = -1

/-- State of the table while the distance loop runs: rows below `r` and the
columns below `c` of row `r` hold their distance, no index field is written. -/
def DistInv (sqrt : α → α) (points : List (Point α)) (N r c : Int) (C : List (Cell α)) : Prop :=
  (C.length : Int) = N * N ∧
  (∀ a b, 0 ≤ a → a < N → 0 ≤ b → b < N → Fresh (getCell C N a b)) ∧
  (∀ a b, 0 ≤ a → a ≤ b → b < N → (a < r ∨ (a = r ∧ b < c)) →
    (getCell C N a b).dist = distOf sqrt points a b)

/-- Cell `(i, j)` of `C` is as the cost loop leaves it. -/
def CellDone (MAXFLOAT : α) (C : List (Cell α)) (N i j : Int) : Prop :=
  (j < i + 2 → (getCell C N i j).cost = 0 ∧ Fresh (getCell C N i j)) ∧
  (i + 2 ≤ j →
    ((∀ k, i < k → k < j → ¬ candidate C N i k j < MAXFLOAT) ∧
      (getCell C N i j).cost = MAXFLOAT ∧ Fresh (getCell C N i j)) ∨
    ((getCell C N i j).i = i ∧ (getCell C N i j).j = j ∧
      i < (getCell C N i j).k ∧ (getCell C N i j).k < j ∧
      candidate C N i (getCell C N i j).k j < MAXFLOAT ∧
      (getCell C N i j).cost = candidate C N i (getCell C N i j).k j + (getCell C N i j).dist ∧
      (∀ k, i < k → k < j → candidate C N i (getCell C N i j).k j ≤ candidate C N i k j) ∧
      (∀ k, i < k → k < (getCell C N i j).k →
        candidate C N i (getCell C N i j).k j < candidate C N i k j)))

/-- State of the table while the cost loop runs: the cells of span below `d`
and the cells of span `d` in the columns below `c` are final, all other cells
still hold the sentinel indices. -/
def CostInv (sqrt : α → α) (points : List (Point α)) (MAXFLOAT : α) (N d c : Int)
    (C : List (Cell α)) : Prop :=
  (C.length : Int) = N * N ∧
  (∀ a b, 0 ≤ a → a ≤ b → b < N → (getCell C N a b).dist = distOf sqrt points a b) ∧
  (∀ a b, 0 ≤ a → a ≤ b → b < N → (b - a < d ∨ (b - a = d ∧ b < c)) →
    CellDone MAXFLOAT C N a b) ∧
  (∀ a b, 0 ≤ a → a < N → 0 ≤ b → b < N →
    ¬ (a ≤ b ∧ (b - a < d ∨ (b - a = d ∧ b < c))) → Fresh (getCell C N a b))

/-- The table `C` is a finished table for `points`: it has `N * N` cells, the
upper triangle holds the distances, every cell of the upper triangle is as the
cost loop leaves it and the cells below the diagonal still hold the sentinel
indices. -/
def Finished (sqrt : α → α) (MAXFLOAT : α) (points : List (Point α)) (C : List (Cell α)) :
    Prop :=
  (C.length : Int) = (points.length : Int) * (points.length : Int) ∧
  (∀ a b, 0 ≤ a → a ≤ b → b < (points.length : Int) →
    (getCell C (points.length : Int) a b).dist = distOf sqrt points a b) ∧
  (∀ a b, 0 ≤ a → a ≤ b → b < (points.length : Int) →
    CellDone MAXFLOAT C (points.length : Int) a b) ∧
  (∀ a b, 0 ≤ b → b < a → a < (points.length : Int) →
    Fresh (getCell C (points.length : Int) a b))

/-- Every candidate sum of the table is below the sentinel. -/
def BelowSentinel (MAXFLOAT : α) (C : List (Cell α)) (N : Int) : Prop :=
  ∀ i, 0 ≤ i → i < N → ∀ k, i + 1 ≤ k → k < N → ∀ j, k + 1 ≤ j → j < N →
    candidate C N i k j < MAXFLOAT

/-- The table at the end of the cost loop of `triangulate` (source line 126). -/
def finalTable (sqrt : α → α) (MAXFLOAT : α) (junkF : Nat → α) (junkI : Int)
    (points : List (Point α)) : List (Cell α) :=
  match fillTable sqrt MAXFLOAT junkF junkI points with
  | Except.ok C => C
  | Except.error _ => []

/-- Perimeter of the triangle `(i, k, j)` for the distance function `dist`. -/
def perimeter (dist : Int → Int → α) (t : Triangle) : α :=
  dist t.1 t.2.1 + dist t.2.1 t.2.2 + dist t.1 t.2.2

/-- Sum of the perimeters of a list of triangles. -/
def totalPerimeter (dist : Int → Int → α) (L : List Triangle) : α :=
  (L.map (perimeter dist)).sum

/-- Source lines 85-125: one width level `diff` of the cost loop, the loop over
`j` (`costPhase` is the loop of these levels over `diff`). -/
def costLevel (MAXFLOAT : α) (junkF : Nat → α) (junkI : Int) (N diff : Int)
    (C : List (Cell α)) : Except Err (List (Cell α)) :=
  forLoop (fun j C => costCell MAXFLOAT junkF junkI N diff j C) (N - diff).toNat diff C

/-- The first `d` width levels of the cost loop (source lines 82-126 stopped
when `diff` reaches `d`). -/
def costLevels (MAXFLOAT : α) (junkF : Nat → α) (junkI : Int) (N : Int) (d : Nat)
    (C : List (Cell α)) : Except Err (List (Cell α)) :=
  forLoop (fun diff C => costLevel MAXFLOAT junkF junkI N diff C) d 0 C

/-- The cell `new` is what the body of the cost loop (source lines 86-124)
makes of the cell `old` at `(i, j)` when the candidate sum of the apex `k` is
`cand k`: the `dist` field is kept; the cost becomes `0` for a trivial range;
otherwise either no candidate is below the sentinel, the cost becomes
`MAXFLOAT` and the indices are kept, or the cell stores `i`, `j`, the smallest
minimising apex and its candidate sum plus `dist`. -/
def CellStep (MAXFLOAT : α) (i j : Int) (cand : Int → α) (old new : Cell α) : Prop :=
  new.dist = old.dist ∧
  (j < i + 2 → new.cost = 0 ∧ new.i = old.i ∧ new.k = old.k ∧ new.j = old.j) ∧
  (i + 2 ≤ j →
    ((∀ k, i < k → k < j → ¬ cand k < MAXFLOAT) ∧ new.cost = MAXFLOAT ∧
      new.i = old.i ∧ new.k = old.k ∧ new.j = old.j) ∨
    (new.i = i ∧ new.j = j ∧ i < new.k ∧ new.k < j ∧ cand new.k < MAXFLOAT ∧
      new.cost = cand new.k + old.dist ∧
      (∀ k, i < k → k < j → cand new.k ≤ cand k) ∧
      (∀ k, i < k → k < new.k → cand new.k < cand k)))

/-- The table `T2` is the table `T` after the cells `(b - diff, b)` of the
level `diff` with `S b` have been computed: these cells are a `CellStep` of
their old content for the candidate sums of `T`, all other cells are as in
`T`. -/
def LevelStep (MAXFLOAT : α) (N diff : Int) (S : Int → Prop) (T T2 : List (Cell α)) : Prop :=
  (T2.length : Int) = N * N ∧
  ∀ a b, 0 ≤ a → a < N → 0 ≤ b → b < N →
    ((b - a = diff ∧ S b) →
      CellStep MAXFLOAT a b (fun k => candidate T N a k b) (getCell T N a b)
        (getCell T2 N a b)) ∧
    (¬ (b - a = diff ∧ S b) → getCell T2 N a b = getCell T N a b)

/-- One width level of the cost loop with the columns `j` taken in the order
of the list `order` instead of increasing order (the OpenMP `parallel for` of
source line 84 may run the iterations in any order). -/
def costLevelIn (MAXFLOAT : α) (junkF : Nat → α) (junkI : Int) (N diff : Int)
    (order : List Int) (C : List (Cell α)) : Except Err (List (Cell α)) :=
  order.foldlM (fun C j => costCell MAXFLOAT junkF junkI N diff j C) C

/-- The cost loop with the columns of level `diff` taken in the order
`orders diff`. -/
def costPhaseIn (MAXFLOAT : α) (junkF : Nat → α) (junkI : Int) (N : Int)
    (orders : Int → List Int) (C : List (Cell α)) : Except Err (List (Cell α)) :=
  forLoop (fun diff C => costLevelIn MAXFLOAT junkF junkI N diff (orders diff) C) N.toNat 0 C

/-- The value of an `int` expression whose exact value is `x`, where `int` has
32 bits and wraps around (two's complement). -/
def wrapInt (x : Int) : Int := (x + 2147483648) % 4294967296 - 2147483648

/-- Source lines 73-126 with the `int` values of lines 73 and 74 computed in
32 bits: the table has `wrapInt (N * N)` cells. The loops are those of
`fillTable`, their index expressions `i * N + j` are left exact. -/
def fillTable32 (sqrt : α → α) (MAXFLOAT : α) (junkF : Nat → α) (junkI : Int)
    (points : List (Point α)) : Except Err (List (Cell α)) := do
  let N : Int := wrapInt points.length
  let C := newCells junkF (wrapInt (N * N))
  let C ← distancePhase sqrt points N C
  costPhase MAXFLOAT junkF junkI N C

end Code

/-! ## Triangulations, side counts and concrete inputs -/

/-- A triangulation of the vertex range `i..j` as a binary split tree: a node
picks an apex `k` and splits the range into `(i, k)` and `(k, j)`. -/
inductive SplitTree where
  | leaf : SplitTree
  | node : Int → SplitTree → SplitTree → SplitTree

/-- The tree is a triangulation of the range `(i, j)`: a leaf stands only for a
range with `j < i + 2`, a node has its apex strictly inside the range. -/
def SplitTree.Valid : SplitTree → Int → Int → Prop
  | SplitTree.leaf, i, j => j < i + 2
  | SplitTree.node k l r, i, j => i < k ∧ k < j ∧ l.Valid i k ∧ r.Valid k j

/-- The triangles of a split tree of the range `(i, j)`. -/
def SplitTree.triangles : SplitTree → Int → Int → List Triangle
  | SplitTree.leaf, _, _ => []
  | SplitTree.node k l r, i, j => (i, k, j) :: (l.triangles i k ++ r.triangles k j)

/-- Bitwise floor square root: tries the bits `b - 1, ..., 0` in turn. -/
def sqrtBits : Nat → Nat → Nat → Nat
  | 0, r, _ => r
  | b + 1, r, n => sqrtBits b (if (r + 2 ^ b) * (r + 2 ^ b) ≤ n then r + 2 ^ b else r) n

/-- Integer square root, exact on the perfect squares below `2 ^ 260`. -/
def intSqrt (n : Int) : Int := (sqrtBits 130 0 n.toNat : Nat)

/-- The value of `MAXFLOAT` (`FLT_MAX`, `2 ^ 128 - 2 ^ 104`). -/
def fltMax : Int := 340282346638528859811704183484516925440

/-- The corners of a 3 by 4 rectangle. -/
def rectangle : List (Point Int) := [⟨0, 0⟩, ⟨3, 0⟩, ⟨3, 4⟩, ⟨0, 4⟩]

/-- Three points so far apart that the only candidate sum of the root cell,
`3e38 + 3e38`, is not below `MAXFLOAT`. -/
def farPoints : List (Point Int) :=
  [⟨0, 0⟩, ⟨300000000000000000000000000000000000000, 0⟩,
    ⟨300000000000000000000000000000000000000, 300000000000000000000000000000000000000⟩]

/-- The unordered vertex pair `{u, v}` is a side of the triangle `t`. -/
def hasSide (t : Triangle) (u v : Int) : Prop :=
  (t.1 = u ∧ t.2.1 = v) ∨ (t.2.1 = u ∧ t.2.2 = v) ∨ (t.1 = u ∧ t.2.2 = v) ∨
  (t.1 = v ∧ t.2.1 = u) ∨ (t.2.1 = v ∧ t.2.2 = u) ∨ (t.1 = v ∧ t.2.2 = u)

instance hasSideDecidable (t : Triangle) (u v : Int) : Decidable (hasSide t u v) := by
  unfold hasSide
  infer_instance

/-- Number of triangles of `L` that have `{u, v}` as a side. -/
def sideCount (L : List Triangle) (u v : Int) : Nat :=
  L.countP (fun t => decide (hasSide t u v))

/-- The sub-range `(i, j)` a triangle `(i, k, j)` was emitted for. -/
def rangeOf (t : Triangle) : Int × Int := (t.1, t.2.2)

/-- The triangles extracted from the range `(i, j)` form a triangulation of
it: they lie inside the range, no sub-range repeats, the closing pair
`(i, j)` and every pair of neighbours is a side of exactly one triangle, and
every other pair is a side of no triangle or of exactly two. -/
def Triangulates (i j : Int) (L : List Triangle) : Prop :=
  (j < i + 2 → L = []) ∧
  (∀ t ∈ L, i ≤ t.1 ∧ t.1 < t.2.1 ∧ t.2.1 < t.2.2 ∧ t.2.2 ≤ j) ∧
  (L.map rangeOf).Nodup ∧
  (∀ u v, u < v →
    (¬ (i ≤ u ∧ v ≤ j) → sideCount L u v = 0) ∧
    (u = i → v = j → i + 2 ≤ j → sideCount L u v = 1) ∧
    (¬ (u = i ∧ v = j) → i ≤ u → v ≤ j → v = u + 1 → sideCount L u v = 1) ∧
    (¬ (u = i ∧ v = j) → v ≠ u + 1 → sideCount L u v = 0 ∨ sideCount L u v = 2))

/-- The pair `(u, v)` is a polygon boundary edge `(i, i+1)` with
`0 <= i < N-1`, or the closing edge `(0, N-1)`. -/
def isBoundaryEdge (N u v : Int) : Prop :=
  (0 ≤ u ∧ v = u + 1 ∧ u < N - 1) ∨ (u = 0 ∧ v = N - 1)

/-- The corners of a right triangle with sides 3, 4 and 5. -/
def rightTriangle : List (Point Int) := [⟨0, 0⟩, ⟨3, 0⟩, ⟨3, 4⟩]

/-- The values `diff, ..., N-1` the column index `j` takes at level `diff`
(source line 85). -/
def levelColumns (N diff : Int) : List Int :=
  (List.range (N - diff).toNat).map (fun (t : Nat) => diff + (t : Int))

/-- One point, the smallest input `triangulate` accepts. -/
def onePoint : List (Point Int) := [⟨0, 0⟩]

/-- A `float` as far as overflow goes: a finite value, read exactly (an
integer; rounding is left out), an infinity, or a NaN. -/
inductive Flt where
  | fin (v : Int)
  | pinf
  | ninf
  | nan

/-- The least magnitude that rounds to an infinity, `2^128 - 2^103`. -/
def fltOverflow : Int := 340282356779733661637539395458142568448

/-- The `float` result of an operation whose exact result is `v`. -/
def Flt.ofExact (v : Int) : Flt :=
  if fltOverflow ≤ v then Flt.pinf else if v ≤ -fltOverflow then Flt.ninf else Flt.fin v

/-- Addition of `float`. -/
def Flt.add : Flt → Flt → Flt
  | Flt.fin a, Flt.fin b => Flt.ofExact (a + b)
  | Flt.nan, _ => Flt.nan
  | _, Flt.nan => Flt.nan
  | Flt.pinf, Flt.ninf => Flt.nan
  | Flt.ninf, Flt.pinf => Flt.nan
  | Flt.pinf, _ => Flt.pinf
  | _, Flt.pinf => Flt.pinf
  | Flt.ninf, _ => Flt.ninf
  | _, Flt.ninf => Flt.ninf

/-- Negation of `float`. -/
def Flt.neg : Flt → Flt
  | Flt.fin a => Flt.fin (-a)
  | Flt.pinf => Flt.ninf
  | Flt.ninf => Flt.pinf
  | Flt.nan => Flt.nan

/-- The product of an infinity of sign `s` (`true` for `+`) and the finite
value `a`. -/
def Flt.scaleInf (s : Bool) (a : Int) : Flt :=
  if a = 0 then Flt.nan else if decide (0 < a) = s then Flt.pinf else Flt.ninf

/-- Multiplication of `float`. -/
def Flt.mul : Flt → Flt → Flt
  | Flt.fin a, Flt.fin b => Flt.ofExact (a * b)
  | Flt.nan, _ => Flt.nan
  | _, Flt.nan => Flt.nan
  | Flt.fin a, Flt.pinf => Flt.scaleInf true a
  | Flt.fin a, Flt.ninf => Flt.scaleInf false a
  | Flt.pinf, Flt.fin b => Flt.scaleInf true b
  | Flt.ninf, Flt.fin b => Flt.scaleInf false b
  | Flt.pinf, Flt.pinf => Flt.pinf
  | Flt.ninf, Flt.ninf => Flt.pinf
  | Flt.pinf, Flt.ninf => Flt.ninf
  | Flt.ninf, Flt.pinf => Flt.ninf

/-- The comparison `a < b` of `float`; a NaN compares false. -/
def Flt.blt : Flt → Flt → Bool
  | Flt.fin a, Flt.fin b => decide (a < b)
  | Flt.fin _, Flt.pinf => true
  | Flt.ninf, Flt.fin _ => true
  | Flt.ninf, Flt.pinf => true
  | _, _ => false

/-- The comparison `a <= b` of `float`; a NaN compares false. -/
def Flt.ble : Flt → Flt → Bool
  | Flt.fin a, Flt.fin b => decide (a ≤ b)
  | Flt.nan, _ => false
  | _, Flt.nan => false
  | Flt.ninf, _ => true
  | _, Flt.pinf => true
  | _, _ => false

/-- The function `sqrt` of `<cmath>` on `float`; on a finite value the integer
square root stands for it (exact on squares). -/
def Flt.sqrt : Flt → Flt
  | Flt.fin v => if v < 0 then Flt.nan else Flt.fin (intSqrt v)
  | Flt.pinf => Flt.pinf
  | Flt.ninf => Flt.nan
  | Flt.nan => Flt.nan

instance Flt.instZero : Zero Flt := ⟨Flt.fin 0⟩

instance Flt.instAdd : Add Flt := ⟨Flt.add⟩

instance Flt.instSub : Sub Flt := ⟨fun a b => Flt.add a (Flt.neg b)⟩

instance Flt.instMul : Mul Flt := ⟨Flt.mul⟩

instance Flt.instLT : LT Flt := ⟨fun a b => Flt.blt a b = true⟩

instance Flt.instLE : LE Flt := ⟨fun a b => Flt.ble a b = true⟩

instance Flt.decLt (a b : Flt) : Decidable (a < b) :=
  inferInstanceAs (Decidable (Flt.blt a b = true))

/-- Three points of a 3-4-5 right triangle scaled by `2^63`: every distance is
far below `MAXFLOAT`, every squared coordinate difference is above it. -/
def bigTriangle : List (Point Flt) :=
  [⟨Flt.fin 0, Flt.fin 0⟩, ⟨Flt.fin 27670116110564327424, Flt.fin 0⟩,
    ⟨Flt.fin 27670116110564327424, Flt.fin 36893488147419103232⟩]

/-- The points of `bigTriangle` in exact arithmetic. -/
def bigTriangleExact : List (Point Int) :=
  [⟨0, 0⟩, ⟨27670116110564327424, 0⟩, ⟨27670116110564327424, 36893488147419103232⟩]

/-- A list of `65536` points, the least length whose square wraps to `0`. -/
def manyPoints : List (Point Int) := List.replicate 65536 ⟨0, 0⟩

/-! # Proofs -/

/-! ## Checked accesses and loops -/

section Access

variable {β : Type}

theorem readAt_ok_iff (xs : List β) (idx : Int) (v : β) :
    readAt xs idx = Except.ok v ↔ 0 ≤ idx ∧ xs[idx.toNat]? = some v := by
  unfold readAt
  by_cases h : 0 ≤ idx
  · simp only [h, if_true, true_and]
    cases hg : xs[idx.toNat]? <;> simp
  · simp [h]

theorem readAt_inRange (xs : List β) (idx : Int) (h0 : 0 ≤ idx) (h1 : idx < (xs.length : Int)) :
    ∃ v, readAt xs idx = Except.ok v := by
  have hlt : idx.toNat < xs.length := by omega
  refine ⟨xs.get ⟨idx.toNat, hlt⟩, ?_⟩
  rw [readAt_ok_iff]
  exact ⟨h0, by simp [List.getElem?_eq_getElem hlt]⟩

theorem readAt_bounds (xs : List β) (idx : Int) (v : β) (h : readAt xs idx = Except.ok v) :
    0 ≤ idx ∧ idx < (xs.length : Int) := by
  rw [readAt_ok_iff] at h
  obtain ⟨h0, hg⟩ := h
  obtain ⟨hlt, _⟩ := List.getElem?_eq_some.1 hg
  exact ⟨h0, by omega⟩

theorem readAt_outside (xs : List β) (idx : Int) (h : idx < 0 ∨ (xs.length : Int) ≤ idx) :
    readAt xs idx = Except.error Err.outOfBounds := by
  unfold readAt
  by_cases h0 : 0 ≤ idx
  · have hge : xs.length ≤ idx.toNat := by omega
    simp [h0, List.getElem?_eq_none hge]
  · simp [h0]

theorem writeAt_inRange (xs : List β) (idx : Int) (v : β) (h0 : 0 ≤ idx)
    (h1 : idx < (xs.length : Int)) : writeAt xs idx v = Except.ok (xs.set idx.toNat v) := by
  unfold writeAt
  simp [h0, h1]

theorem writeAt_ok (xs ys : List β) (idx : Int) (v : β) (h : writeAt xs idx v = Except.ok ys) :
    0 ≤ idx ∧ idx < (xs.length : Int) ∧ ys = xs.set idx.toNat v := by
  unfold writeAt at h
  by_cases hc : 0 ≤ idx ∧ idx < (xs.length : Int)
  · rw [if_pos hc] at h
    injection h with h
    exact ⟨hc.1, hc.2, h.symm⟩
  · rw [if_neg hc] at h
    cases h

theorem readAt_set_same (xs : List β) (idx : Int) (v : β) (h0 : 0 ≤ idx)
    (h1 : idx < (xs.length : Int)) : readAt (xs.set idx.toNat v) idx = Except.ok v := by
  rw [readAt_ok_iff]
  refine ⟨h0, ?_⟩
  have hlt : idx.toNat < xs.length := by omega
  simp [List.getElem?_set, hlt]

theorem readAt_set_other (xs : List β) (idx idx2 : Int) (v : β) (h0 : 0 ≤ idx)
    (hne : idx ≠ idx2) : readAt (xs.set idx.toNat v) idx2 = readAt xs idx2 := by
  unfold readAt
  by_cases h2 : 0 ≤ idx2
  · have hn : idx.toNat ≠ idx2.toNat := by omega
    simp only [h2, if_true]
    rw [List.getElem?_set_ne hn]
  · simp [h2]

theorem forLoop_inv {σ : Type} (body : Int → σ → Except Err σ) (I : Int → σ → Prop) :
    ∀ (n : Nat) (lo : Int) (s : σ), I lo s →
      (∀ v t, lo ≤ v → v < lo + n → I v t → ∃ t2, body v t = Except.ok t2 ∧ I (v + 1) t2) →
      ∃ s2, forLoop body n lo s = Except.ok s2 ∧ I (lo + n) s2 := by
  intro n
  induction n with
  | zero =>
    intro lo s h0 _
    exact ⟨s, rfl, by simpa using h0⟩
  | succ n ih =>
    intro lo s h0 hstep
    obtain ⟨t2, hb, hI⟩ := hstep lo s (le_refl _) (by push_cast; omega) h0
    obtain ⟨s2, hl, hI2⟩ := ih (lo + 1) t2 hI (fun v t hv1 hv2 hIv =>
      hstep v t (by omega) (by push_cast; omega) hIv)
    refine ⟨s2, ?_, ?_⟩
    · simp only [forLoop, hb]
      exact hl
    · have : lo + ((n + 1 : Nat) : Int) = lo + 1 + (n : Int) := by push_cast; ring
      rw [this]
      exact hI2

theorem forLoop_post {σ : Type} (body : Int → σ → Except Err σ) (I : Int → σ → Prop)
    (Q : σ → Prop) (n : Nat) (lo : Int) (s : σ) (h0 : I lo s)
    (hstep : ∀ v t, lo ≤ v → v < lo + n → I v t → ∃ t2, body v t = Except.ok t2 ∧ I (v + 1) t2)
    (hpost : ∀ s2, I (lo + n) s2 → Q s2) :
    ∃ s2, forLoop body n lo s = Except.ok s2 ∧ Q s2 := by
  obtain ⟨s2, h1, h2⟩ := forLoop_inv body I n lo s h0 hstep
  exact ⟨s2, h1, hpost s2 h2⟩

theorem writeAt_spec (xs : List β) (idx : Int) (v : β) (h0 : 0 ≤ idx)
    (h1 : idx < (xs.length : Int)) :
    ∃ ys, writeAt xs idx v = Except.ok ys ∧ ys.length = xs.length ∧
      readAt ys idx = Except.ok v ∧ ∀ idx2, idx2 ≠ idx → readAt ys idx2 = readAt xs idx2 := by
  refine ⟨xs.set idx.toNat v, writeAt_inRange xs idx v h0 h1, by simp,
    readAt_set_same xs idx v h0 h1, ?_⟩
  intro idx2 hne
  exact readAt_set_other xs idx idx2 v h0 (fun h => hne h.symm)

theorem newFloats_length (junkF : Nat → β) (n : Int) (hn : 0 ≤ n) :
    ((newFloats junkF n).length : Int) = n := by
  simp [newFloats]
  omega

theorem newCells_length (junkF : Nat → β) (n : Int) (hn : 0 ≤ n) :
    ((newCells junkF n).length : Int) = n := by
  simp [newCells]
  omega

theorem newCells_sentinel (junkF : Nat → β) (n idx : Int) (c : Cell β)
    (h : readAt (newCells junkF n) idx = Except.ok c) : c.i = -1 ∧ c.k = -1 ∧ c.j = -1 := by
  rw [readAt_ok_iff] at h
  obtain ⟨_, hg⟩ := h
  unfold newCells at hg
  rw [List.getElem?_map] at hg
  cases hr : (List.range n.toNat)[idx.toNat]? with
  | none => rw [hr] at hg; cases hg
  | some t =>
    rw [hr] at hg
    simp only [Option.map_some', Option.some.injEq] at hg
    subst hg
    exact ⟨rfl, rfl, rfl⟩

end Access

/-! ## Table indices -/

theorem idx_inj (N i j i2 j2 : Int) (hj : 0 ≤ j) (hjN : j < N) (hj2 : 0 ≤ j2) (hj2N : j2 < N)
    (h : i * N + j = i2 * N + j2) : i = i2 ∧ j = j2 := by
  have hN : 0 ≤ N := by omega
  rcases lt_trichotomy i i2 with hlt | heq | hgt
  · exfalso
    have h1 : (i + 1) * N ≤ i2 * N := Int.mul_le_mul_of_nonneg_right (by omega) hN
    have h2 : (i + 1) * N = i * N + N := by ring
    omega
  · subst heq
    exact ⟨rfl, by omega⟩
  · exfalso
    have h1 : (i2 + 1) * N ≤ i * N := Int.mul_le_mul_of_nonneg_right (by omega) hN
    have h2 : (i2 + 1) * N = i2 * N + N := by ring
    omega

theorem idx_range (N i j : Int) (hi : 0 ≤ i) (hiN : i < N) (hj : 0 ≤ j) (hjN : j < N) :
    0 ≤ i * N + j ∧ i * N + j < N * N := by
  have hN : 0 ≤ N := by omega
  have h0 : 0 ≤ i * N := Int.mul_nonneg hi hN
  have h1 : (i + 1) * N ≤ N * N := Int.mul_le_mul_of_nonneg_right (by omega) hN
  have h2 : (i + 1) * N = i * N + N := by ring
  constructor <;> omega

section TableLemmas

variable {α : Type} [LinearOrderedCommRing α]

theorem readAt_getCell (C : List (Cell α)) (N i j : Int) (hlen : (C.length : Int) = N * N)
    (hi : 0 ≤ i) (hiN : i < N) (hj : 0 ≤ j) (hjN : j < N) :
    readAt C (i * N + j) = Except.ok (getCell C N i j) := by
  obtain ⟨h0, h1⟩ := idx_range N i j hi hiN hj hjN
  obtain ⟨v, hv⟩ := readAt_inRange C (i * N + j) h0 (by omega)
  simp [getCell, hv]

theorem writeAt_cell (C : List (Cell α)) (N i j : Int) (v : Cell α)
    (hlen : (C.length : Int) = N * N) (hi : 0 ≤ i) (hiN : i < N) (hj : 0 ≤ j) (hjN : j < N) :
    ∃ C2, writeAt C (i * N + j) v = Except.ok C2 ∧ (C2.length : Int) = N * N ∧
      getCell C2 N i j = v ∧
      ∀ a b, 0 ≤ b → b < N → (a ≠ i ∨ b ≠ j) → getCell C2 N a b = getCell C N a b := by
  obtain ⟨h0, h1⟩ := idx_range N i j hi hiN hj hjN
  refine ⟨C.set (i * N + j).toNat v, writeAt_inRange C _ v h0 (by omega), ?_, ?_, ?_⟩
  · simpa using hlen
  · simp [getCell, readAt_set_same C _ v h0 (by omega)]
  · intro a b hb hbN hne
    have hidx : i * N + j ≠ a * N + b := by
      intro heq
      obtain ⟨e1, e2⟩ := idx_inj N i j a b hj hjN hb hbN heq
      rcases hne with h | h
      · exact h e1.symm
      · exact h e2.symm
    simp [getCell, readAt_set_other C _ _ v h0 hidx]

theorem calculateDistance_ok (sqrt : α → α) (points : List (Point α)) (i j : Int)
    (hi : 0 ≤ i) (hiN : i < (points.length : Int)) (hj : 0 ≤ j)
    (hjN : j < (points.length : Int)) :
    calculateDistance sqrt i j points = Except.ok (distOf sqrt points i j) := by
  obtain ⟨p1, h1⟩ := readAt_inRange points i hi hiN
  obtain ⟨p2, h2⟩ := readAt_inRange points j hj hjN
  simp [distOf, calculateDistance, h1, h2, bind, Except.bind, pure, Except.pure]

/-! ## The distance loop -/

theorem distanceBody_spec (sqrt : α → α) (points : List (Point α)) (N i j : Int)
    (C : List (Cell α)) (hN : N = (points.length : Int)) (hlen : (C.length : Int) = N * N)
    (hi : 0 ≤ i) (hiN : i < N) (hj : 0 ≤ j) (hjN : j < N) :
    ∃ C2, (do
        let d ← calculateDistance sqrt i j points
        let c ← readAt C (i * N + j)
        writeAt C (i * N + j) { c with dist := d }) = Except.ok C2 ∧
      (C2.length : Int) = N * N ∧
      getCell C2 N i j = { getCell C N i j with dist := distOf sqrt points i j } ∧
      ∀ a b, 0 ≤ b → b < N → (a ≠ i ∨ b ≠ j) → getCell C2 N a b = getCell C N a b := by
  obtain ⟨C2, hw, h1, h2, h3⟩ := writeAt_cell C N i j
    { getCell C N i j with dist := distOf sqrt points i j } hlen hi hiN hj hjN
  refine ⟨C2, ?_, h1, h2, h3⟩
  rw [calculateDistance_ok sqrt points i j hi (by omega) hj (by omega),
    readAt_getCell C N i j hlen hi hiN hj hjN]
  exact hw

theorem distancePhase_spec (sqrt : α → α) (points : List (Point α)) (N : Int)
    (C : List (Cell α)) (hN : N = (points.length : Int)) (hlen : (C.length : Int) = N * N)
    (hfresh : ∀ a b, 0 ≤ a → a < N → 0 ≤ b → b < N → Fresh (getCell C N a b)) :
    ∃ C2, distancePhase sqrt points N C = Except.ok C2 ∧ DistInv sqrt points N N 0 C2 := by
  unfold distancePhase
  have hN0 : 0 ≤ N := by omega
  obtain ⟨C2, hrun, hinv⟩ := forLoop_inv _ (fun r T => DistInv sqrt points N r 0 T) N.toNat 0 C
    ⟨hlen, hfresh, by intro a b h1 h2 h3 h4; omega⟩ (by
      intro r T hr0 hrN hT
      have hrN2 : r < N := by omega
      obtain ⟨T2, hrun2, hinv2⟩ := forLoop_inv _ (fun c U => DistInv sqrt points N r c U)
        (N - r).toNat r T ⟨hT.1, hT.2.1, by
          intro a b h1 h2 h3 h4
          exact hT.2.2 a b h1 h2 h3 (by omega)⟩ (by
          intro c U hc0 hcN hU
          have hcN2 : c < N := by omega
          obtain ⟨U2, hb, hl, hcell, hother⟩ := distanceBody_spec sqrt points N r c U hN hU.1
            hr0 hrN2 (by omega) hcN2
          refine ⟨U2, hb, hl, ?_, ?_⟩
          · intro a b h1 h2 h3 h4
            by_cases hab : a = r ∧ b = c
            · obtain ⟨e1, e2⟩ := hab
              subst e1; subst e2
              rw [hcell]
              exact hU.2.1 a b h1 h2 h3 h4
            · rw [hother a b h3 h4 (by omega)]
              exact hU.2.1 a b h1 h2 h3 h4
          · intro a b h1 h2 h3 h4
            by_cases hab : a = r ∧ b = c
            · obtain ⟨e1, e2⟩ := hab
              subst e1; subst e2
              rw [hcell]
            · rw [hother a b (by omega) h3 (by omega)]
              exact hU.2.2 a b h1 h2 h3 (by omega))
      refine ⟨T2, hrun2, hinv2.1, hinv2.2.1, ?_⟩
      intro a b h1 h2 h3 h4
      exact hinv2.2.2 a b h1 h2 h3 (by omega))
  refine ⟨C2, hrun, hinv.1, hinv.2.1, ?_⟩
  intro a b h1 h2 h3 h4
  exact hinv.2.2 a b h1 h2 h3 (by omega)

/-! ## The scratch buffers of one cell -/

theorem fillLeft_spec (N i j : Int) (C : List (Cell α)) (c1 : List α)
    (hlen : (C.length : Int) = N * N) (hi : 0 ≤ i) (hjN : j < N)
    (hc1 : (c1.length : Int) = j - i - 1) :
    ∃ r, fillLeft N i j C c1 0 = Except.ok r ∧ ((r.1.length : Int) = j - i - 1 ∧
      ∀ t, 0 ≤ t → t < j - i - 1 → readAt r.1 t = Except.ok (leftCost C N i (i + 1 + t))) := by
  unfold fillLeft
  refine forLoop_post _ (fun k (s : List α × Int) =>
      s.2 = k - (i + 1) ∧ (s.1.length : Int) = j - i - 1 ∧
      ∀ t, 0 ≤ t → t < s.2 → readAt s.1 t = Except.ok (leftCost C N i (i + 1 + t))) _ _ _ _
    ⟨by simp, hc1, by intro t h1 h2; simp at h2; omega⟩ ?_ ?_
  · intro k s hk0 hkj hs
    obtain ⟨hs1, hs2, hs3⟩ := hs
    have hkj2 : k < j := by omega
    obtain ⟨ys, hw, hl, hsame, hoth⟩ := writeAt_spec s.1 s.2
      ((getCell C N i k).cost + (getCell C N i k).dist) (by omega) (by omega)
    refine ⟨(ys, s.2 + 1), ?_, ?_, ?_, ?_⟩
    · rw [readAt_getCell C N i k hlen hi (by omega) (by omega) (by omega)]
      simp only [bind, Except.bind, hw]
      rfl
    · simp only; omega
    · simp only; omega
    · intro t ht0 htl
      simp only at htl
      by_cases hts : t = s.2
      · subst hts
        rw [hsame]
        have : i + 1 + s.2 = k := by omega
        rw [this]
        rfl
      · simp only
        rw [hoth t hts]
        exact hs3 t ht0 (by omega)
  · intro r hinv
    refine ⟨hinv.2.1, ?_⟩
    intro t ht0 ht1
    exact hinv.2.2 t ht0 (by omega)

theorem fillRight_spec (N i j : Int) (C : List (Cell α)) (c2 : List α)
    (hlen : (C.length : Int) = N * N) (hi : 0 ≤ i) (hjN : j < N)
    (hc2 : (c2.length : Int) = j - i - 1) :
    ∃ r, fillRight N i j C c2 0 = Except.ok r ∧ ((r.1.length : Int) = j - i - 1 ∧
      ∀ t, 0 ≤ t → t < j - i - 1 → readAt r.1 t = Except.ok (rightCost C N (i + 1 + t) j)) := by
  unfold fillRight
  refine forLoop_post _ (fun k (s : List α × Int) =>
      s.2 = k - (i + 1) ∧ (s.1.length : Int) = j - i - 1 ∧
      ∀ t, 0 ≤ t → t < s.2 → readAt s.1 t = Except.ok (rightCost C N (i + 1 + t) j)) _ _ _ _
    ⟨by simp, hc2, by intro t h1 h2; simp at h2; omega⟩ ?_ ?_
  · intro k s hk0 hkj hs
    obtain ⟨hs1, hs2, hs3⟩ := hs
    have hkj2 : k < j := by omega
    obtain ⟨ys, hw, hl, hsame, hoth⟩ := writeAt_spec s.1 s.2
      ((getCell C N k j).cost + (getCell C N k j).dist) (by omega) (by omega)
    refine ⟨(ys, s.2 + 1), ?_, ?_, ?_, ?_⟩
    · rw [readAt_getCell C N k j hlen (by omega) (by omega) (by omega) (by omega)]
      simp only [bind, Except.bind, hw]
      rfl
    · simp only; omega
    · simp only; omega
    · intro t ht0 htl
      simp only at htl
      by_cases hts : t = s.2
      · subst hts
        rw [hsame]
        have : i + 1 + s.2 = k := by omega
        rw [this]
        rfl
      · simp only
        rw [hoth t hts]
        exact hs3 t ht0 (by omega)
  · intro r hinv
    refine ⟨hinv.2.1, ?_⟩
    intro t ht0 ht1
    exact hinv.2.2 t ht0 (by omega)

theorem scan_spec (i j : Int) (c1 c2 : List α) (L R : Int → α) (M : α) (K0 : Int)
    (hc1 : (c1.length : Int) = j - i - 1)
    (h1 : ∀ t, 0 ≤ t → t < j - i - 1 → readAt c1 t = Except.ok (L t))
    (h2 : ∀ t, 0 ≤ t → t < j - i - 1 → readAt c2 t = Except.ok (R t)) :
    ∃ r, scan i j c2 c1 M K0 = Except.ok r ∧
      ((∀ t, 0 ≤ t → t < j - i - 1 → r.2.1 ≤ L t + R t) ∧
       ((r.2.1 = M ∧ r.2.2 = K0) ∨
        (r.2.1 < M ∧ ∃ t0, 0 ≤ t0 ∧ t0 < j - i - 1 ∧ r.2.2 = i + 1 + t0 ∧
          r.2.1 = L t0 + R t0 ∧ ∀ t, 0 ≤ t → t < t0 → L t0 + R t0 < L t + R t))) := by
  unfold scan
  refine forLoop_post _ (fun it (s : List α × α × Int) =>
      (s.1.length : Int) = j - i - 1 ∧
      (∀ t, it ≤ t → t < j - i - 1 → readAt s.1 t = Except.ok (L t)) ∧
      (∀ t, 0 ≤ t → t < it → s.2.1 ≤ L t + R t) ∧
      ((s.2.1 = M ∧ s.2.2 = K0) ∨
        (s.2.1 < M ∧ ∃ t0, 0 ≤ t0 ∧ t0 < it ∧ s.2.2 = i + 1 + t0 ∧
          s.2.1 = L t0 + R t0 ∧ ∀ t, 0 ≤ t → t < t0 → L t0 + R t0 < L t + R t))) _ _ _ _
    ⟨hc1, fun t ht0 ht1 => h1 t ht0 ht1, by intro t ht0 ht1; omega, Or.inl ⟨rfl, rfl⟩⟩ ?_ ?_
  · intro it s hit0 hitn hs
    obtain ⟨hs1, hs2, hs3, hs4⟩ := hs
    have hitn2 : it < j - i - 1 := by omega
    obtain ⟨ys, hw, hl, hsame, hoth⟩ := writeAt_spec s.1 it (L it + R it) hit0 (by omega)
    have hle : s.2.1 ≤ M := by
      rcases hs4 with h | h
      · exact le_of_eq h.1
      · exact le_of_lt h.1
    by_cases hgt : s.2.1 > L it + R it
    · refine ⟨(ys, L it + R it, i + 1 + it), ?_, ?_, ?_, ?_, ?_⟩
      · rw [hs2 it (le_refl _) hitn2, h2 it hit0 hitn2]
        simp only [bind, Except.bind, hw, hsame, hgt, if_true]
        rfl
      · simp only; omega
      · intro t ht0 ht1
        exact (hoth t (by omega)).trans (hs2 t (by omega) ht1)
      · intro t ht0 ht1
        by_cases hti : t = it
        · subst hti; exact le_refl _
        · exact le_of_lt (lt_of_lt_of_le hgt (hs3 t ht0 (by omega)))
      · right
        refine ⟨lt_of_lt_of_le hgt hle, it, hit0, by omega, rfl, rfl, ?_⟩
        intro t ht0 ht1
        exact lt_of_lt_of_le hgt (hs3 t ht0 ht1)
    · refine ⟨(ys, s.2.1, s.2.2), ?_, ?_, ?_, ?_, ?_⟩
      · rw [hs2 it (le_refl _) hitn2, h2 it hit0 hitn2]
        simp only [bind, Except.bind, hw, hsame, hgt, if_false]
        rfl
      · simp only; omega
      · intro t ht0 ht1
        exact (hoth t (by omega)).trans (hs2 t (by omega) ht1)
      · intro t ht0 ht1
        by_cases hti : t = it
        · subst hti; exact not_lt.1 hgt
        · exact hs3 t ht0 (by omega)
      · rcases hs4 with h | ⟨h, t0, ht0, ht1, ht2, ht3, ht4⟩
        · exact Or.inl h
        · exact Or.inr ⟨h, t0, ht0, by omega, ht2, ht3, ht4⟩
  · intro r hinv
    obtain ⟨_, _, h3, h4⟩ := hinv
    refine ⟨fun t ht0 ht1 => h3 t ht0 (by omega), ?_⟩
    rcases h4 with h | ⟨h, t0, ht0, ht1, ht2, ht3, ht4⟩
    · exact Or.inl h
    · exact Or.inr ⟨h, t0, ht0, by omega, ht2, ht3, ht4⟩

/-! ## The cost loop -/

theorem candidate_congr (A B : List (Cell α)) (N i k j : Int)
    (h1 : getCell A N i k = getCell B N i k) (h2 : getCell A N k j = getCell B N k j) :
    candidate A N i k j = candidate B N i k j := by
  simp [candidate, leftCost, rightCost, h1, h2]

theorem costCell_spec (MAXFLOAT : α) (junkF : Nat → α) (junkI : Int) (N d j : Int)
    (C : List (Cell α)) (hlen : (C.length : Int) = N * N) (hd : 0 ≤ d) (hdj : d ≤ j)
    (hjN : j < N) (hfresh : Fresh (getCell C N (j - d) j)) :
    ∃ C2, costCell MAXFLOAT junkF junkI N d j C = Except.ok C2 ∧
      (C2.length : Int) = N * N ∧
      (∀ a b, 0 ≤ b → b < N → (a ≠ j - d ∨ b ≠ j) → getCell C2 N a b = getCell C N a b) ∧
      (getCell C2 N (j - d) j).dist = (getCell C N (j - d) j).dist ∧
      CellDone MAXFLOAT C2 N (j - d) j := by
  have hi : 0 ≤ j - d := by omega
  have hiN : j - d < N := by omega
  have hj : 0 ≤ j := by omega
  unfold costCell
  simp only []
  by_cases hsmall : j < j - d + 2
  · rw [if_pos hsmall, readAt_getCell C N (j - d) j hlen hi hiN hj hjN]
    obtain ⟨C2, hw, hl, hc, ho⟩ := writeAt_cell C N (j - d) j
      { getCell C N (j - d) j with cost := 0 } hlen hi hiN hj hjN
    refine ⟨C2, hw, hl, ho, by rw [hc], ?_, ?_⟩
    · intro _
      rw [hc]
      exact ⟨rfl, hfresh⟩
    · intro h; omega
  · rw [if_neg hsmall, readAt_getCell C N (j - d) j hlen hi hiN hj hjN]
    obtain ⟨C1, hw1, hl1, hc1, ho1⟩ := writeAt_cell C N (j - d) j
      { getCell C N (j - d) j with cost := MAXFLOAT } hlen hi hiN hj hjN
    obtain ⟨⟨b1, it1⟩, hfl, hfl1, hfl2⟩ := fillLeft_spec N (j - d) j C1
      (newFloats junkF (d - 1)) hl1 hi hjN (by rw [newFloats_length junkF _ (by omega)]; omega)
    obtain ⟨⟨b2, it2⟩, hfr, hfr1, hfr2⟩ := fillRight_spec N (j - d) j C1
      (newFloats junkF (d - 1)) hl1 hi hjN (by rw [newFloats_length junkF _ (by omega)]; omega)
    obtain ⟨⟨b3, cst, lk⟩, hsc, hsc1, hsc2⟩ := scan_spec (j - d) j b1 b2
      (fun t => leftCost C1 N (j - d) (j - d + 1 + t))
      (fun t => rightCost C1 N (j - d + 1 + t) j) MAXFLOAT junkI hfl1 hfl2 hfr2
    simp only at hsc1 hsc2 hfl1 hfl2 hfr1 hfr2
    have hr1 := readAt_getCell C1 N (j - d) j hl1 hi hiN hj hjN
    have hcand : ∀ (T : List (Cell α)), (∀ a b, 0 ≤ b → b < N → (a ≠ j - d ∨ b ≠ j) →
        getCell T N a b = getCell C1 N a b) → ∀ k, j - d < k → k < j →
        candidate T N (j - d) k j = leftCost C1 N (j - d) (j - d + 1 + (k - (j - d) - 1)) +
          rightCost C1 N (j - d + 1 + (k - (j - d) - 1)) j := by
      intro T hT k hk1 hk2
      have e : j - d + 1 + (k - (j - d) - 1) = k := by ring
      rw [e]
      unfold candidate leftCost rightCost
      rw [hT (j - d) k (by omega) (by omega) (Or.inr (by omega)),
        hT k j hj hjN (Or.inl (by omega))]
    by_cases hfill : cst < MAXFLOAT
    · obtain ⟨C2, hw2, hl2, hc2, ho2⟩ := writeAt_cell C1 N (j - d) j
        ⟨cst + (getCell C1 N (j - d) j).dist, (getCell C1 N (j - d) j).dist, j - d, lk, j⟩
        hl1 hi hiN hj hjN
      refine ⟨C2, ?_, hl2, ?_, ?_, ?_, ?_⟩
      · simp only [bind, Except.bind, hw1, hr1, hfl, hfr, hsc, hc1, hfill, if_true]
        rw [hc1] at hw2
        exact hw2
      · intro a b hb hbN hne
        rw [ho2 a b hb hbN hne, ho1 a b hb hbN hne]
      · rw [hc2, hc1]
      · intro h; omega
      · intro _
        right
        rcases hsc2 with ⟨h, _⟩ | ⟨_, t0, ht0, ht1, ht2, ht3, ht4⟩
        · exact absurd hfill (by rw [h]; exact lt_irrefl _)
        · have hk : (getCell C2 N (j - d) j).k = j - d + 1 + t0 := by rw [hc2]; exact ht2
          have hcd := hcand C2 ho2
          have hck : candidate C2 N (j - d) (j - d + 1 + t0) j = cst := by
            rw [hcd _ (by omega) (by omega), ht3]
            have e : j - d + 1 + t0 - (j - d) - 1 = t0 := by ring
            rw [e]
          rw [hk, hck]
          refine ⟨by rw [hc2], by rw [hc2], by omega, by omega, hfill, by rw [hc2, hc1], ?_, ?_⟩
          · intro k hk1 hk2
            rw [hcd k hk1 hk2]
            exact hsc1 _ (by omega) (by omega)
          · intro k hk1 hk2
            rw [hcd k hk1 (by omega), ht3]
            exact ht4 _ (by omega) (by omega)
    · refine ⟨C1, ?_, hl1, ho1, by rw [hc1], ?_, ?_⟩
      · simp only [bind, Except.bind, hw1, hr1, hfl, hfr, hsc, hc1, hfill, if_false]
        rfl
      · intro h; omega
      · intro _
        left
        refine ⟨?_, by rw [hc1], by rw [hc1]; exact hfresh⟩
        intro k hk1 hk2 hlt
        rw [hcand C1 (fun _ _ _ _ _ => rfl) k hk1 hk2] at hlt
        exact hfill (lt_of_le_of_lt (hsc1 _ (by omega) (by omega)) hlt)

theorem CellDone_congr (MAXFLOAT : α) (A B : List (Cell α)) (N a b : Int)
    (hcell : getCell A N a b = getCell B N a b)
    (hcand : ∀ k, a < k → k < b → candidate A N a k b = candidate B N a k b)
    (h : CellDone MAXFLOAT B N a b) : CellDone MAXFLOAT A N a b := by
  unfold CellDone at h ⊢
  rw [hcell]
  refine ⟨h.1, fun hab => ?_⟩
  rcases h.2 hab with ⟨h1, h2⟩ | ⟨h1, h2, h3, h4, h5, h6, h7, h8⟩
  · left
    exact ⟨fun k hk1 hk2 => by rw [hcand k hk1 hk2]; exact h1 k hk1 hk2, h2⟩
  · right
    rw [hcand _ h3 h4]
    refine ⟨h1, h2, h3, h4, h5, h6, ?_, ?_⟩
    · intro k hk1 hk2
      rw [hcand k hk1 hk2]
      exact h7 k hk1 hk2
    · intro k hk1 hk2
      rw [hcand k hk1 (by omega)]
      exact h8 k hk1 hk2

theorem costPhase_spec (sqrt : α → α) (points : List (Point α)) (MAXFLOAT : α)
    (junkF : Nat → α) (junkI : Int) (N : Int) (C : List (Cell α)) (hN : 0 ≤ N)
    (h0 : CostInv sqrt points MAXFLOAT N 0 0 C) :
    ∃ C2, costPhase MAXFLOAT junkF junkI N C = Except.ok C2 ∧
      CostInv sqrt points MAXFLOAT N N 0 C2 := by
  unfold costPhase
  refine forLoop_post _ (fun d T => CostInv sqrt points MAXFLOAT N d 0 T) _ _ _ _ h0 ?_ ?_
  · intro d T hd0 hdN hT
    have hdN2 : d < N := by omega
    refine forLoop_post _ (fun c U => CostInv sqrt points MAXFLOAT N d c U) _ _ _ _
      ⟨hT.1, hT.2.1, fun a b h1 h2 h3 h4 => hT.2.2.1 a b h1 h2 h3 (by omega),
        fun a b h1 h2 h3 h4 h5 => hT.2.2.2 a b h1 h2 h3 h4 (by omega)⟩ ?_ ?_
    · intro c U hc0 hcN hU
      have hcN2 : c < N := by omega
      obtain ⟨hU1, hU2, hU3, hU4⟩ := hU
      obtain ⟨U2, hrun, hl, hoth, hdist, hdone⟩ := costCell_spec MAXFLOAT junkF junkI N d c U
        hU1 hd0 hc0 hcN2 (hU4 (c - d) c (by omega) (by omega) (by omega) hcN2 (by omega))
      refine ⟨U2, hrun, hl, ?_, ?_, ?_⟩
      · intro a b h1 h2 h3
        by_cases hab : a = c - d ∧ b = c
        · obtain ⟨e1, e2⟩ := hab
          subst e2; subst e1
          rw [hdist]
          exact hU2 _ _ h1 h2 h3
        · rw [hoth a b (by omega) h3 (by omega)]
          exact hU2 a b h1 h2 h3
      · intro a b h1 h2 h3 h4
        by_cases hab : a = c - d ∧ b = c
        · obtain ⟨e1, e2⟩ := hab
          subst e2; subst e1
          exact hdone
        · refine CellDone_congr MAXFLOAT U2 U N a b (hoth a b (by omega) h3 (by omega)) ?_
            (hU3 a b h1 h2 h3 (by omega))
          intro k hk1 hk2
          exact candidate_congr U2 U N a k b (hoth a k (by omega) (by omega) (by omega))
            (hoth k b (by omega) h3 (by omega))
      · intro a b h1 h2 h3 h4 h5
        rw [hoth a b h3 h4 (by omega)]
        exact hU4 a b h1 h2 h3 h4 (by omega)
    · intro U hU
      exact ⟨hU.1, hU.2.1, fun a b h1 h2 h3 h4 => hU.2.2.1 a b h1 h2 h3 (by omega),
        fun a b h1 h2 h3 h4 h5 => hU.2.2.2 a b h1 h2 h3 h4 (by omega)⟩
  · intro C2 hC2
    have e : (0 : Int) + ((N.toNat : Nat) : Int) = N := by omega
    rw [e] at hC2
    exact hC2

theorem fillTable_finished (sqrt : α → α) (MAXFLOAT : α) (junkF : Nat → α) (junkI : Int)
    (points : List (Point α)) :
    ∃ C, fillTable sqrt MAXFLOAT junkF junkI points = Except.ok C ∧
      Finished sqrt MAXFLOAT points C := by
  have hN : (0 : Int) ≤ (points.length : Int) := by omega
  have hlen0 := newCells_length junkF ((points.length : Int) * (points.length : Int))
    (Int.mul_nonneg hN hN)
  have hfresh0 : ∀ a b, 0 ≤ a → a < (points.length : Int) → 0 ≤ b → b < (points.length : Int) →
      Fresh (getCell (newCells junkF ((points.length : Int) * (points.length : Int)))
        (points.length : Int) a b) := by
    intro a b h1 h2 h3 h4
    exact newCells_sentinel junkF _ _ _ (readAt_getCell _ _ a b hlen0 h1 h2 h3 h4)
  obtain ⟨C1, hd, hd1, hd2, hd3⟩ := distancePhase_spec sqrt points (points.length : Int)
    _ rfl hlen0 hfresh0
  obtain ⟨C2, hc, hc1, hc2, hc3, hc4⟩ := costPhase_spec sqrt points MAXFLOAT junkF junkI
    (points.length : Int) C1 hN
    ⟨hd1, fun a b h1 h2 h3 => hd3 a b h1 h2 h3 (by omega), fun a b h1 h2 h3 h4 => by omega,
      fun a b h1 h2 h3 h4 _ => hd2 a b h1 h2 h3 h4⟩
  refine ⟨C2, ?_, hc1, hc2, fun a b h1 h2 h3 => hc3 a b h1 h2 h3 (by omega),
    fun a b h1 h2 h3 => hc4 a b (by omega) h3 h1 (by omega) (by omega)⟩
  unfold fillTable
  simp only [bind, Except.bind, hd]
  exact hc

/-! ## Extraction -/

theorem findTriangle_stop (f : Nat) (c1 c2 N : Int) (C : List (Cell α)) (cell : Cell α)
    (tris : List Triangle) (hr : readAt C (c1 * N + c2) = Except.ok cell) (hneg : cell.i < 0) :
    findTriangle (f + 1) c1 c2 C N tris = Except.ok tris := by
  simp only [findTriangle, hr, bind, Except.bind, hneg, if_true]
  rfl

theorem findTriangle_node (f : Nat) (c1 c2 N : Int) (C : List (Cell α)) (cell : Cell α)
    (tris L1 L2 : List Triangle) (hr : readAt C (c1 * N + c2) = Except.ok cell)
    (hpos : ¬ cell.i < 0)
    (h1 : ∀ t, findTriangle f cell.i cell.k C N t = Except.ok (t ++ L1))
    (h2 : ∀ t, findTriangle f cell.k cell.j C N t = Except.ok (t ++ L2)) :
    findTriangle (f + 1) c1 c2 C N tris =
      Except.ok (tris ++ (cell.i, cell.k, cell.j) :: (L1 ++ L2)) := by
  simp only [findTriangle, hr, bind, Except.bind, hpos, if_false, h1, h2]
  simp

theorem extract_induction (sqrt : α → α) (MAXFLOAT : α) (points : List (Point α))
    (C : List (Cell α)) (hC : Finished sqrt MAXFLOAT points C)
    (P : Int → Int → List Triangle → Prop)
    (hstop : ∀ i j, 0 ≤ i → i ≤ j → j < (points.length : Int) →
      Fresh (getCell C (points.length : Int) i j) →
      (i + 2 ≤ j → ∀ k, i < k → k < j → ¬ candidate C (points.length : Int) i k j < MAXFLOAT) →
      P i j [])
    (hnode : ∀ i k j L1 L2, 0 ≤ i → i < k → k < j → j < (points.length : Int) →
      (getCell C (points.length : Int) i j).i = i →
      (getCell C (points.length : Int) i j).k = k →
      (getCell C (points.length : Int) i j).j = j →
      P i k L1 → P k j L2 → P i j ((i, k, j) :: (L1 ++ L2))) :
    ∀ (f : Nat) (i j : Int), 0 ≤ i → i ≤ j → j < (points.length : Int) → j - i ≤ f → 1 ≤ f →
      ∃ L, (∀ tris, findTriangle f i j C (points.length : Int) tris = Except.ok (tris ++ L)) ∧
        P i j L := by
  intro f
  induction f with
  | zero => intro i j _ _ _ _ h; omega
  | succ f ih =>
    intro i j hi hij hjN hspan _
    obtain ⟨hlen, _, hdone, _⟩ := hC
    have hr := readAt_getCell C (points.length : Int) i j hlen hi (by omega) (by omega) hjN
    obtain ⟨hsmall, hbig⟩ := hdone i j hi hij hjN
    have hstopcase : Fresh (getCell C (points.length : Int) i j) →
        (i + 2 ≤ j → ∀ k, i < k → k < j →
          ¬ candidate C (points.length : Int) i k j < MAXFLOAT) →
        ∃ L, (∀ tris, findTriangle (f + 1) i j C (points.length : Int) tris =
          Except.ok (tris ++ L)) ∧ P i j L := by
      intro hfr hno
      refine ⟨[], ?_, hstop i j hi hij hjN hfr hno⟩
      intro tris
      rw [findTriangle_stop f i j _ C _ tris hr (by rw [hfr.1]; decide)]
      simp
    by_cases hsp : j < i + 2
    · exact hstopcase (hsmall hsp).2 (fun h => by omega)
    · rcases hbig (by omega) with ⟨h1, _, h3⟩ | ⟨h1, h2, h3, h4, _⟩
      · exact hstopcase h3 (fun _ => h1)
      · obtain ⟨L1, hL1, hP1⟩ := ih i (getCell C (points.length : Int) i j).k hi (by omega)
          (by omega) (by omega) (by omega)
        obtain ⟨L2, hL2, hP2⟩ := ih (getCell C (points.length : Int) i j).k j (by omega)
          (by omega) hjN (by omega) (by omega)
        refine ⟨(i, (getCell C (points.length : Int) i j).k, j) :: (L1 ++ L2), ?_,
          hnode i _ j L1 L2 hi h3 h4 hjN h1 rfl h2 hP1 hP2⟩
        intro tris
        have := findTriangle_node f i j _ C _ tris L1 L2 hr (by rw [h1]; omega)
          (by rw [h1]; exact hL1) (by rw [h2]; exact hL2)
        rw [h1, h2] at this
        exact this

/-! ## The whole run -/

variable (sqrt : α → α) (MAXFLOAT : α) (junkF : Nat → α) (junkI : Int)

theorem finalTable_spec (points : List (Point α)) :
    fillTable sqrt MAXFLOAT junkF junkI points =
      Except.ok (finalTable sqrt MAXFLOAT junkF junkI points) ∧
    Finished sqrt MAXFLOAT points (finalTable sqrt MAXFLOAT junkF junkI points) := by
  obtain ⟨C, h1, h2⟩ := fillTable_finished sqrt MAXFLOAT junkF junkI points
  have e : finalTable sqrt MAXFLOAT junkF junkI points = C := by simp [finalTable, h1]
  rw [e]
  exact ⟨h1, h2⟩

theorem triangulate_run (points : List (Point α)) (fuel : Nat)
    (P : Int → Int → List Triangle → Prop)
    (hstop : ∀ i j, 0 ≤ i → i ≤ j → j < (points.length : Int) →
      Fresh (getCell (finalTable sqrt MAXFLOAT junkF junkI points) (points.length : Int) i j) →
      (i + 2 ≤ j → ∀ k, i < k → k < j →
        ¬ candidate (finalTable sqrt MAXFLOAT junkF junkI points) (points.length : Int) i k j
          < MAXFLOAT) →
      P i j [])
    (hnode : ∀ i k j L1 L2, 0 ≤ i → i < k → k < j → j < (points.length : Int) →
      (getCell (finalTable sqrt MAXFLOAT junkF junkI points) (points.length : Int) i j).i = i →
      (getCell (finalTable sqrt MAXFLOAT junkF junkI points) (points.length : Int) i j).k = k →
      (getCell (finalTable sqrt MAXFLOAT junkF junkI points) (points.length : Int) i j).j = j →
      P i k L1 → P k j L2 → P i j ((i, k, j) :: (L1 ++ L2)))
    (hN : 1 ≤ points.length) (hfuel : points.length ≤ fuel) :
    ∃ L, triangulate sqrt MAXFLOAT junkF junkI fuel points =
        Except.ok (L, (getCell (finalTable sqrt MAXFLOAT junkF junkI points)
          (points.length : Int) 0 ((points.length : Int) - 1)).cost) ∧
      P 0 ((points.length : Int) - 1) L := by
  obtain ⟨hfill, hfin⟩ := finalTable_spec sqrt MAXFLOAT junkF junkI points
  obtain ⟨L, hL, hP⟩ := extract_induction sqrt MAXFLOAT points _ hfin P hstop hnode fuel 0
    ((points.length : Int) - 1) (le_refl _) (by omega) (by omega) (by omega) (by omega)
  refine ⟨L, ?_, hP⟩
  have hr := readAt_getCell (finalTable sqrt MAXFLOAT junkF junkI points) (points.length : Int)
    0 ((points.length : Int) - 1) hfin.1 (le_refl _) (by omega) (by omega) (by omega)
  have e : (0 : Int) * (points.length : Int) + ((points.length : Int) - 1)
      = (points.length : Int) - 1 := by ring
  rw [e] at hr
  unfold triangulate
  simp only [bind, Except.bind, hfill, hL, hr, pure, Except.pure, List.nil_append]

end TableLemmas

/-! ## Lemmas shared by the claims -/

section Shared

variable {α : Type} [LinearOrderedCommRing α]
variable (sqrt : α → α) (MAXFLOAT : α) (junkF : Nat → α) (junkI : Int)

theorem filled_of_below (points : List (Point α)) (C : List (Cell α))
    (hC : Finished sqrt MAXFLOAT points C)
    (hM : BelowSentinel MAXFLOAT C (points.length : Int)) (i j : Int) (hi : 0 ≤ i)
    (hij : i + 2 ≤ j) (hjN : j < (points.length : Int)) :
    (getCell C (points.length : Int) i j).i = i ∧ (getCell C (points.length : Int) i j).j = j ∧
    i < (getCell C (points.length : Int) i j).k ∧ (getCell C (points.length : Int) i j).k < j ∧
    (getCell C (points.length : Int) i j).cost =
      candidate C (points.length : Int) i (getCell C (points.length : Int) i j).k j +
        distOf sqrt points i j ∧
    (∀ k, i < k → k < j →
      candidate C (points.length : Int) i (getCell C (points.length : Int) i j).k j ≤
        candidate C (points.length : Int) i k j) ∧
    (∀ k, i < k → k < (getCell C (points.length : Int) i j).k →
      candidate C (points.length : Int) i (getCell C (points.length : Int) i j).k j <
        candidate C (points.length : Int) i k j) := by
  obtain ⟨_, hdist, hdone, _⟩ := hC
  rcases (hdone i j hi (by omega) hjN).2 hij with ⟨h1, _⟩ | ⟨h1, h2, h3, h4, _, h6, h7, h8⟩
  · exact absurd (hM i hi (by omega) (i + 1) (le_refl _) (by omega) j (by omega) hjN)
      (h1 (i + 1) (by omega) (by omega))
  · refine ⟨h1, h2, h3, h4, ?_, h7, h8⟩
    rw [h6, hdist i j hi (by omega) hjN]

theorem cost_le_tree (points : List (Point α)) (C : List (Cell α))
    (hC : Finished sqrt MAXFLOAT points C)
    (hM : BelowSentinel MAXFLOAT C (points.length : Int)) (t : SplitTree) :
    ∀ i j, 0 ≤ i → i ≤ j → j < (points.length : Int) → t.Valid i j →
      (getCell C (points.length : Int) i j).cost ≤
        totalPerimeter (distOf sqrt points) (t.triangles i j) := by
  induction t with
  | leaf =>
    intro i j hi hij hjN hv
    have := ((hC.2.2.1 i j hi hij hjN).1 hv).1
    rw [this]
    simp [SplitTree.triangles, totalPerimeter]
  | node k l r ihl ihr =>
    intro i j hi hij hjN hv
    obtain ⟨hk1, hk2, hvl, hvr⟩ := hv
    obtain ⟨_, _, _, _, hcost, hmin, _⟩ := filled_of_below sqrt MAXFLOAT points C hC hM i j hi
      (by omega) hjN
    have h1 := ihl i k hi (by omega) (by omega) hvl
    have h2 := ihr k j (by omega) (by omega) hjN hvr
    have h3 := hmin k hk1 hk2
    have hd1 := hC.2.1 i k hi (by omega) (by omega)
    have hd2 := hC.2.1 k j (by omega) (by omega) hjN
    rw [hcost]
    simp only [SplitTree.triangles, totalPerimeter, List.map_cons, List.sum_cons,
      List.map_append, List.sum_append, perimeter]
    simp only [totalPerimeter] at h1 h2
    have e : candidate C (points.length : Int) i k j =
        (getCell C (points.length : Int) i k).cost + (getCell C (points.length : Int) i k).dist +
          ((getCell C (points.length : Int) k j).cost +
            (getCell C (points.length : Int) k j).dist) := rfl
    rw [e, hd1, hd2] at h3
    linarith

set_option maxRecDepth 100000 in
theorem rectangle_below :
    BelowSentinel fltMax (finalTable intSqrt fltMax (fun _ => 7) 11 rectangle)
      (rectangle.length : Int) := by
  unfold BelowSentinel
  decide

theorem cost_eq_emitted_stop (points : List (Point α)) (C : List (Cell α))
    (hC : Finished sqrt MAXFLOAT points C)
    (hM : BelowSentinel MAXFLOAT C (points.length : Int)) (i j : Int) (hi : 0 ≤ i)
    (hij : i ≤ j) (hjN : j < (points.length : Int))
    (hno : i + 2 ≤ j → ∀ k, i < k → k < j →
      ¬ candidate C (points.length : Int) i k j < MAXFLOAT) :
    j < i + 2 ∧ (getCell C (points.length : Int) i j).cost = 0 := by
  have hsmall : j < i + 2 := by
    by_contra hbig
    exact hno (by omega) (i + 1) (by omega) (by omega)
      (hM i hi (by omega) (i + 1) (le_refl _) (by omega) j (by omega) hjN)
  exact ⟨hsmall, ((hC.2.2.1 i j hi hij hjN).1 hsmall).1⟩

theorem cost_eq_emitted_node (points : List (Point α)) (C : List (Cell α))
    (hC : Finished sqrt MAXFLOAT points C)
    (hM : BelowSentinel MAXFLOAT C (points.length : Int)) (i k j : Int) (L1 L2 : List Triangle)
    (hi : 0 ≤ i) (hik : i < k) (hkj : k < j) (hjN : j < (points.length : Int))
    (hk : (getCell C (points.length : Int) i j).k = k)
    (h1 : (getCell C (points.length : Int) i k).cost = totalPerimeter (distOf sqrt points) L1)
    (h2 : (getCell C (points.length : Int) k j).cost = totalPerimeter (distOf sqrt points) L2) :
    (getCell C (points.length : Int) i j).cost =
      totalPerimeter (distOf sqrt points) ((i, k, j) :: (L1 ++ L2)) := by
  obtain ⟨_, _, _, _, hcost, _, _⟩ := filled_of_below sqrt MAXFLOAT points C hC hM i j hi
    (by omega) hjN
  rw [hk] at hcost
  have hd1 := hC.2.1 i k hi (by omega) (by omega)
  have hd2 := hC.2.1 k j (by omega) (by omega) hjN
  have e : candidate C (points.length : Int) i k j =
      (getCell C (points.length : Int) i k).cost + (getCell C (points.length : Int) i k).dist +
        ((getCell C (points.length : Int) k j).cost +
          (getCell C (points.length : Int) k j).dist) := rfl
  rw [hcost, e, hd1, hd2, h1, h2]
  simp only [totalPerimeter, List.map_cons, List.sum_cons, List.map_append, List.sum_append,
    perimeter]
  ring

theorem findTriangle_mono (C : List (Cell α)) (N : Int) :
    ∀ (f : Nat) (c1 c2 : Int) (tris out : List Triangle),
      findTriangle f c1 c2 C N tris = Except.ok out →
      findTriangle (f + 1) c1 c2 C N tris = Except.ok out := by
  intro f
  induction f with
  | zero =>
    intro c1 c2 tris out h
    simp [findTriangle] at h
  | succ f ih =>
    intro c1 c2 tris out h
    rw [findTriangle] at h ⊢
    cases hr : readAt C (c1 * N + c2) with
    | error e => simp [hr, bind, Except.bind] at h
    | ok cell =>
      simp only [hr, bind, Except.bind] at h ⊢
      by_cases hneg : cell.i < 0
      · simp only [hneg, if_true] at h ⊢
        exact h
      · simp only [hneg, if_false] at h ⊢
        cases h1 : findTriangle f cell.i cell.k C N (tris ++ [(cell.i, cell.k, cell.j)]) with
        | error e => simp [h1] at h
        | ok t1 =>
          rw [h1] at h
          simp only at h
          rw [ih _ _ _ _ h1]
          exact ih _ _ _ _ h

theorem findTriangle_mono_le (C : List (Cell α)) (N : Int) (f g : Nat) (hfg : f ≤ g)
    (c1 c2 : Int) (tris out : List Triangle)
    (h : findTriangle f c1 c2 C N tris = Except.ok out) :
    findTriangle g c1 c2 C N tris = Except.ok out := by
  induction g with
  | zero =>
    have : f = 0 := by omega
    subst this
    exact h
  | succ g ih =>
    by_cases hfg2 : f ≤ g
    · exact findTriangle_mono C N g c1 c2 tris out (ih hfg2)
    · have : f = g + 1 := by omega
      subst this
      exact h

theorem finalTable_nil :
    finalTable sqrt MAXFLOAT junkF junkI ([] : List (Point α)) = [] := by
  have h := (finalTable_spec sqrt MAXFLOAT junkF junkI ([] : List (Point α))).2.1
  simp only [List.length_nil, Nat.cast_zero, mul_zero] at h
  exact List.length_eq_zero.1 (by exact_mod_cast h)

theorem triangulate_nil (fuel : Nat) :
    triangulate sqrt MAXFLOAT junkF junkI (fuel + 1) ([] : List (Point α)) =
      Except.error Err.outOfBounds := by
  have h1 := (finalTable_spec sqrt MAXFLOAT junkF junkI ([] : List (Point α))).1
  rw [finalTable_nil] at h1
  unfold triangulate
  simp only [bind, Except.bind, h1, findTriangle]
  rw [readAt_outside [] _ (Or.inl (by simp))]

theorem triangulate_nil_ne_ok (fuel : Nat) (r : List Triangle × α) :
    triangulate sqrt MAXFLOAT junkF junkI fuel ([] : List (Point α)) ≠ Except.ok r := by
  cases fuel with
  | zero =>
    have h1 := (finalTable_spec sqrt MAXFLOAT junkF junkI ([] : List (Point α))).1
    unfold triangulate
    simp only [bind, Except.bind, h1, findTriangle]
    intro h; cases h
  | succ f =>
    have h1 := (finalTable_spec sqrt MAXFLOAT junkF junkI ([] : List (Point α))).1
    rw [finalTable_nil] at h1
    unfold triangulate
    simp only [bind, Except.bind, h1, findTriangle]
    rw [readAt_outside [] _ (Or.inl (by simp))]
    intro h; cases h

theorem triangulate_ok_inv (points : List (Point α)) (fuel : Nat) (r : List Triangle × α)
    (h : triangulate sqrt MAXFLOAT junkF junkI fuel points = Except.ok r) :
    1 ≤ points.length ∧
    findTriangle fuel 0 ((points.length : Int) - 1) (finalTable sqrt MAXFLOAT junkF junkI points)
      (points.length : Int) [] = Except.ok r.1 ∧
    r.2 = (getCell (finalTable sqrt MAXFLOAT junkF junkI points) (points.length : Int) 0
      ((points.length : Int) - 1)).cost := by
  have hN : 1 ≤ points.length := by
    cases points with
    | nil => exact absurd h (triangulate_nil_ne_ok sqrt MAXFLOAT junkF junkI fuel r)
    | cons p ps => simp
  obtain ⟨hfill, hfin⟩ := finalTable_spec sqrt MAXFLOAT junkF junkI points
  have hr := readAt_getCell (finalTable sqrt MAXFLOAT junkF junkI points) (points.length : Int)
    0 ((points.length : Int) - 1) hfin.1 (le_refl _) (by omega) (by omega) (by omega)
  have e : (0 : Int) * (points.length : Int) + ((points.length : Int) - 1)
      = (points.length : Int) - 1 := by ring
  rw [e] at hr
  unfold triangulate at h
  simp only [bind, Except.bind, hfill] at h
  cases hf : findTriangle fuel 0 ((points.length : Int) - 1)
      (finalTable sqrt MAXFLOAT junkF junkI points) (points.length : Int) [] with
  | error e => simp [hf] at h
  | ok L =>
    simp only [hf, hr, pure, Except.pure] at h
    injection h with h
    subst h
    exact ⟨hN, rfl, rfl⟩

theorem triangulate_result (points : List (Point α)) (fuel : Nat)
    (P : Int → Int → List Triangle → Prop)
    (hstop : ∀ i j, 0 ≤ i → i ≤ j → j < (points.length : Int) →
      Fresh (getCell (finalTable sqrt MAXFLOAT junkF junkI points) (points.length : Int) i j) →
      (i + 2 ≤ j → ∀ k, i < k → k < j →
        ¬ candidate (finalTable sqrt MAXFLOAT junkF junkI points) (points.length : Int) i k j
          < MAXFLOAT) →
      P i j [])
    (hnode : ∀ i k j L1 L2, 0 ≤ i → i < k → k < j → j < (points.length : Int) →
      (getCell (finalTable sqrt MAXFLOAT junkF junkI points) (points.length : Int) i j).i = i →
      (getCell (finalTable sqrt MAXFLOAT junkF junkI points) (points.length : Int) i j).k = k →
      (getCell (finalTable sqrt MAXFLOAT junkF junkI points) (points.length : Int) i j).j = j →
      P i k L1 → P k j L2 → P i j ((i, k, j) :: (L1 ++ L2)))
    (r : List Triangle × α)
    (h : triangulate sqrt MAXFLOAT junkF junkI fuel points = Except.ok r) :
    P 0 ((points.length : Int) - 1) r.1 := by
  obtain ⟨hN, hf, _⟩ := triangulate_ok_inv sqrt MAXFLOAT junkF junkI points fuel r h
  have hfin := (finalTable_spec sqrt MAXFLOAT junkF junkI points).2
  obtain ⟨L, hL, hP⟩ := extract_induction sqrt MAXFLOAT points _ hfin P hstop hnode
    (max fuel points.length) 0 ((points.length : Int) - 1) (le_refl _) (by omega) (by omega)
    (by have := le_max_right fuel points.length; omega)
    (by have := le_max_right fuel points.length; omega)
  have h2 := findTriangle_mono_le _ _ fuel (max fuel points.length) (le_max_left _ _) _ _ _ _ hf
  rw [hL] at h2
  injection h2 with h2
  simp only [List.nil_append] at h2
  rw [← h2]
  exact hP

set_option maxRecDepth 100000 in
theorem rectangle_run :
    triangulate intSqrt fltMax (fun _ => 7) 11 4 rectangle =
      Except.ok ([(0, 1, 3), (1, 2, 3)], 24) := by
  rfl

theorem scratch_recomputes (points : List (Point α)) (C : List (Cell α))
    (hC : Finished sqrt MAXFLOAT points C)
    (hM : BelowSentinel MAXFLOAT C (points.length : Int)) (i j : Int) (hi : 0 ≤ i)
    (hij : i + 2 ≤ j) (hjN : j < (points.length : Int)) :
    ∃ c1 c2 r, fillLeft (points.length : Int) i j C (newFloats junkF (j - i - 1)) 0
        = Except.ok c1 ∧
      fillRight (points.length : Int) i j C (newFloats junkF (j - i - 1)) 0 = Except.ok c2 ∧
      scan i j c2.1 c1.1 MAXFLOAT junkI = Except.ok r ∧
      r.2.1 = candidate C (points.length : Int) i (getCell C (points.length : Int) i j).k j ∧
      r.2.2 = (getCell C (points.length : Int) i j).k := by
  obtain ⟨_, _, hk1, hk2, _, hmin, hfirst⟩ := filled_of_below sqrt MAXFLOAT points C hC hM i j
    hi hij hjN
  obtain ⟨c1, hfl, hfl1, hfl2⟩ := fillLeft_spec (points.length : Int) i j C
    (newFloats junkF (j - i - 1)) hC.1 hi hjN (newFloats_length junkF _ (by omega))
  obtain ⟨c2, hfr, hfr1, hfr2⟩ := fillRight_spec (points.length : Int) i j C
    (newFloats junkF (j - i - 1)) hC.1 hi hjN (newFloats_length junkF _ (by omega))
  obtain ⟨r, hsc, hsc1, hsc2⟩ := scan_spec i j c1.1 c2.1
    (fun t => leftCost C (points.length : Int) i (i + 1 + t))
    (fun t => rightCost C (points.length : Int) (i + 1 + t) j) MAXFLOAT junkI hfl1 hfl2 hfr2
  have hcand : ∀ t, leftCost C (points.length : Int) i (i + 1 + t) +
      rightCost C (points.length : Int) (i + 1 + t) j =
      candidate C (points.length : Int) i (i + 1 + t) j := fun _ => rfl
  have hlt : r.2.1 < MAXFLOAT := by
    have h1 := hsc1 0 (le_refl _) (by omega)
    rw [hcand] at h1
    exact lt_of_le_of_lt h1
      (hM i hi (by omega) (i + 1 + 0) (by omega) (by omega) j (by omega) hjN)
  rcases hsc2 with ⟨h, _⟩ | ⟨_, t0, ht0, ht1, ht2, ht3, ht4⟩
  · exact absurd hlt (by rw [h]; exact lt_irrefl _)
  · rw [hcand] at ht3
    have hle1 : candidate C (points.length : Int) i (i + 1 + t0) j ≤
        candidate C (points.length : Int) i (getCell C (points.length : Int) i j).k j := by
      have h1 := hsc1 ((getCell C (points.length : Int) i j).k - i - 1) (by omega) (by omega)
      rw [hcand, ht3] at h1
      have e : i + 1 + ((getCell C (points.length : Int) i j).k - i - 1) =
          (getCell C (points.length : Int) i j).k := by ring
      rw [e] at h1
      exact h1
    have hle2 := hmin (i + 1 + t0) (by omega) (by omega)
    have hkeq : i + 1 + t0 = (getCell C (points.length : Int) i j).k := by
      rcases lt_trichotomy (i + 1 + t0) (getCell C (points.length : Int) i j).k with h | h | h
      · exact absurd (hfirst (i + 1 + t0) (by omega) h) (not_lt.2 hle1)
      · exact h
      · have h4 := ht4 ((getCell C (points.length : Int) i j).k - i - 1) (by omega) (by omega)
        rw [hcand, hcand] at h4
        have e : i + 1 + ((getCell C (points.length : Int) i j).k - i - 1) =
            (getCell C (points.length : Int) i j).k := by ring
        rw [e] at h4
        exact absurd h4 (not_lt.2 hle2)
    refine ⟨c1, c2, r, hfl, hfr, hsc, ?_, ?_⟩
    · rw [ht3, hkeq]
    · rw [ht2, hkeq]

theorem extract_exists (points : List (Point α)) (C : List (Cell α))
    (hC : Finished sqrt MAXFLOAT points C) (f : Nat) (i j : Int) (hi : 0 ≤ i) (hij : i ≤ j)
    (hjN : j < (points.length : Int)) (hspan : j - i ≤ f) (hf : 1 ≤ f) :
    ∃ L, ∀ acc, findTriangle f i j C (points.length : Int) acc = Except.ok (acc ++ L) := by
  obtain ⟨L, hL, _⟩ := extract_induction sqrt MAXFLOAT points C hC (fun _ _ _ => True)
    (fun _ _ _ _ _ _ _ => trivial) (fun _ _ _ _ _ _ _ _ _ _ _ _ _ _ => trivial) f i j hi hij hjN
    hspan hf
  exact ⟨L, hL⟩

theorem sideCount_nil (u v : Int) : sideCount [] u v = 0 := rfl

theorem sideCount_node (i k j : Int) (L1 L2 : List Triangle) (u v : Int) :
    sideCount ((i, k, j) :: (L1 ++ L2)) u v =
      (if hasSide (i, k, j) u v then 1 else 0) + sideCount L1 u v + sideCount L2 u v := by
  unfold sideCount
  rw [List.countP_cons, List.countP_append]
  by_cases h : hasSide (i, k, j) u v
  · simp [h]; ring
  · simp [h]

theorem hasSide_iff (i k j u v : Int) (hik : i < k) (hkj : k < j) (huv : u < v) :
    hasSide (i, k, j) u v ↔ (i = u ∧ k = v) ∨ (k = u ∧ j = v) ∨ (i = u ∧ j = v) := by
  unfold hasSide
  simp only
  constructor
  · intro h
    rcases h with h | h | h | h | h | h
    · exact Or.inl h
    · exact Or.inr (Or.inl h)
    · exact Or.inr (Or.inr h)
    · omega
    · omega
    · omega
  · intro h
    rcases h with h | h | h
    · exact Or.inl h
    · exact Or.inr (Or.inl h)
    · exact Or.inr (Or.inr (Or.inl h))

theorem triangulates_stop (i j : Int) (hij : i ≤ j) (hsmall : j < i + 2) :
    Triangulates i j [] := by
  refine ⟨fun _ => rfl, fun t ht => by simp at ht, by simp, fun u v huv => ?_⟩
  refine ⟨fun _ => rfl, fun _ _ _ => by omega, fun _ _ _ _ => by omega, fun _ _ => Or.inl rfl⟩

theorem sideCount_cases (i j : Int) (L : List Triangle) (h : Triangulates i j L) (u v : Int)
    (huv : u < v) :
    (¬ (i ≤ u ∧ v ≤ j) ∧ sideCount L u v = 0) ∨
    (u = i ∧ v = j ∧ i + 2 ≤ j ∧ sideCount L u v = 1) ∨
    (u = i ∧ v = j ∧ j < i + 2 ∧ sideCount L u v = 0) ∨
    (i ≤ u ∧ v ≤ j ∧ ¬ (u = i ∧ v = j) ∧ v = u + 1 ∧ sideCount L u v = 1) ∨
    (i ≤ u ∧ v ≤ j ∧ ¬ (u = i ∧ v = j) ∧ v ≠ u + 1 ∧
      (sideCount L u v = 0 ∨ sideCount L u v = 2)) := by
  obtain ⟨a, _, _, d⟩ := h
  obtain ⟨p, q, r, s⟩ := d u v huv
  by_cases hin : i ≤ u ∧ v ≤ j
  · by_cases heq : u = i ∧ v = j
    · by_cases hbig : i + 2 ≤ j
      · exact Or.inr (Or.inl ⟨heq.1, heq.2, hbig, q heq.1 heq.2 hbig⟩)
      · have hL := a (by omega)
        subst hL
        exact Or.inr (Or.inr (Or.inl ⟨heq.1, heq.2, by omega, rfl⟩))
    · by_cases hnb : v = u + 1
      · exact Or.inr (Or.inr (Or.inr (Or.inl ⟨hin.1, hin.2, heq, hnb, r heq hin.1 hin.2 hnb⟩)))
      · exact Or.inr (Or.inr (Or.inr (Or.inr ⟨hin.1, hin.2, heq, hnb, s heq hnb⟩)))
  · exact Or.inl ⟨hin, p hin⟩

theorem node_count_arith (i k j u v : Int) (c1 c2 side : Nat) (hik : i < k) (hkj : k < j)
    (huv : u < v)
    (hside : (side = 1 ∧ ((i = u ∧ k = v) ∨ (k = u ∧ j = v) ∨ (i = u ∧ j = v))) ∨
      (side = 0 ∧ ¬ ((i = u ∧ k = v) ∨ (k = u ∧ j = v) ∨ (i = u ∧ j = v))))
    (D1 : (¬ (i ≤ u ∧ v ≤ k) ∧ c1 = 0) ∨
      (u = i ∧ v = k ∧ i + 2 ≤ k ∧ c1 = 1) ∨
      (u = i ∧ v = k ∧ k < i + 2 ∧ c1 = 0) ∨
      (i ≤ u ∧ v ≤ k ∧ ¬ (u = i ∧ v = k) ∧ v = u + 1 ∧ c1 = 1) ∨
      (i ≤ u ∧ v ≤ k ∧ ¬ (u = i ∧ v = k) ∧ v ≠ u + 1 ∧ (c1 = 0 ∨ c1 = 2)))
    (D2 : (¬ (k ≤ u ∧ v ≤ j) ∧ c2 = 0) ∨
      (u = k ∧ v = j ∧ k + 2 ≤ j ∧ c2 = 1) ∨
      (u = k ∧ v = j ∧ j < k + 2 ∧ c2 = 0) ∨
      (k ≤ u ∧ v ≤ j ∧ ¬ (u = k ∧ v = j) ∧ v = u + 1 ∧ c2 = 1) ∨
      (k ≤ u ∧ v ≤ j ∧ ¬ (u = k ∧ v = j) ∧ v ≠ u + 1 ∧ (c2 = 0 ∨ c2 = 2))) :
    (¬ (i ≤ u ∧ v ≤ j) → side + c1 + c2 = 0) ∧
    (u = i → v = j → i + 2 ≤ j → side + c1 + c2 = 1) ∧
    (¬ (u = i ∧ v = j) → i ≤ u → v ≤ j → v = u + 1 → side + c1 + c2 = 1) ∧
    (¬ (u = i ∧ v = j) → v ≠ u + 1 → side + c1 + c2 = 0 ∨ side + c1 + c2 = 2) := by
  rcases hside with ⟨hs, hs2⟩ | ⟨hs, hs2⟩ <;>
  rcases D1 with ⟨e1, e2⟩ | ⟨e1, e2, e3, e4⟩ | ⟨e1, e2, e3, e4⟩ | ⟨e1, e2, e3, e4, e5⟩ |
    ⟨e1, e2, e3, e4, e5⟩ <;>
  rcases D2 with ⟨g1, g2⟩ | ⟨g1, g2, g3, g4⟩ | ⟨g1, g2, g3, g4⟩ | ⟨g1, g2, g3, g4, g5⟩ |
    ⟨g1, g2, g3, g4, g5⟩ <;>
  refine ⟨fun _ => ?_, fun _ _ _ => ?_, fun _ _ _ _ => ?_, fun _ _ => ?_⟩ <;> omega

theorem triangulates_node (i k j : Int) (L1 L2 : List Triangle) (hik : i < k) (hkj : k < j)
    (h1 : Triangulates i k L1) (h2 : Triangulates k j L2) :
    Triangulates i j ((i, k, j) :: (L1 ++ L2)) := by
  have D1 := fun u v huv => sideCount_cases i k L1 h1 u v huv
  have D2 := fun u v huv => sideCount_cases k j L2 h2 u v huv
  obtain ⟨a1, b1, c1, d1⟩ := h1
  obtain ⟨a2, b2, c2, d2⟩ := h2
  refine ⟨fun h => by omega, ?_, ?_, ?_⟩
  · intro t ht
    simp only [List.mem_cons, List.mem_append] at ht
    rcases ht with rfl | ht | ht
    · exact ⟨le_refl _, hik, hkj, le_refl _⟩
    · have := b1 t ht
      exact ⟨this.1, this.2.1, this.2.2.1, by omega⟩
    · have := b2 t ht
      exact ⟨by omega, this.2.1, this.2.2.1, this.2.2.2⟩
  · rw [List.map_cons, List.map_append, List.nodup_cons, List.nodup_append]
    refine ⟨?_, c1, c2, ?_⟩
    · intro hmem
      rw [List.mem_append, List.mem_map, List.mem_map] at hmem
      rcases hmem with ⟨t, ht, he⟩ | ⟨t, ht, he⟩
      · have := b1 t ht
        simp only [rangeOf, Prod.mk.injEq] at he
        omega
      · have := b2 t ht
        simp only [rangeOf, Prod.mk.injEq] at he
        omega
    · intro p hp1 hp2
      rw [List.mem_map] at hp1 hp2
      obtain ⟨t1, ht1, he1⟩ := hp1
      obtain ⟨t2, ht2, he2⟩ := hp2
      have := b1 t1 ht1
      have := b2 t2 ht2
      rw [← he2] at he1
      simp only [rangeOf, Prod.mk.injEq] at he1
      omega
  · intro u v huv
    have hs := hasSide_iff i k j u v hik hkj huv
    rw [sideCount_node]
    refine node_count_arith i k j u v _ _ _ hik hkj huv ?_ (D1 u v huv) (D2 u v huv)
    by_cases hside : hasSide (i, k, j) u v
    · rw [if_pos hside]
      exact Or.inl ⟨rfl, hs.1 hside⟩
    · rw [if_neg hside]
      exact Or.inr ⟨rfl, fun h => hside (hs.2 h)⟩

theorem sideCount_comm (L : List Triangle) (u v : Int) : sideCount L u v = sideCount L v u := by
  unfold sideCount
  congr 1
  funext t
  have : hasSide t u v ↔ hasSide t v u := by
    unfold hasSide
    tauto
  simp [this]

theorem other_pairs_twice (N : Int) (L : List Triangle) (hN : 3 ≤ N)
    (h : Triangulates 0 (N - 1) L) (u v : Int) (huv : u < v)
    (hb : ¬ isBoundaryEdge N u v) (hc : sideCount L u v ≠ 0) : sideCount L u v = 2 := by
  obtain ⟨p, _, _, s⟩ := (h.2.2.2 u v huv)
  unfold isBoundaryEdge at hb
  by_cases hnb : v = u + 1
  · exact absurd (p (by omega)) hc
  · rcases s (by omega) hnb with h0 | h2
    · exact absurd h0 hc
    · exact h2

theorem candidate_eq (points : List (Point α)) (C : List (Cell α))
    (hC : Finished sqrt MAXFLOAT points C) (i k j : Int) (hi : 0 ≤ i) (hik : i < k)
    (hkj : k < j) (hjN : j < (points.length : Int)) :
    candidate C (points.length : Int) i k j =
      (getCell C (points.length : Int) i k).cost + distOf sqrt points i k +
        ((getCell C (points.length : Int) k j).cost + distOf sqrt points k j) := by
  have hd1 := hC.2.1 i k hi (by omega) (by omega)
  have hd2 := hC.2.1 k j (by omega) (by omega) hjN
  rw [← hd1, ← hd2]
  rfl

theorem cost_trivial (points : List (Point α)) (C : List (Cell α))
    (hC : Finished sqrt MAXFLOAT points C) (i j : Int) (hi : 0 ≤ i) (hij : i ≤ j)
    (hsmall : j < i + 2) (hjN : j < (points.length : Int)) :
    (getCell C (points.length : Int) i j).cost = 0 :=
  ((hC.2.2.1 i j hi hij hjN).1 hsmall).1

/-- A cell with a candidate sum below the sentinel is filled: it stores its
row, its column, an apex inside the range, and the cost of that apex. -/
theorem filled_of_candidate (points : List (Point α)) (C : List (Cell α))
    (hC : Finished sqrt MAXFLOAT points C) (i k j : Int) (hi : 0 ≤ i) (hik : i < k)
    (hkj : k < j) (hjN : j < (points.length : Int))
    (hlt : candidate C (points.length : Int) i k j < MAXFLOAT) :
    (getCell C (points.length : Int) i j).i = i ∧ (getCell C (points.length : Int) i j).j = j ∧
    i < (getCell C (points.length : Int) i j).k ∧ (getCell C (points.length : Int) i j).k < j ∧
    (getCell C (points.length : Int) i j).cost =
      candidate C (points.length : Int) i (getCell C (points.length : Int) i j).k j +
        distOf sqrt points i j ∧
    (∀ k2, i < k2 → k2 < j →
      candidate C (points.length : Int) i (getCell C (points.length : Int) i j).k j ≤
        candidate C (points.length : Int) i k2 j) ∧
    (∀ k2, i < k2 → k2 < (getCell C (points.length : Int) i j).k →
      candidate C (points.length : Int) i (getCell C (points.length : Int) i j).k j <
        candidate C (points.length : Int) i k2 j) := by
  obtain ⟨_, hdist, hdone, _⟩ := hC
  rcases (hdone i j hi (by omega) hjN).2 (by omega) with ⟨h1, _⟩ | ⟨h1, h2, h3, h4, _, h6, h7, h8⟩
  · exact absurd hlt (h1 k hik hkj)
  · refine ⟨h1, h2, h3, h4, ?_, h7, h8⟩
    rw [h6, hdist i j hi (by omega) hjN]

theorem single_triangle_run (points : List (Point α)) (fuel : Nat)
    (hN : points.length = 3) (hfuel : 3 ≤ fuel)
    (hM : distOf sqrt points 0 1 + distOf sqrt points 1 2 < MAXFLOAT) :
    triangulate sqrt MAXFLOAT junkF junkI fuel points =
      Except.ok ([(0, 1, 2)],
        distOf sqrt points 0 1 + distOf sqrt points 1 2 + distOf sqrt points 0 2) := by
  have hfin := (finalTable_spec sqrt MAXFLOAT junkF junkI points).2
  have hN3 : (points.length : Int) = 3 := by omega
  have hc01 := cost_trivial sqrt MAXFLOAT points _ hfin 0 1 (by omega) (by omega) (by omega)
    (by omega)
  have hc12 := cost_trivial sqrt MAXFLOAT points _ hfin 1 2 (by omega) (by omega) (by omega)
    (by omega)
  have hcand := candidate_eq sqrt MAXFLOAT points _ hfin 0 1 2 (by omega) (by omega) (by omega)
    (by omega)
  rw [hc01, hc12] at hcand
  have hlt : candidate (finalTable sqrt MAXFLOAT junkF junkI points) (points.length : Int) 0 1 2
      < MAXFLOAT := by
    rw [hcand]
    simpa using hM
  obtain ⟨_, _, hk1, hk2, hcost, _, _⟩ := filled_of_candidate sqrt MAXFLOAT points _ hfin 0 1 2
    (by omega) (by omega) (by omega) (by omega) hlt
  have hk : (getCell (finalTable sqrt MAXFLOAT junkF junkI points) (points.length : Int) 0 2).k
      = 1 := by omega
  rw [hk, hcand] at hcost
  obtain ⟨L, hrun, hP⟩ := triangulate_run sqrt MAXFLOAT junkF junkI points fuel
    (fun i j L => (j < i + 2 → L = []) ∧ (i = 0 → j = 2 → L = [(0, 1, 2)]))
    (fun i j hi hij hjN _ hno => ⟨fun _ => rfl, fun h0 h2 => by
      subst h0; subst h2
      exact absurd hlt (hno (by omega) 1 (by omega) (by omega))⟩)
    (fun i k j L1 L2 hi hik hkj hjN _ _ _ h1 h2 => ⟨fun h => by omega, fun h0 h2j => by
      subst h0; subst h2j
      have hk1 : k = 1 := by omega
      subst hk1
      rw [h1.1 (by omega), h2.1 (by omega)]
      rfl⟩)
    (by omega) (by omega)
  have hL := hP.2 rfl (by omega)
  have e : (points.length : Int) - 1 = 2 := by omega
  rw [hrun, hL, e, hcost]
  congr 2
  ring

theorem distOf_eq (points : List (Point α)) (i j : Int) (p q : Point α)
    (hp : readAt points i = Except.ok p) (hq : readAt points j = Except.ok q) :
    distOf sqrt points i j =
      sqrt ((p.x - q.x) * (p.x - q.x) + (p.y - q.y) * (p.y - q.y)) := by
  simp [distOf, calculateDistance, hp, hq, bind, Except.bind, pure, Except.pure]

theorem sqrt_two_lt_fltMax : 1 + Real.sqrt 2 < ((fltMax : Int) : ℝ) := by
  have h1 : Real.sqrt 2 ≤ 2 := by
    rw [Real.sqrt_le_left (by norm_num)]
    norm_num
  have h2 : ((fltMax : Int) : ℝ) = 340282346638528859811704183484516925440 := by
    simp [fltMax]
  rw [h2]
  linarith

theorem quadrilateral_run (points : List (Point α)) (fuel : Nat)
    (hN : points.length = 4) (hfuel : 4 ≤ fuel)
    (h1 : distOf sqrt points 0 1 + distOf sqrt points 1 2 < MAXFLOAT)
    (h2 : distOf sqrt points 1 2 + distOf sqrt points 2 3 < MAXFLOAT)
    (h3 : distOf sqrt points 0 1 + distOf sqrt points 1 2 + distOf sqrt points 2 3 +
        2 * distOf sqrt points 1 3 < MAXFLOAT ∨
      distOf sqrt points 0 1 + distOf sqrt points 1 2 + distOf sqrt points 2 3 +
        2 * distOf sqrt points 0 2 < MAXFLOAT) :
    ∃ tris, triangulate sqrt MAXFLOAT junkF junkI fuel points =
        Except.ok (tris, distOf sqrt points 0 1 + distOf sqrt points 1 2 +
          distOf sqrt points 2 3 + distOf sqrt points 0 3 +
          2 * min (distOf sqrt points 0 2) (distOf sqrt points 1 3)) ∧
      tris.length = 2 ∧
      ((distOf sqrt points 1 3 ≤ distOf sqrt points 0 2 ∧ tris = [(0, 1, 3), (1, 2, 3)]) ∨
        (distOf sqrt points 0 2 < distOf sqrt points 1 3 ∧
          tris = [(0, 2, 3), (0, 1, 2)])) := by
  have hfin := (finalTable_spec sqrt MAXFLOAT junkF junkI points).2
  have hN4 : (points.length : Int) = 4 := by omega
  have hc01 := cost_trivial sqrt MAXFLOAT points _ hfin 0 1 (by omega) (by omega) (by omega)
    (by omega)
  have hc12 := cost_trivial sqrt MAXFLOAT points _ hfin 1 2 (by omega) (by omega) (by omega)
    (by omega)
  have hc23 := cost_trivial sqrt MAXFLOAT points _ hfin 2 3 (by omega) (by omega) (by omega)
    (by omega)
  -- cell (0, 2)
  have hcand012 := candidate_eq sqrt MAXFLOAT points _ hfin 0 1 2 (by omega) (by omega)
    (by omega) (by omega)
  rw [hc01, hc12] at hcand012
  have hlt012 : candidate (finalTable sqrt MAXFLOAT junkF junkI points) (points.length : Int)
      0 1 2 < MAXFLOAT := by
    rw [hcand012]; simpa using h1
  obtain ⟨_, _, ha1, ha2, hcost02, _, _⟩ := filled_of_candidate sqrt MAXFLOAT points _ hfin
    0 1 2 (by omega) (by omega) (by omega) (by omega) hlt012
  have hk02 : (getCell (finalTable sqrt MAXFLOAT junkF junkI points) (points.length : Int)
      0 2).k = 1 := by omega
  rw [hk02, hcand012] at hcost02
  -- cell (1, 3)
  have hcand123 := candidate_eq sqrt MAXFLOAT points _ hfin 1 2 3 (by omega) (by omega)
    (by omega) (by omega)
  rw [hc12, hc23] at hcand123
  have hlt123 : candidate (finalTable sqrt MAXFLOAT junkF junkI points) (points.length : Int)
      1 2 3 < MAXFLOAT := by
    rw [hcand123]; simpa using h2
  obtain ⟨_, _, hb1, hb2, hcost13, _, _⟩ := filled_of_candidate sqrt MAXFLOAT points _ hfin
    1 2 3 (by omega) (by omega) (by omega) (by omega) hlt123
  have hk13 : (getCell (finalTable sqrt MAXFLOAT junkF junkI points) (points.length : Int)
      1 3).k = 2 := by omega
  rw [hk13, hcand123] at hcost13
  -- root cell (0, 3)
  have hcand013 := candidate_eq sqrt MAXFLOAT points _ hfin 0 1 3 (by omega) (by omega)
    (by omega) (by omega)
  rw [hc01, hcost13] at hcand013
  have hcand023 := candidate_eq sqrt MAXFLOAT points _ hfin 0 2 3 (by omega) (by omega)
    (by omega) (by omega)
  rw [hcost02, hc23] at hcand023
  have hroot : ∃ k, 0 < k ∧ k < 3 ∧ candidate (finalTable sqrt MAXFLOAT junkF junkI points)
      (points.length : Int) 0 k 3 < MAXFLOAT := by
    rcases h3 with h | h
    · exact ⟨1, by omega, by omega, by rw [hcand013]; linarith⟩
    · exact ⟨2, by omega, by omega, by rw [hcand023]; linarith⟩
  obtain ⟨kr, hkr1, hkr2, hltr⟩ := hroot
  obtain ⟨_, _, hr1, hr2, hcost03, hmin, hfirst⟩ := filled_of_candidate sqrt MAXFLOAT points _
    hfin 0 kr 3 (by omega) hkr1 (by omega) (by omega) hltr
  obtain ⟨L, hrun, hP⟩ := triangulate_run sqrt MAXFLOAT junkF junkI points fuel
    (fun i j L => (j < i + 2 → L = []) ∧ (i = 0 → j = 2 → L = [(0, 1, 2)]) ∧
      (i = 1 → j = 3 → L = [(1, 2, 3)]) ∧
      (i = 0 → j = 3 →
        ((getCell (finalTable sqrt MAXFLOAT junkF junkI points) (points.length : Int) 0 3).k = 1
          ∧ L = [(0, 1, 3), (1, 2, 3)]) ∨
        ((getCell (finalTable sqrt MAXFLOAT junkF junkI points) (points.length : Int) 0 3).k = 2
          ∧ L = [(0, 2, 3), (0, 1, 2)])))
    (fun i j hi hij hjN _ hno => ⟨fun _ => rfl,
      fun e1 e2 => by
        subst e1; subst e2
        exact absurd hlt012 (hno (by omega) 1 (by omega) (by omega)),
      fun e1 e2 => by
        subst e1; subst e2
        exact absurd hlt123 (hno (by omega) 2 (by omega) (by omega)),
      fun e1 e2 => by
        subst e1; subst e2
        exact absurd hltr (hno (by omega) kr hkr1 hkr2)⟩)
    (fun i k j L1 L2 hi hik hkj hjN _ hk _ p1 p2 => ⟨fun h => by omega,
      fun e1 e2 => by
        subst e1; subst e2
        have : k = 1 := by omega
        subst this
        rw [p1.1 (by omega), p2.1 (by omega)]; rfl,
      fun e1 e2 => by
        subst e1; subst e2
        have : k = 2 := by omega
        subst this
        rw [p1.1 (by omega), p2.1 (by omega)]; rfl,
      fun e1 e2 => by
        subst e1; subst e2
        have hk12 : k = 1 ∨ k = 2 := by omega
        rcases hk12 with e | e
        · subst e
          left
          refine ⟨hk, ?_⟩
          rw [p1.1 (by omega), p2.2.2.1 rfl rfl]; rfl
        · subst e
          right
          refine ⟨hk, ?_⟩
          rw [p1.2.1 rfl rfl, p2.1 (by omega)]; rfl⟩)
    (by omega) (by omega)
  have e3 : (points.length : Int) - 1 = 3 := by omega
  rw [e3] at hrun hP
  refine ⟨L, ?_, ?_, ?_⟩
  · rw [hrun, hcost03]
    congr 2
    rcases hP.2.2.2 rfl rfl with ⟨hk, _⟩ | ⟨hk, _⟩
    · have hle := hmin 2 (by omega) (by omega)
      rw [hk, hcand013, hcand023] at hle
      have hd : distOf sqrt points 1 3 ≤ distOf sqrt points 0 2 := by linarith
      rw [hk, hcand013, min_eq_right hd]
      ring
    · have hlt := hfirst 1 (by omega) (by omega)
      rw [hk, hcand013, hcand023] at hlt
      have hd : distOf sqrt points 0 2 ≤ distOf sqrt points 1 3 := by linarith
      rw [hk, hcand023, min_eq_left hd]
      ring
  · rcases hP.2.2.2 rfl rfl with ⟨_, hL⟩ | ⟨_, hL⟩ <;> rw [hL] <;> rfl
  · rcases hP.2.2.2 rfl rfl with ⟨hk, hL⟩ | ⟨hk, hL⟩
    · left
      have hle := hmin 2 (by omega) (by omega)
      rw [hk, hcand013, hcand023] at hle
      exact ⟨by linarith, hL⟩
    · right
      have hlt := hfirst 1 (by omega) (by omega)
      rw [hk, hcand013, hcand023] at hlt
      exact ⟨by linarith, hL⟩

theorem sqrt_two_le_two : Real.sqrt 2 ≤ 2 := by
  rw [Real.sqrt_le_left (by norm_num)]
  norm_num

theorem fltMax_real : ((fltMax : Int) : ℝ) = 340282346638528859811704183484516925440 := by
  simp [fltMax]

theorem cost_nonneg_aux (points : List (Point α)) (C : List (Cell α))
    (hC : Finished sqrt MAXFLOAT points C) (hM : 0 ≤ MAXFLOAT)
    (hd : ∀ i j, 0 ≤ distOf sqrt points i j) :
    ∀ (n : Nat) (i j : Int), 0 ≤ i → i ≤ j → j < (points.length : Int) → j - i ≤ n →
      0 ≤ (getCell C (points.length : Int) i j).cost := by
  intro n
  induction n with
  | zero =>
    intro i j hi hij hjN hn
    rw [cost_trivial sqrt MAXFLOAT points C hC i j hi hij (by omega) hjN]
  | succ n ih =>
    intro i j hi hij hjN hn
    by_cases hsmall : j < i + 2
    · rw [cost_trivial sqrt MAXFLOAT points C hC i j hi hij hsmall hjN]
    · rcases (hC.2.2.1 i j hi hij hjN).2 (by omega) with ⟨_, h2, _⟩ |
        ⟨_, _, h3, h4, _, h6, _, _⟩
      · rw [h2]; exact hM
      · rw [h6, candidate_eq sqrt MAXFLOAT points C hC i _ j hi h3 h4 hjN,
          hC.2.1 i j hi hij hjN]
        have c1 := ih i (getCell C (points.length : Int) i j).k hi (by omega) (by omega)
          (by omega)
        have c2 := ih (getCell C (points.length : Int) i j).k j (by omega) (by omega) hjN
          (by omega)
        have d1 := hd i (getCell C (points.length : Int) i j).k
        have d2 := hd (getCell C (points.length : Int) i j).k j
        have d3 := hd i j
        linarith

theorem distOf_nonneg (hs : ∀ x, 0 ≤ sqrt x) (points : List (Point α)) (i j : Int) :
    0 ≤ distOf sqrt points i j := by
  unfold distOf calculateDistance
  cases h1 : readAt points i with
  | error e => simp [bind, Except.bind]
  | ok p =>
    cases h2 : readAt points j with
    | error e => simp [bind, Except.bind]
    | ok q => simp [bind, Except.bind, pure, Except.pure, hs]

theorem intSqrt_nonneg (x : Int) : 0 ≤ intSqrt x := by
  unfold intSqrt
  exact Int.natCast_nonneg _

theorem costCell_step (N d j : Int)
    (C : List (Cell α)) (hlen : (C.length : Int) = N * N) (hd : 0 ≤ d) (hdj : d ≤ j)
    (hjN : j < N) :
    ∃ C2, costCell MAXFLOAT junkF junkI N d j C = Except.ok C2 ∧
      (C2.length : Int) = N * N ∧
      (∀ a b, 0 ≤ b → b < N → (a ≠ j - d ∨ b ≠ j) → getCell C2 N a b = getCell C N a b) ∧
      CellStep MAXFLOAT (j - d) j (fun k => candidate C N (j - d) k j) (getCell C N (j - d) j)
        (getCell C2 N (j - d) j) := by
  have hi : 0 ≤ j - d := by omega
  have hiN : j - d < N := by omega
  have hj : 0 ≤ j := by omega
  unfold costCell
  simp only []
  by_cases hsmall : j < j - d + 2
  · rw [if_pos hsmall, readAt_getCell C N (j - d) j hlen hi hiN hj hjN]
    obtain ⟨C2, hw, hl, hc, ho⟩ := writeAt_cell C N (j - d) j
      { getCell C N (j - d) j with cost := 0 } hlen hi hiN hj hjN
    refine ⟨C2, hw, hl, ho, by rw [hc], ?_, ?_⟩
    · intro _
      rw [hc]
      exact ⟨rfl, rfl, rfl, rfl⟩
    · intro h; omega
  · rw [if_neg hsmall, readAt_getCell C N (j - d) j hlen hi hiN hj hjN]
    obtain ⟨C1, hw1, hl1, hc1, ho1⟩ := writeAt_cell C N (j - d) j
      { getCell C N (j - d) j with cost := MAXFLOAT } hlen hi hiN hj hjN
    obtain ⟨⟨b1, it1⟩, hfl, hfl1, hfl2⟩ := fillLeft_spec N (j - d) j C1
      (newFloats junkF (d - 1)) hl1 hi hjN (by rw [newFloats_length junkF _ (by omega)]; omega)
    obtain ⟨⟨b2, it2⟩, hfr, hfr1, hfr2⟩ := fillRight_spec N (j - d) j C1
      (newFloats junkF (d - 1)) hl1 hi hjN (by rw [newFloats_length junkF _ (by omega)]; omega)
    obtain ⟨⟨b3, cst, lk⟩, hsc, hsc1, hsc2⟩ := scan_spec (j - d) j b1 b2
      (fun t => leftCost C1 N (j - d) (j - d + 1 + t))
      (fun t => rightCost C1 N (j - d + 1 + t) j) MAXFLOAT junkI hfl1 hfl2 hfr2
    simp only at hsc1 hsc2 hfl1 hfl2 hfr1 hfr2
    have hr1 := readAt_getCell C1 N (j - d) j hl1 hi hiN hj hjN
    have hcd : ∀ k, j - d < k → k < j →
        candidate C N (j - d) k j = leftCost C1 N (j - d) (j - d + 1 + (k - (j - d) - 1)) +
          rightCost C1 N (j - d + 1 + (k - (j - d) - 1)) j := by
      intro k hk1 hk2
      have e : j - d + 1 + (k - (j - d) - 1) = k := by ring
      rw [e]
      unfold candidate leftCost rightCost
      rw [ho1 (j - d) k (by omega) (by omega) (Or.inr (by omega)),
        ho1 k j hj hjN (Or.inl (by omega))]
    by_cases hfill : cst < MAXFLOAT
    · obtain ⟨C2, hw2, hl2, hc2, ho2⟩ := writeAt_cell C1 N (j - d) j
        ⟨cst + (getCell C1 N (j - d) j).dist, (getCell C1 N (j - d) j).dist, j - d, lk, j⟩
        hl1 hi hiN hj hjN
      refine ⟨C2, ?_, hl2, ?_, ?_, ?_, ?_⟩
      · simp only [bind, Except.bind, hw1, hr1, hfl, hfr, hsc, hc1, hfill, if_true]
        rw [hc1] at hw2
        exact hw2
      · intro a b hb hbN hne
        rw [ho2 a b hb hbN hne, ho1 a b hb hbN hne]
      · rw [hc2, hc1]
      · intro h; omega
      · intro _
        right
        rcases hsc2 with ⟨h, _⟩ | ⟨_, t0, ht0, ht1, ht2, ht3, ht4⟩
        · exact absurd hfill (by rw [h]; exact lt_irrefl _)
        · have hk : (getCell C2 N (j - d) j).k = j - d + 1 + t0 := by rw [hc2]; exact ht2
          have hck : candidate C N (j - d) (j - d + 1 + t0) j = cst := by
            rw [hcd _ (by omega) (by omega), ht3]
            have e : j - d + 1 + t0 - (j - d) - 1 = t0 := by ring
            rw [e]
          simp only
          rw [hk, hck]
          refine ⟨by rw [hc2], by rw [hc2], by omega, by omega, hfill, by rw [hc2, hc1], ?_, ?_⟩
          · intro k hk1 hk2
            rw [hcd k hk1 hk2]
            exact hsc1 _ (by omega) (by omega)
          · intro k hk1 hk2
            rw [hcd k hk1 (by omega), ht3]
            exact ht4 _ (by omega) (by omega)
    · refine ⟨C1, ?_, hl1, ho1, by rw [hc1], ?_, ?_⟩
      · simp only [bind, Except.bind, hw1, hr1, hfl, hfr, hsc, hc1, hfill, if_false]
        rfl
      · intro h; omega
      · intro _
        left
        refine ⟨?_, by rw [hc1], by rw [hc1], by rw [hc1], by rw [hc1]⟩
        intro k hk1 hk2 hlt
        simp only at hlt
        rw [hcd k hk1 hk2] at hlt
        exact hfill (lt_of_le_of_lt (hsc1 _ (by omega) (by omega)) hlt)

theorem cell_ext (c1 c2 : Cell α) (h1 : c1.cost = c2.cost) (h2 : c1.dist = c2.dist)
    (h3 : c1.i = c2.i) (h4 : c1.k = c2.k) (h5 : c1.j = c2.j) : c1 = c2 := by
  cases c1
  cases c2
  simp only at h1 h2 h3 h4 h5
  subst h1; subst h2; subst h3; subst h4; subst h5
  rfl

/-- What a `CellStep` writes is determined by the candidate sums and the old
`dist` field: two steps with the same candidates from cells with the same
`dist` give the same cost and `dist`, and either both keep the indices of
their old cell or both store the same indices. -/
theorem cellStep_reads (i j : Int) (cand : Int → α) (old1 old2 new1 new2 : Cell α)
    (hd : old1.dist = old2.dist)
    (h1 : CellStep MAXFLOAT i j cand old1 new1) (h2 : CellStep MAXFLOAT i j cand old2 new2) :
    new1.cost = new2.cost ∧ new1.dist = new2.dist ∧
    ((new1.i = old1.i ∧ new1.k = old1.k ∧ new1.j = old1.j ∧
        new2.i = old2.i ∧ new2.k = old2.k ∧ new2.j = old2.j) ∨
      (new1.i = new2.i ∧ new1.k = new2.k ∧ new1.j = new2.j)) := by
  obtain ⟨a1, b1, c1⟩ := h1
  obtain ⟨a2, b2, c2⟩ := h2
  refine ⟨?_, by rw [a1, a2, hd], ?_⟩
  · by_cases hs : j < i + 2
    · rw [(b1 hs).1, (b2 hs).1]
    · rcases c1 (by omega) with ⟨p1, p2, _⟩ | ⟨_, _, p3, p4, p5, p6, p7, p8⟩
      · rcases c2 (by omega) with ⟨q1, q2, _⟩ | ⟨_, _, q3, q4, q5, _, _, _⟩
        · rw [p2, q2]
        · exact absurd q5 (p1 _ q3 q4)
      · rcases c2 (by omega) with ⟨q1, _, _⟩ | ⟨_, _, q3, q4, q5, q6, q7, q8⟩
        · exact absurd p5 (q1 _ p3 p4)
        · have hk : new1.k = new2.k := by
            rcases lt_trichotomy new1.k new2.k with h | h | h
            · exact absurd (q8 _ p3 h) (not_lt.2 (p7 _ q3 q4))
            · exact h
            · exact absurd (p8 _ q3 h) (not_lt.2 (q7 _ p3 p4))
          rw [p6, q6, hk, hd]
  · by_cases hs : j < i + 2
    · left
      exact ⟨(b1 hs).2.1, (b1 hs).2.2.1, (b1 hs).2.2.2, (b2 hs).2.1, (b2 hs).2.2.1,
        (b2 hs).2.2.2⟩
    · rcases c1 (by omega) with ⟨p1, _, p3, p4, p5⟩ | ⟨p1, p2, p3, p4, p5, p6, p7, p8⟩
      · rcases c2 (by omega) with ⟨_, _, q3, q4, q5⟩ | ⟨_, _, q3, q4, q5, _, _, _⟩
        · left
          exact ⟨p3, p4, p5, q3, q4, q5⟩
        · exact absurd q5 (p1 _ q3 q4)
      · rcases c2 (by omega) with ⟨q1, _, _⟩ | ⟨q1, q2, q3, q4, q5, q6, q7, q8⟩
        · exact absurd p5 (q1 _ p3 p4)
        · right
          have hk : new1.k = new2.k := by
            rcases lt_trichotomy new1.k new2.k with h | h | h
            · exact absurd (q8 _ p3 h) (not_lt.2 (p7 _ q3 q4))
            · exact h
            · exact absurd (p8 _ q3 h) (not_lt.2 (q7 _ p3 p4))
          exact ⟨by rw [p1, q1], hk, by rw [p2, q2]⟩

theorem cellStep_unique (i j : Int) (cand : Int → α) (old new1 new2 : Cell α)
    (h1 : CellStep MAXFLOAT i j cand old new1) (h2 : CellStep MAXFLOAT i j cand old new2) :
    new1 = new2 := by
  obtain ⟨hc, hdd, hidx⟩ := cellStep_reads MAXFLOAT i j cand old old new1 new2 rfl h1 h2
  rcases hidx with ⟨e1, e2, e3, e4, e5, e6⟩ | ⟨e1, e2, e3⟩
  · exact cell_ext new1 new2 hc hdd (by rw [e1, e4]) (by rw [e2, e5]) (by rw [e3, e6])
  · exact cell_ext new1 new2 hc hdd e1 e2 e3

theorem table_ext (A B : List (Cell α)) (N : Int) (hN : 0 ≤ N)
    (hA : (A.length : Int) = N * N) (hB : (B.length : Int) = N * N)
    (h : ∀ a b, 0 ≤ a → a < N → 0 ≤ b → b < N → getCell A N a b = getCell B N a b) :
    A = B := by
  apply List.ext_getElem?
  intro n
  by_cases hn : n < A.length
  · have hnN : (n : Int) < N * N := by omega
    have hNpos : 0 < N := by
      rcases lt_or_eq_of_le hN with h0 | h0
      · exact h0
      · rw [← h0] at hnN
        simp at hnN
        omega
    have hb0 : 0 ≤ (n : Int) % N := Int.emod_nonneg _ (by omega)
    have hbN : (n : Int) % N < N := Int.emod_lt_of_pos _ hNpos
    have ha0 : 0 ≤ (n : Int) / N := Int.ediv_nonneg (by omega) hN
    have haN : (n : Int) / N < N := Int.ediv_lt_of_lt_mul hNpos hnN
    have hidx : (n : Int) / N * N + (n : Int) % N = n := by
      have := Int.ediv_add_emod (n : Int) N
      linarith [mul_comm ((n : Int) / N) N]
    have h1 := readAt_getCell A N _ _ hA ha0 haN hb0 hbN
    have h2 := readAt_getCell B N _ _ hB ha0 haN hb0 hbN
    rw [hidx, readAt_ok_iff] at h1 h2
    have e : ((n : Int)).toNat = n := by omega
    rw [e] at h1 h2
    rw [h1.2, h2.2, h _ _ ha0 haN hb0 hbN]
  · have hn2 : ¬ n < B.length := by omega
    rw [List.getElem?_eq_none (by omega), List.getElem?_eq_none (by omega)]

theorem cellStep_congr (i j : Int) (cand1 cand2 : Int → α) (old new : Cell α)
    (hc : ∀ k, i < k → k < j → cand1 k = cand2 k)
    (h : CellStep MAXFLOAT i j cand1 old new) : CellStep MAXFLOAT i j cand2 old new := by
  obtain ⟨a, b, c⟩ := h
  refine ⟨a, b, fun hbig => ?_⟩
  rcases c hbig with ⟨p1, p2⟩ | ⟨p1, p2, p3, p4, p5, p6, p7, p8⟩
  · left
    exact ⟨fun k hk1 hk2 => by rw [← hc k hk1 hk2]; exact p1 k hk1 hk2, p2⟩
  · right
    rw [← hc _ p3 p4]
    refine ⟨p1, p2, p3, p4, p5, p6, ?_, ?_⟩
    · intro k hk1 hk2
      rw [← hc k hk1 hk2]
      exact p7 k hk1 hk2
    · intro k hk1 hk2
      rw [← hc k hk1 (by omega)]
      exact p8 k hk1 hk2

theorem levelStep_refl (N diff : Int) (T : List (Cell α)) (hlen : (T.length : Int) = N * N) :
    LevelStep MAXFLOAT N diff (fun _ => False) T T :=
  ⟨hlen, fun _ _ _ _ _ _ => ⟨fun h => absurd h.2 id, fun _ => rfl⟩⟩

theorem levelStep_congrS (N diff : Int) (S1 S2 : Int → Prop) (T U : List (Cell α))
    (hS : ∀ b, diff ≤ b → b < N → (S1 b ↔ S2 b))
    (h : LevelStep MAXFLOAT N diff S1 T U) : LevelStep MAXFLOAT N diff S2 T U := by
  obtain ⟨hl, hc⟩ := h
  refine ⟨hl, fun a b ha haN hb hbN => ⟨fun hin => ?_, fun hout => ?_⟩⟩
  · exact (hc a b ha haN hb hbN).1 ⟨hin.1, (hS b (by omega) hbN).2 hin.2⟩
  · exact (hc a b ha haN hb hbN).2 (fun hin => hout ⟨hin.1, (hS b (by omega) hbN).1 hin.2⟩)

theorem levelStep_candidate (N diff : Int) (S : Int → Prop) (T U : List (Cell α))
    (h : LevelStep MAXFLOAT N diff S T U) (a k b : Int) (ha : 0 ≤ a) (hak : a < k)
    (hkb : k < b) (hbN : b < N) (hspan : b - a = diff) :
    candidate U N a k b = candidate T N a k b :=
  candidate_congr U T N a k b
    ((h.2 a k ha (by omega) (by omega) (by omega)).2 (fun hin => by omega))
    ((h.2 k b (by omega) (by omega) (by omega) hbN).2 (fun hin => by omega))

theorem levelStep_step (N diff c : Int) (S : Int → Prop) (T U : List (Cell α))
    (h : LevelStep MAXFLOAT N diff S T U) (hd : 0 ≤ diff) (hdc : diff ≤ c) (hcN : c < N)
    (hnew : ¬ S c) :
    ∃ U2, costCell MAXFLOAT junkF junkI N diff c U = Except.ok U2 ∧
      LevelStep MAXFLOAT N diff (fun b => S b ∨ b = c) T U2 := by
  obtain ⟨U2, hrun, hl, hoth, hstep⟩ := costCell_step MAXFLOAT junkF junkI N diff c U h.1 hd hdc
    hcN
  refine ⟨U2, hrun, hl, fun a b ha haN hb hbN => ⟨fun hin => ?_, fun hout => ?_⟩⟩
  · by_cases hbc : b = c
    · subst hbc
      have ea : a = b - diff := by omega
      subst ea
      have hold := (h.2 (b - diff) b ha haN hb hbN).2 (fun hin2 => hnew hin2.2)
      rw [← hold]
      exact cellStep_congr MAXFLOAT (b - diff) b _ _ _ _
        (fun k hk1 hk2 => levelStep_candidate MAXFLOAT N diff S T U h (b - diff) k b ha hk1 hk2
          hbN (by omega)) hstep
    · rw [hoth a b hb hbN (Or.inr hbc)]
      rcases hin.2 with hs | hs
      · exact (h.2 a b ha haN hb hbN).1 ⟨hin.1, hs⟩
      · exact absurd hs hbc
  · have hne : a ≠ c - diff ∨ b ≠ c := by
      by_contra hcon
      push_neg at hcon
      exact hout ⟨by omega, Or.inr hcon.2⟩
    rw [hoth a b hb hbN hne]
    exact (h.2 a b ha haN hb hbN).2 (fun hin => hout ⟨hin.1, Or.inl hin.2⟩)

theorem levelStep_unique (N diff : Int) (S : Int → Prop) (T A B : List (Cell α)) (hN : 0 ≤ N)
    (hA : LevelStep MAXFLOAT N diff S T A) (hB : LevelStep MAXFLOAT N diff S T B) : A = B := by
  refine table_ext A B N hN hA.1 hB.1 (fun a b ha haN hb hbN => ?_)
  by_cases hin : b - a = diff ∧ S b
  · exact cellStep_unique MAXFLOAT a b _ _ _ _ ((hA.2 a b ha haN hb hbN).1 hin)
      ((hB.2 a b ha haN hb hbN).1 hin)
  · rw [(hA.2 a b ha haN hb hbN).2 hin, (hB.2 a b ha haN hb hbN).2 hin]

theorem costLevel_step (N diff : Int) (T : List (Cell α)) (hlen : (T.length : Int) = N * N)
    (hd : 0 ≤ diff) :
    ∃ T2, costLevel MAXFLOAT junkF junkI N diff T = Except.ok T2 ∧
      LevelStep MAXFLOAT N diff (fun _ => True) T T2 := by
  unfold costLevel
  refine forLoop_post _ (fun c U => LevelStep MAXFLOAT N diff (fun b => b < c) T U) _ _ _ _
    (levelStep_congrS MAXFLOAT N diff _ _ T T (fun b hb _ => ⟨fun h => absurd h id,
      fun h => by omega⟩) (levelStep_refl MAXFLOAT N diff T hlen)) ?_ ?_
  · intro c U hc0 hcN hU
    obtain ⟨U2, hrun, hstep⟩ := levelStep_step MAXFLOAT junkF junkI N diff c _ T U hU hd hc0
      (by omega) (by simp)
    exact ⟨U2, hrun, levelStep_congrS MAXFLOAT N diff _ _ T U2
      (fun b _ _ => ⟨fun h => by omega, fun h => by omega⟩) hstep⟩
  · intro U hU
    exact levelStep_congrS MAXFLOAT N diff _ _ T U
      (fun b hb hbN => ⟨fun _ => trivial, fun _ => by omega⟩) hU

theorem forLoop_add {σ : Type} (body : Int → σ → Except Err σ) :
    ∀ (n m : Nat) (lo : Int) (s : σ),
      forLoop body (n + m) lo s =
        (match forLoop body n lo s with
          | Except.ok t => forLoop body m (lo + n) t
          | Except.error e => Except.error e) := by
  intro n
  induction n with
  | zero =>
    intro m lo s
    simp [forLoop]
  | succ n ih =>
    intro m lo s
    have e : n + 1 + m = (n + m) + 1 := by omega
    rw [e]
    simp only [forLoop]
    cases hb : body lo s with
    | error e => rfl
    | ok s1 =>
      simp only
      rw [ih m (lo + 1) s1]
      have e2 : lo + 1 + (n : Int) = lo + ((n + 1 : Nat) : Int) := by push_cast; ring
      rw [e2]

theorem costPhase_eq_costLevels (N : Int) (C : List (Cell α)) :
    costPhase MAXFLOAT junkF junkI N C = costLevels MAXFLOAT junkF junkI N N.toNat C := rfl

theorem costLevel_frame (N diff : Int) (T : List (Cell α)) (hlen : (T.length : Int) = N * N)
    (hd : 0 ≤ diff) :
    ∃ T2, costLevel MAXFLOAT junkF junkI N diff T = Except.ok T2 ∧
      (T2.length : Int) = N * N ∧
      (∀ a b, 0 ≤ a → a < N → 0 ≤ b → b < N → b - a ≠ diff →
        getCell T2 N a b = getCell T N a b) ∧
      (∀ a b, 0 ≤ a → a < N → 0 ≤ b → b < N →
        (getCell T2 N a b).dist = (getCell T N a b).dist) := by
  obtain ⟨T2, hrun, hl, hc⟩ := costLevel_step MAXFLOAT junkF junkI N diff T hlen hd
  refine ⟨T2, hrun, hl, fun a b ha haN hb hbN hne => (hc a b ha haN hb hbN).2 (fun h => hne h.1),
    fun a b ha haN hb hbN => ?_⟩
  by_cases hin : b - a = diff
  · exact ((hc a b ha haN hb hbN).1 ⟨hin, trivial⟩).1
  · rw [(hc a b ha haN hb hbN).2 (fun h => hin h.1)]

theorem levels_frame (N : Int) :
    ∀ (m : Nat) (lo : Int) (U : List (Cell α)), 0 ≤ lo → (U.length : Int) = N * N →
      ∃ U2, forLoop (fun diff C => costLevel MAXFLOAT junkF junkI N diff C) m lo U
          = Except.ok U2 ∧
        (U2.length : Int) = N * N ∧
        ∀ a b, 0 ≤ a → a < N → 0 ≤ b → b < N → ¬ (lo ≤ b - a ∧ b - a < lo + m) →
          getCell U2 N a b = getCell U N a b := by
  intro m lo U hlo hlen
  refine forLoop_post _ (fun d V => (V.length : Int) = N * N ∧
      ∀ a b, 0 ≤ a → a < N → 0 ≤ b → b < N → ¬ (lo ≤ b - a ∧ b - a < d) →
        getCell V N a b = getCell U N a b) _ _ _ _
    ⟨hlen, fun _ _ _ _ _ _ _ => rfl⟩ ?_ (fun V hV => hV)
  intro d V hd0 hdm hV
  obtain ⟨V2, hrun, hl, hfr, _⟩ := costLevel_frame MAXFLOAT junkF junkI N d V hV.1 (by omega)
  refine ⟨V2, hrun, hl, fun a b ha haN hb hbN hout => ?_⟩
  rw [hfr a b ha haN hb hbN (by omega)]
  exact hV.2 a b ha haN hb hbN (by omega)

theorem costLevels_prefix (N : Int) (T : List (Cell α)) (hlen : (T.length : Int) = N * N)
    (d : Nat) (hd : d ≤ N.toNat) :
    ∃ Td Tf, costLevels MAXFLOAT junkF junkI N d T = Except.ok Td ∧
      costPhase MAXFLOAT junkF junkI N T = Except.ok Tf ∧
      ∀ a b, 0 ≤ a → a < N → 0 ≤ b → b < N →
        ((0 ≤ b - a ∧ b - a < d) → getCell Td N a b = getCell Tf N a b) ∧
        (¬ (0 ≤ b - a ∧ b - a < d) → getCell Td N a b = getCell T N a b) := by
  obtain ⟨Td, hrun1, hl1, hfr1⟩ := levels_frame MAXFLOAT junkF junkI N d 0 T (le_refl _) hlen
  obtain ⟨Tf, hrun2, _, hfr2⟩ := levels_frame MAXFLOAT junkF junkI N (N.toNat - d) (0 + d) Td
    (by omega) hl1
  refine ⟨Td, Tf, hrun1, ?_, fun a b ha haN hb hbN => ⟨fun hin => ?_, fun hout => ?_⟩⟩
  · rw [costPhase_eq_costLevels]
    unfold costLevels
    have e : N.toNat = d + (N.toNat - d) := by omega
    rw [e, forLoop_add, hrun1]
    exact hrun2
  · rw [hfr2 a b ha haN hb hbN (by omega)]
  · exact hfr1 a b ha haN hb hbN (by omega)

theorem costLevel_reads (junkG : Nat → α) (junkJ : Int) (N diff : Int)
    (T U T2 U2 : List (Cell α)) (hd : 0 ≤ diff)
    (hT : (T.length : Int) = N * N) (hU : (U.length : Int) = N * N)
    (hcost : ∀ a b, 0 ≤ a → a ≤ b → b < N → b - a < diff →
      (getCell U N a b).cost = (getCell T N a b).cost)
    (hdist : ∀ a b, 0 ≤ a → a ≤ b → b < N → b - a ≤ diff →
      (getCell U N a b).dist = (getCell T N a b).dist)
    (hrunT : costLevel MAXFLOAT junkF junkI N diff T = Except.ok T2)
    (hrunU : costLevel MAXFLOAT junkG junkJ N diff U = Except.ok U2)
    (a b : Int) (ha : 0 ≤ a) (hbN : b < N) (hspan : b - a = diff) :
    (getCell U2 N a b).cost = (getCell T2 N a b).cost ∧
    (((getCell U2 N a b).i = (getCell U N a b).i ∧ (getCell U2 N a b).k = (getCell U N a b).k ∧
        (getCell U2 N a b).j = (getCell U N a b).j ∧
        (getCell T2 N a b).i = (getCell T N a b).i ∧ (getCell T2 N a b).k = (getCell T N a b).k ∧
        (getCell T2 N a b).j = (getCell T N a b).j) ∨
      ((getCell U2 N a b).i = (getCell T2 N a b).i ∧
        (getCell U2 N a b).k = (getCell T2 N a b).k ∧
        (getCell U2 N a b).j = (getCell T2 N a b).j)) := by
  obtain ⟨T3, hr1, hs1⟩ := costLevel_step MAXFLOAT junkF junkI N diff T hT hd
  obtain ⟨U3, hr2, hs2⟩ := costLevel_step MAXFLOAT junkG junkJ N diff U hU hd
  rw [hrunT] at hr1
  rw [hrunU] at hr2
  injection hr1 with hr1
  injection hr2 with hr2
  subst hr1; subst hr2
  have c1 := (hs1.2 a b ha (by omega) (by omega) hbN).1 ⟨hspan, trivial⟩
  have c2 := (hs2.2 a b ha (by omega) (by omega) hbN).1 ⟨hspan, trivial⟩
  have c1b := cellStep_congr MAXFLOAT a b _ (fun k => candidate U N a k b) _ _
    (fun k hk1 hk2 => by
      show candidate T N a k b = candidate U N a k b
      unfold candidate leftCost rightCost
      rw [hcost a k ha (by omega) (by omega) (by omega),
        hdist a k ha (by omega) (by omega) (by omega),
        hcost k b (by omega) (by omega) hbN (by omega),
        hdist k b (by omega) (by omega) hbN (by omega)]) c1
  have key := cellStep_reads MAXFLOAT a b _ _ _ _ _
    (hdist a b ha (by omega) hbN (by omega)) c2 c1b
  exact ⟨key.1, key.2.2⟩

theorem mem_levelColumns (N diff b : Int) : b ∈ levelColumns N diff ↔ diff ≤ b ∧ b < N := by
  unfold levelColumns
  simp only [List.mem_map, List.mem_range]
  constructor
  · rintro ⟨t, ht, rfl⟩
    omega
  · rintro ⟨h1, h2⟩
    exact ⟨(b - diff).toNat, by omega, by omega⟩

theorem levelColumns_nodup (N diff : Int) : (levelColumns N diff).Nodup := by
  unfold levelColumns
  refine List.Nodup.map ?_ (List.nodup_range _)
  intro x y h
  simp only at h
  omega

theorem costLevelIn_step (N diff : Int) (T : List (Cell α)) (hd : 0 ≤ diff) :
    ∀ (order : List Int) (S : Int → Prop) (U : List (Cell α)),
      LevelStep MAXFLOAT N diff S T U → order.Nodup →
      (∀ j ∈ order, ¬ S j ∧ diff ≤ j ∧ j < N) →
      ∃ U2, costLevelIn MAXFLOAT junkF junkI N diff order U = Except.ok U2 ∧
        LevelStep MAXFLOAT N diff (fun b => S b ∨ b ∈ order) T U2 := by
  intro order
  induction order with
  | nil =>
    intro S U hU _ _
    refine ⟨U, rfl, levelStep_congrS MAXFLOAT N diff _ _ T U (fun b _ _ => ?_) hU⟩
    simp
  | cons c rest ih =>
    intro S U hU hnd hmem
    obtain ⟨hc1, hc2, hc3⟩ := hmem c (List.mem_cons_self _ _)
    obtain ⟨U1, hrun1, hstep1⟩ := levelStep_step MAXFLOAT junkF junkI N diff c S T U hU hd hc2
      hc3 hc1
    rw [List.nodup_cons] at hnd
    obtain ⟨U2, hrun2, hstep2⟩ := ih (fun b => S b ∨ b = c) U1 hstep1 hnd.2 (fun j hj => by
      obtain ⟨h1, h2, h3⟩ := hmem j (List.mem_cons_of_mem _ hj)
      refine ⟨?_, h2, h3⟩
      rintro (h | h)
      · exact h1 h
      · subst h
        exact hnd.1 hj)
    refine ⟨U2, ?_, levelStep_congrS MAXFLOAT N diff _ _ T U2 (fun b _ _ => ?_) hstep2⟩
    · unfold costLevelIn at hrun2 ⊢
      rw [List.foldlM_cons, hrun1]
      exact hrun2
    · simp only [List.mem_cons]
      tauto

theorem costLevelIn_eq (N diff : Int) (T : List (Cell α)) (hlen : (T.length : Int) = N * N)
    (hN : 0 ≤ N) (hd : 0 ≤ diff) (order : List Int)
    (hperm : order.Perm (levelColumns N diff)) :
    costLevelIn MAXFLOAT junkF junkI N diff order T =
      costLevel MAXFLOAT junkF junkI N diff T := by
  obtain ⟨T2, hrun, hstep⟩ := costLevel_step MAXFLOAT junkF junkI N diff T hlen hd
  obtain ⟨U2, hrunU, hstepU⟩ := costLevelIn_step MAXFLOAT junkF junkI N diff T hd order
    (fun _ => False) T (levelStep_refl MAXFLOAT N diff T hlen)
    (hperm.nodup_iff.2 (levelColumns_nodup N diff))
    (fun j hj => ⟨id, (mem_levelColumns N diff j).1 (hperm.mem_iff.1 hj)⟩)
  have hstepU2 : LevelStep MAXFLOAT N diff (fun _ => True) T U2 :=
    levelStep_congrS MAXFLOAT N diff _ _ T U2 (fun b hb hbN =>
      ⟨fun _ => trivial, fun _ => Or.inr (hperm.mem_iff.2
        ((mem_levelColumns N diff b).2 ⟨hb, hbN⟩))⟩) hstepU
  rw [hrun, hrunU, levelStep_unique MAXFLOAT N diff _ T U2 T2 hN hstepU2 hstep]

theorem forLoop_congr {σ : Type} (body1 body2 : Int → σ → Except Err σ) (I : σ → Prop) :
    ∀ (n : Nat) (lo : Int) (s : σ), I s →
      (∀ v s t, lo ≤ v → v < lo + n → I s → body1 v s = Except.ok t → I t) →
      (∀ v t, lo ≤ v → v < lo + n → I t → body2 v t = body1 v t) →
      forLoop body2 n lo s = forLoop body1 n lo s := by
  intro n
  induction n with
  | zero => intro lo s _ _ _; rfl
  | succ n ih =>
    intro lo s hs hpres heq
    simp only [forLoop]
    rw [heq lo s (le_refl _) (by push_cast; omega) hs]
    cases hb : body1 lo s with
    | error e => rfl
    | ok t =>
      simp only
      exact ih (lo + 1) t (hpres lo s t (le_refl _) (by push_cast; omega) hs hb)
        (fun v u w hv1 hv2 hu hw => hpres v u w (by omega) (by push_cast; omega) hu hw)
        (fun v u hv1 hv2 hu => heq v u (by omega) (by push_cast; omega) hu)

theorem costPhaseIn_eq (N : Int) (T : List (Cell α)) (hlen : (T.length : Int) = N * N)
    (hN : 0 ≤ N) (orders : Int → List Int)
    (hperm : ∀ diff, 0 ≤ diff → diff < N → (orders diff).Perm (levelColumns N diff)) :
    costPhaseIn MAXFLOAT junkF junkI N orders T = costPhase MAXFLOAT junkF junkI N T := by
  rw [costPhase_eq_costLevels]
  unfold costPhaseIn costLevels
  refine forLoop_congr _ _ (fun U => (U.length : Int) = N * N) N.toNat 0 T hlen ?_ ?_
  · intro v s t hv _ hs hrun
    obtain ⟨t2, hrun2, hl, _⟩ := costLevel_frame MAXFLOAT junkF junkI N v s hs hv
    rw [hrun] at hrun2
    injection hrun2 with e
    rw [e]
    exact hl
  · intro v t hv0 hvN ht
    exact costLevelIn_eq MAXFLOAT junkF junkI N v t ht hN hv0 (orders v)
      (hperm v hv0 (by omega))

theorem cellDone_step (points : List (Point α)) (C : List (Cell α))
    (hC : Finished sqrt MAXFLOAT points C) (a b : Int) (ha : 0 ≤ a) (hab : a ≤ b)
    (hbN : b < (points.length : Int)) :
    CellStep MAXFLOAT a b (fun k => candidate C (points.length : Int) a k b)
      ⟨0, distOf sqrt points a b, -1, -1, -1⟩ (getCell C (points.length : Int) a b) := by
  obtain ⟨_, hdist, hdone, _⟩ := hC
  obtain ⟨hsmall, hbig⟩ := hdone a b ha hab hbN
  refine ⟨hdist a b ha hab hbN, fun h => ?_, fun h => ?_⟩
  · obtain ⟨h1, h2, h3, h4⟩ := hsmall h
    exact ⟨h1, h2, h3, h4⟩
  · rcases hbig h with ⟨h1, h2, h3, h4, h5⟩ | ⟨h1, h2, h3, h4, h5, h6, h7, h8⟩
    · exact Or.inl ⟨h1, h2, h3, h4, h5⟩
    · refine Or.inr ⟨h1, h2, h3, h4, h5, ?_, h7, h8⟩
      rw [h6, hdist a b ha hab hbN]

theorem finished_unique (points : List (Point α)) (C D : List (Cell α))
    (hC : Finished sqrt MAXFLOAT points C) (hD : Finished sqrt MAXFLOAT points D) :
    ∀ (n : Nat) (a b : Int), 0 ≤ a → a ≤ b → b < (points.length : Int) → b - a ≤ n →
      getCell C (points.length : Int) a b = getCell D (points.length : Int) a b := by
  intro n
  induction n using Nat.strong_induction_on with
  | _ n ih =>
    intro a b ha hab hbN hn
    have h1 := cellDone_step sqrt MAXFLOAT points C hC a b ha hab hbN
    have h2 := cellDone_step sqrt MAXFLOAT points D hD a b ha hab hbN
    refine cellStep_unique MAXFLOAT a b _ _ _ _ h1
      (cellStep_congr MAXFLOAT a b _ _ _ _ (fun k hk1 hk2 => ?_) h2)
    have e1 := ih (k - a).toNat (by omega) a k ha (by omega) (by omega) (by omega)
    have e2 := ih (b - k).toNat (by omega) k b (by omega) (by omega) hbN (by omega)
    unfold candidate leftCost rightCost
    rw [e1, e2]

theorem findTriangle_congr (points : List (Point α)) (C D : List (Cell α))
    (hC : Finished sqrt MAXFLOAT points C) (hD : Finished sqrt MAXFLOAT points D) :
    ∀ (f : Nat) (i j : Int) (acc : List Triangle), 0 ≤ i → i ≤ j → j < (points.length : Int) →
      findTriangle f i j C (points.length : Int) acc =
        findTriangle f i j D (points.length : Int) acc := by
  intro f
  induction f with
  | zero => intro i j acc _ _ _; rfl
  | succ f ih =>
    intro i j acc hi hij hjN
    have hrC := readAt_getCell C (points.length : Int) i j hC.1 hi (by omega) (by omega) hjN
    have hrD := readAt_getCell D (points.length : Int) i j hD.1 hi (by omega) (by omega) hjN
    have e := finished_unique sqrt MAXFLOAT points C D hC hD (j - i).toNat i j hi hij hjN
      (by omega)
    rw [← e] at hrD
    obtain ⟨hsmall, hbig⟩ := hC.2.2.1 i j hi hij hjN
    have hstop : Fresh (getCell C (points.length : Int) i j) →
        findTriangle (f + 1) i j C (points.length : Int) acc =
          findTriangle (f + 1) i j D (points.length : Int) acc := by
      intro hfr
      rw [findTriangle_stop f i j _ C _ acc hrC (by rw [hfr.1]; decide),
        findTriangle_stop f i j _ D _ acc hrD (by rw [hfr.1]; decide)]
    by_cases hsp : j < i + 2
    · exact hstop (hsmall hsp).2
    · rcases hbig (by omega) with ⟨_, _, h3⟩ | ⟨h1, h2, h3, h4, _⟩
      · exact hstop h3
      · have hpos : ¬ (getCell C (points.length : Int) i j).i < 0 := by rw [h1]; omega
        simp only [findTriangle, hrC, hrD, bind, Except.bind, hpos, if_false]
        rw [h1, h2]
        rw [ih i (getCell C (points.length : Int) i j).k _ hi (by omega) (by omega)]
        cases findTriangle f i (getCell C (points.length : Int) i j).k D (points.length : Int)
          (acc ++ [(i, (getCell C (points.length : Int) i j).k, j)]) with
        | error e => rfl
        | ok t =>
          simp only
          exact ih (getCell C (points.length : Int) i j).k j t (by omega) (by omega) hjN

theorem triangulate_junk (junkG : Nat → α) (junkJ : Int) (fuel : Nat)
    (points : List (Point α)) :
    triangulate sqrt MAXFLOAT junkF junkI fuel points =
      triangulate sqrt MAXFLOAT junkG junkJ fuel points := by
  obtain ⟨hrun1, hfin1⟩ := finalTable_spec sqrt MAXFLOAT junkF junkI points
  obtain ⟨hrun2, hfin2⟩ := finalTable_spec sqrt MAXFLOAT junkG junkJ points
  cases points with
  | nil =>
    unfold triangulate
    rw [hrun1, hrun2, finalTable_nil, finalTable_nil]
  | cons p ps =>
    have hN : (1 : Int) ≤ ((p :: ps).length : Int) := by
      simp only [List.length_cons]
      push_cast
      omega
    have hr1 := readAt_getCell _ _ 0 (((p :: ps).length : Int) - 1) hfin1.1 (le_refl _)
      (by omega) (by omega) (by omega)
    have hr2 := readAt_getCell _ _ 0 (((p :: ps).length : Int) - 1) hfin2.1 (le_refl _)
      (by omega) (by omega) (by omega)
    have e := finished_unique sqrt MAXFLOAT (p :: ps) _ _ hfin1 hfin2
      (((p :: ps).length : Int) - 1).toNat 0 (((p :: ps).length : Int) - 1) (le_refl _)
      (by omega) (by omega) (by omega)
    have hft := findTriangle_congr sqrt MAXFLOAT (p :: ps) _ _ hfin1 hfin2 fuel 0
      (((p :: ps).length : Int) - 1) [] (le_refl _) (by omega) (by omega)
    have z1 : ∀ x : Int, (0 : Int) * ((p :: ps).length : Int) + x = x := by
      intro x
      rw [Int.zero_mul, Int.zero_add]
    rw [z1] at hr1 hr2
    unfold triangulate
    simp only [hrun1, hrun2, bind, Except.bind, hft, hr1, hr2, e]

theorem sentinel_cases (points : List (Point α)) (C : List (Cell α))
    (hC : Finished sqrt MAXFLOAT points C) (i j : Int) (hi : 0 ≤ i) (hij : i ≤ j)
    (hjN : j < (points.length : Int)) :
    (j < i + 2 → (getCell C (points.length : Int) i j).cost = 0 ∧
      (getCell C (points.length : Int) i j).i = -1 ∧
      (getCell C (points.length : Int) i j).k = -1 ∧
      (getCell C (points.length : Int) i j).j = -1) ∧
    (i + 2 ≤ j →
      (((getCell C (points.length : Int) i j).i = -1 ∧
          (getCell C (points.length : Int) i j).k = -1 ∧
          (getCell C (points.length : Int) i j).j = -1) ↔
        ∀ k, i < k → k < j → ¬ candidate C (points.length : Int) i k j < MAXFLOAT) ∧
      ((∀ k, i < k → k < j → ¬ candidate C (points.length : Int) i k j < MAXFLOAT) →
        (getCell C (points.length : Int) i j).cost = MAXFLOAT) ∧
      (¬ (∀ k, i < k → k < j → ¬ candidate C (points.length : Int) i k j < MAXFLOAT) →
        (getCell C (points.length : Int) i j).i = i ∧
        (getCell C (points.length : Int) i j).j = j ∧
        i < (getCell C (points.length : Int) i j).k ∧
        (getCell C (points.length : Int) i j).k < j)) := by
  obtain ⟨hsmall, hbig⟩ := hC.2.2.1 i j hi hij hjN
  refine ⟨fun h => ?_, fun h => ?_⟩
  · obtain ⟨h1, h2, h3, h4⟩ := hsmall h
    exact ⟨h1, h2, h3, h4⟩
  · rcases hbig h with ⟨h1, h2, h3, h4, h5⟩ | ⟨h1, h2, h3, h4, h5, _⟩
    · exact ⟨⟨fun _ => h1, fun _ => ⟨h3, h4, h5⟩⟩, fun _ => h2, fun hn => absurd h1 hn⟩
    · refine ⟨⟨fun hs => ?_, fun hn => ?_⟩, fun hn => ?_, fun _ => ⟨h1, h2, h3, h4⟩⟩
      · exfalso
        have := hs.1
        omega
      · exact absurd h5 (hn _ h3 h4)
      · exact absurd h5 (hn _ h3 h4)

set_option maxRecDepth 100000 in
theorem farPoints_fresh :
    (getCell (finalTable intSqrt fltMax (fun _ => 7) 11 farPoints) (farPoints.length : Int)
      0 2).i = -1 ∧
    (getCell (finalTable intSqrt fltMax (fun _ => 7) 11 farPoints) (farPoints.length : Int)
      0 2).k = -1 ∧
    (getCell (finalTable intSqrt fltMax (fun _ => 7) 11 farPoints) (farPoints.length : Int)
      0 2).j = -1 :=
  ⟨rfl, rfl, rfl⟩

theorem distancePhase_frame (points : List (Point α)) (N : Int) (C : List (Cell α))
    (hN : N = (points.length : Int)) (hlen : (C.length : Int) = N * N) :
    ∃ C2, distancePhase sqrt points N C = Except.ok C2 ∧ (C2.length : Int) = N * N ∧
      (∀ a b, 0 ≤ a → a ≤ b → b < N → (getCell C2 N a b).dist = distOf sqrt points a b) ∧
      (∀ a b, 0 ≤ a → a < N → 0 ≤ b → b < N →
        (getCell C2 N a b).cost = (getCell C N a b).cost ∧
        (getCell C2 N a b).i = (getCell C N a b).i ∧
        (getCell C2 N a b).k = (getCell C N a b).k ∧
        (getCell C2 N a b).j = (getCell C N a b).j) ∧
      (∀ a b, 0 ≤ b → b < a → a < N → getCell C2 N a b = getCell C N a b) := by
  unfold distancePhase
  have hN0 : 0 ≤ N := by omega
  obtain ⟨C2, hrun, hinv⟩ := forLoop_inv _ (fun r T => (T.length : Int) = N * N ∧
      (∀ a b, 0 ≤ a → a ≤ b → b < N → (a < r ∨ (a = r ∧ b < 0)) →
        (getCell T N a b).dist = distOf sqrt points a b) ∧
      (∀ a b, 0 ≤ a → a < N → 0 ≤ b → b < N →
        (getCell T N a b).cost = (getCell C N a b).cost ∧
        (getCell T N a b).i = (getCell C N a b).i ∧
        (getCell T N a b).k = (getCell C N a b).k ∧
        (getCell T N a b).j = (getCell C N a b).j) ∧
      (∀ a b, 0 ≤ b → b < a → a < N → getCell T N a b = getCell C N a b)) N.toNat 0 C
    ⟨hlen, by intro a b h1 h2 h3 h4; omega, fun a b _ _ _ _ => ⟨rfl, rfl, rfl, rfl⟩,
      fun a b _ _ _ => rfl⟩ (by
      intro r T hr0 hrN hT
      have hrN2 : r < N := by omega
      obtain ⟨T2, hrun2, hinv2⟩ := forLoop_inv _ (fun c U => (U.length : Int) = N * N ∧
          (∀ a b, 0 ≤ a → a ≤ b → b < N → (a < r ∨ (a = r ∧ b < c)) →
            (getCell U N a b).dist = distOf sqrt points a b) ∧
          (∀ a b, 0 ≤ a → a < N → 0 ≤ b → b < N →
            (getCell U N a b).cost = (getCell C N a b).cost ∧
            (getCell U N a b).i = (getCell C N a b).i ∧
            (getCell U N a b).k = (getCell C N a b).k ∧
            (getCell U N a b).j = (getCell C N a b).j) ∧
          (∀ a b, 0 ≤ b → b < a → a < N → getCell U N a b = getCell C N a b))
        (N - r).toNat r T ⟨hT.1, by
          intro a b h1 h2 h3 h4
          exact hT.2.1 a b h1 h2 h3 (by omega), hT.2.2.1, hT.2.2.2⟩ (by
          intro c U hc0 hcN hU
          have hcN2 : c < N := by omega
          obtain ⟨U2, hb, hl, hcell, hother⟩ := distanceBody_spec sqrt points N r c U hN hU.1
            hr0 hrN2 (by omega) hcN2
          refine ⟨U2, hb, hl, ?_, ?_, ?_⟩
          · intro a b h1 h2 h3 h4
            by_cases hab : a = r ∧ b = c
            · obtain ⟨e1, e2⟩ := hab
              subst e1; subst e2
              rw [hcell]
            · rw [hother a b (by omega) h3 (by omega)]
              exact hU.2.1 a b h1 h2 h3 (by omega)
          · intro a b h1 h2 h3 h4
            by_cases hab : a = r ∧ b = c
            · obtain ⟨e1, e2⟩ := hab
              subst e1; subst e2
              rw [hcell]
              exact hU.2.2.1 a b h1 h2 h3 h4
            · rw [hother a b h3 h4 (by omega)]
              exact hU.2.2.1 a b h1 h2 h3 h4
          · intro a b h1 h2 h3
            rw [hother a b h1 (by omega) (by omega)]
            exact hU.2.2.2 a b h1 h2 h3)
      refine ⟨T2, hrun2, hinv2.1, ?_, hinv2.2.2.1, hinv2.2.2.2⟩
      intro a b h1 h2 h3 h4
      exact hinv2.2.1 a b h1 h2 h3 (by omega))
  refine ⟨C2, hrun, hinv.1, ?_, hinv.2.2.1, hinv.2.2.2⟩
  intro a b h1 h2 h3
  exact hinv.2.1 a b h1 h2 h3 (by omega)

theorem distOf_euclid (points : List (Point α)) (i j : Int) (hi : 0 ≤ i)
    (hiN : i < (points.length : Int)) (hj : 0 ≤ j) (hjN : j < (points.length : Int)) :
    ∃ p q, readAt points i = Except.ok p ∧ readAt points j = Except.ok q ∧
      distOf sqrt points i j = sqrt ((p.x - q.x) * (p.x - q.x) + (p.y - q.y) * (p.y - q.y)) := by
  obtain ⟨p, hp⟩ := readAt_inRange points i hi hiN
  obtain ⟨q, hq⟩ := readAt_inRange points j hj hjN
  exact ⟨p, q, hp, hq, distOf_eq sqrt points i j p q hp hq⟩

theorem distancePhase_nil (C : List (Cell α)) :
    distancePhase sqrt ([] : List (Point α)) 0 C = Except.ok C := rfl

theorem distancePhase_single (p : Point α) (C : List (Cell α)) :
    distancePhase sqrt [p] 1 C = (do
      let d ← calculateDistance sqrt 0 0 [p]
      let c ← readAt C 0
      writeAt C 0 { c with dist := d }) := by
  unfold distancePhase
  have e : ((1 : Int).toNat) = 1 := rfl
  have e2 : (((1 : Int) - 0).toNat) = 1 := rfl
  rw [e]
  simp only [forLoop, e2]
  simp only [bind, Except.bind, Int.zero_mul, Int.zero_add]
  cases calculateDistance sqrt 0 0 [p] with
  | error x => rfl
  | ok d =>
    simp only
    cases readAt C 0 with
    | error x => rfl
    | ok c =>
      simp only
      cases writeAt C 0 { c with dist := d } with
      | error x => rfl
      | ok t => rfl

theorem filled_structure (points : List (Point α)) (C : List (Cell α))
    (hC : Finished sqrt MAXFLOAT points C) (row col : Int) (hr : 0 ≤ row) (hrc : row ≤ col)
    (hcN : col < (points.length : Int))
    (hfilled : ¬ (getCell C (points.length : Int) row col).i < 0) :
    (getCell C (points.length : Int) row col).i = row ∧
    (getCell C (points.length : Int) row col).j = col ∧
    row < (getCell C (points.length : Int) row col).k ∧
    (getCell C (points.length : Int) row col).k < col := by
  obtain ⟨hsmall, hbig⟩ := hC.2.2.1 row col hr hrc hcN
  by_cases hsp : col < row + 2
  · have := (hsmall hsp).2.1
    omega
  · rcases hbig (by omega) with ⟨_, _, h3, _⟩ | ⟨h1, h2, h3, h4, _⟩
    · omega
    · exact ⟨h1, h2, h3, h4⟩

theorem extract_fuel (points : List (Point α)) (C : List (Cell α))
    (hC : Finished sqrt MAXFLOAT points C) (i j : Int) (hi : 0 ≤ i) (hij : i ≤ j)
    (hjN : j < (points.length : Int)) :
    ∃ L, ∀ fuel acc, (j - i - 1).toNat + 1 ≤ fuel →
      findTriangle fuel i j C (points.length : Int) acc = Except.ok (acc ++ L) := by
  obtain ⟨L, hL⟩ := extract_exists sqrt MAXFLOAT points C hC ((j - i - 1).toNat + 1) i j hi hij
    hjN (by omega) (by omega)
  exact ⟨L, fun fuel acc hf => findTriangle_mono_le C _ _ fuel hf i j acc _ (hL acc)⟩

theorem findTriangle_inRange (points : List (Point α)) (C : List (Cell α))
    (hC : Finished sqrt MAXFLOAT points C) :
    ∀ (f : Nat) (i j : Int) (acc : List Triangle), 0 ≤ i → i ≤ j → j < (points.length : Int) →
      findTriangle f i j C (points.length : Int) acc = Except.error Err.outOfFuel ∨
        ∃ out, findTriangle f i j C (points.length : Int) acc = Except.ok out := by
  intro f
  induction f with
  | zero => intro i j acc _ _ _; exact Or.inl rfl
  | succ f ih =>
    intro i j acc hi hij hjN
    have hr := readAt_getCell C (points.length : Int) i j hC.1 hi (by omega) (by omega) hjN
    by_cases hfilled : (getCell C (points.length : Int) i j).i < 0
    · exact Or.inr ⟨acc, findTriangle_stop f i j _ C _ acc hr hfilled⟩
    · obtain ⟨h1, h2, h3, h4⟩ := filled_structure sqrt MAXFLOAT points C hC i j hi hij hjN hfilled
      simp only [findTriangle, hr, bind, Except.bind, hfilled, if_false]
      rw [h1, h2]
      rcases ih i (getCell C (points.length : Int) i j).k
        (acc ++ [(i, (getCell C (points.length : Int) i j).k, j)]) hi (by omega) (by omega)
        with e | ⟨t, e⟩
      · rw [e]
        exact Or.inl rfl
      · rw [e]
        simp only
        exact ih (getCell C (points.length : Int) i j).k j t (by omega) (by omega) hjN

theorem triangulate_inRange (points : List (Point α)) (hN : 1 ≤ points.length) (fuel : Nat) :
    triangulate sqrt MAXFLOAT junkF junkI fuel points = Except.error Err.outOfFuel ∨
      ∃ r, triangulate sqrt MAXFLOAT junkF junkI fuel points = Except.ok r := by
  obtain ⟨hfill, hfin⟩ := finalTable_spec sqrt MAXFLOAT junkF junkI points
  have hr := readAt_getCell (finalTable sqrt MAXFLOAT junkF junkI points) (points.length : Int)
    0 ((points.length : Int) - 1) hfin.1 (le_refl _) (by omega) (by omega) (by omega)
  have e : (0 : Int) * (points.length : Int) + ((points.length : Int) - 1)
      = (points.length : Int) - 1 := by ring
  rw [e] at hr
  unfold triangulate
  rcases findTriangle_inRange sqrt MAXFLOAT points _ hfin fuel 0 ((points.length : Int) - 1) []
    (le_refl _) (by omega) (by omega) with h | ⟨out, h⟩
  · left
    simp only [bind, Except.bind, hfill, h]
  · right
    refine ⟨(out, (getCell (finalTable sqrt MAXFLOAT junkF junkI points) (points.length : Int) 0
      ((points.length : Int) - 1)).cost), ?_⟩
    simp only [bind, Except.bind, hfill, h, hr, pure, Except.pure]

theorem index_fits (N i j : Int) (hN : N ≤ 46340) (hi : 0 ≤ i) (hiN : i < N) (hj : 0 ≤ j)
    (hjN : j < N) : i * N + j < N * N ∧ N * N ≤ 2147483647 := by
  refine ⟨(idx_range N i j hi hiN hj hjN).2, ?_⟩
  have h0 : 0 ≤ N := by omega
  have h1 : N * N ≤ 46340 * N := Int.mul_le_mul_of_nonneg_right hN h0
  omega

set_option maxRecDepth 100000 in
theorem bigTriangle_run :
    triangulate Flt.sqrt (Flt.fin fltMax) (fun _ => Flt.fin 7) 11 3 bigTriangle =
      Except.ok ([], Flt.fin fltMax) := by
  rfl

set_option maxRecDepth 100000 in
theorem bigTriangleExact_run :
    triangulate intSqrt fltMax (fun _ => 7) 11 3 bigTriangleExact =
      Except.ok ([(0, 1, 2)], 110680464442257309696) := by
  rfl

set_option maxRecDepth 100000 in
theorem bigTriangleExact_dist :
    distOf intSqrt bigTriangleExact 0 1 = 27670116110564327424 ∧
    distOf intSqrt bigTriangleExact 1 2 = 36893488147419103232 ∧
    distOf intSqrt bigTriangleExact 0 2 = 46116860184273879040 :=
  ⟨rfl, rfl, rfl⟩

theorem child_filled (points : List (Point α)) (C : List (Cell α))
    (hC : Finished sqrt MAXFLOAT points C) (hM : 0 ≤ MAXFLOAT)
    (hd : ∀ i j, 0 ≤ distOf sqrt points i j) (i k j : Int) (hi : 0 ≤ i) (hik : i < k)
    (hkj : k < j) (hjN : j < (points.length : Int))
    (hcand : candidate C (points.length : Int) i k j < MAXFLOAT) :
    (i + 2 ≤ k → ¬ Fresh (getCell C (points.length : Int) i k)) ∧
    (k + 2 ≤ j → ¬ Fresh (getCell C (points.length : Int) k j)) := by
  rw [candidate_eq sqrt MAXFLOAT points C hC i k j hi hik hkj hjN] at hcand
  have c1 := cost_nonneg_aux sqrt MAXFLOAT points C hC hM hd (k - i).toNat i k hi (by omega)
    (by omega) (by omega)
  have c2 := cost_nonneg_aux sqrt MAXFLOAT points C hC hM hd (j - k).toNat k j (by omega)
    (by omega) hjN (by omega)
  have d1 := hd i k
  have d2 := hd k j
  constructor
  · intro hbig hfr
    rcases (hC.2.2.1 i k hi (by omega) (by omega)).2 hbig with ⟨_, h2, _⟩ | ⟨h1, _⟩
    · rw [h2] at hcand
      linarith
    · have := hfr.1
      omega
  · intro hbig hfr
    rcases (hC.2.2.1 k j (by omega) (by omega) hjN).2 hbig with ⟨_, h2, _⟩ | ⟨h1, _⟩
    · rw [h2] at hcand
      linarith
    · have := hfr.1
      omega

theorem all_or_nothing (points : List (Point α)) (fuel : Nat) (hN : 3 ≤ points.length)
    (hfuel : points.length ≤ fuel) (hM : 0 ≤ MAXFLOAT)
    (hd : ∀ i j, 0 ≤ distOf sqrt points i j) :
    ∃ tris cost, triangulate sqrt MAXFLOAT junkF junkI fuel points = Except.ok (tris, cost) ∧
      (Fresh (getCell (finalTable sqrt MAXFLOAT junkF junkI points) (points.length : Int) 0
          ((points.length : Int) - 1)) → tris = [] ∧ cost = MAXFLOAT) ∧
      (¬ Fresh (getCell (finalTable sqrt MAXFLOAT junkF junkI points) (points.length : Int) 0
          ((points.length : Int) - 1)) → (tris.length : Int) = (points.length : Int) - 2) := by
  have hfin := (finalTable_spec sqrt MAXFLOAT junkF junkI points).2
  obtain ⟨L, hrun, hP⟩ := triangulate_run sqrt MAXFLOAT junkF junkI points fuel
    (fun i j L =>
      (Fresh (getCell (finalTable sqrt MAXFLOAT junkF junkI points) (points.length : Int) i j) →
        L = []) ∧
      (¬ Fresh (getCell (finalTable sqrt MAXFLOAT junkF junkI points) (points.length : Int) i j) →
        (L.length : Int) = j - i - 1))
    (fun i j _ _ _ hfr _ => ⟨fun _ => rfl, fun h => absurd hfr h⟩)
    (fun i k j L1 L2 hi hik hkj hjN hci hck _ h1 h2 => by
      have hnf : ¬ Fresh (getCell (finalTable sqrt MAXFLOAT junkF junkI points)
          (points.length : Int) i j) := by
        intro hfr
        have := hfr.1
        omega
      refine ⟨fun hfr => absurd hfr hnf, fun _ => ?_⟩
      have hcand : candidate (finalTable sqrt MAXFLOAT junkF junkI points) (points.length : Int)
          i k j < MAXFLOAT := by
        rcases (hfin.2.2.1 i j hi (by omega) hjN).2 (by omega) with ⟨_, _, h3⟩ |
          ⟨_, _, _, _, h5, _⟩
        · exact absurd h3 hnf
        · rw [hck] at h5
          exact h5
      obtain ⟨f1, f2⟩ := child_filled sqrt MAXFLOAT points _ hfin hM hd i k j hi hik hkj hjN hcand
      have l1 : (L1.length : Int) = k - i - 1 := by
        by_cases hs : k < i + 2
        · rw [h1.1 ((hfin.2.2.1 i k hi (by omega) (by omega)).1 hs).2]
          simp only [List.length_nil, Nat.cast_zero]
          omega
        · exact h1.2 (f1 (by omega))
      have l2 : (L2.length : Int) = j - k - 1 := by
        by_cases hs : j < k + 2
        · rw [h2.1 ((hfin.2.2.1 k j (by omega) (by omega) hjN).1 hs).2]
          simp only [List.length_nil, Nat.cast_zero]
          omega
        · exact h2.2 (f2 (by omega))
      simp only [List.length_cons, List.length_append]
      push_cast
      omega)
    (by omega) hfuel
  refine ⟨L, _, hrun, fun hfr => ⟨hP.1 hfr, ?_⟩, fun hnf => by have := hP.2 hnf; omega⟩
  rcases (hfin.2.2.1 0 ((points.length : Int) - 1) (le_refl _) (by omega) (by omega)).2
    (by omega) with ⟨_, h2, _⟩ | ⟨h1, _⟩
  · exact h2
  · have := hfr.1
    omega

set_option maxRecDepth 100000 in
theorem bigTriangleExact_below :
    BelowSentinel fltMax (finalTable intSqrt fltMax (fun _ => 7) 11 bigTriangleExact)
      (bigTriangleExact.length : Int) := by
  unfold BelowSentinel
  decide

theorem square_fits (N : Int) (h0 : 0 ≤ N) (hN : N ≤ 46340) :
    0 ≤ N * N ∧ N * N ≤ 2147483647 := by
  have h1 : N * N ≤ 46340 * N := Int.mul_le_mul_of_nonneg_right hN h0
  exact ⟨Int.mul_nonneg h0 h0, by omega⟩

theorem wrapInt_fits (x : Int) (h0 : 0 ≤ x) (h1 : x ≤ 2147483647) : wrapInt x = x := by
  unfold wrapInt
  omega

theorem distancePhase_no_cells (points : List (Point α)) (N : Int) (hN : 1 ≤ N)
    (hp : 1 ≤ points.length) :
    distancePhase sqrt points N ([] : List (Cell α)) = Except.error Err.outOfBounds := by
  obtain ⟨n, hn⟩ : ∃ n, N.toNat = n + 1 := ⟨N.toNat - 1, by omega⟩
  have hn2 : (N - 0).toNat = n + 1 := by rw [Int.sub_zero]; exact hn
  have hc := calculateDistance_ok sqrt points 0 0 (le_refl _) (by omega) (le_refl _) (by omega)
  have hr : readAt ([] : List (Cell α)) (0 * N + 0) = Except.error Err.outOfBounds := by
    simp [readAt]
  unfold distancePhase
  rw [hn]
  simp only [forLoop, hn2, hc, hr, bind, Except.bind]

theorem fillTable32_eq (points : List (Point α)) (hN : points.length ≤ 46340) :
    fillTable32 sqrt MAXFLOAT junkF junkI points = fillTable sqrt MAXFLOAT junkF junkI points := by
  have h1 : wrapInt (points.length : Int) = (points.length : Int) :=
    wrapInt_fits _ (by omega) (by omega)
  have h2 : wrapInt ((points.length : Int) * (points.length : Int)) =
      (points.length : Int) * (points.length : Int) := by
    obtain ⟨a, b⟩ := square_fits (points.length : Int) (by omega) (by omega)
    exact wrapInt_fits _ a b
  unfold fillTable32 fillTable
  simp only [h1, h2]

theorem manyPoints_fails :
    wrapInt ((manyPoints.length : Int) * (manyPoints.length : Int)) = 0 ∧
    fillTable32 intSqrt fltMax (fun _ => (7 : Int)) 11 manyPoints =
      Except.error Err.outOfBounds := by
  have hl : manyPoints.length = 65536 := List.length_replicate _ _
  have h1 : wrapInt ((65536 : Nat) : Int) = 65536 := by decide
  have h2 : wrapInt ((65536 : Int) * 65536) = 0 := by decide
  refine ⟨by rw [hl]; exact h2, ?_⟩
  unfold fillTable32
  simp only [hl, h1, h2]
  have e : newCells (fun _ => (7 : Int)) 0 = [] := rfl
  rw [e, distancePhase_no_cells intSqrt manyPoints 65536 (by decide) (by rw [hl]; decide)]
  rfl

end Shared

/-! ## The claims -/

section Claims

variable {α : Type} [LinearOrderedCommRing α]
variable (sqrt : α → α) (MAXFLOAT : α) (junkF : Nat → α) (junkI : Int)

/-- C1 (optimality): for `N >= 3` points whose candidate sums all stay below
`MAXFLOAT`, `triangulate` returns, and the total cost it returns is at most
the sum of the triangle perimeters of every triangulation of the range
`0..N-1` given as a binary split tree rooted at `(0, N-1)`. -/
theorem triangulate_optimal (points : List (Point α)) (fuel : Nat)
    (hN : 3 ≤ points.length) (hfuel : points.length ≤ fuel)
    (hM : BelowSentinel MAXFLOAT (finalTable sqrt MAXFLOAT junkF junkI points)
      (points.length : Int))
    (t : SplitTree) (ht : t.Valid 0 ((points.length : Int) - 1)) :
    ∃ tris cost, triangulate sqrt MAXFLOAT junkF junkI fuel points = Except.ok (tris, cost) ∧
      cost ≤ totalPerimeter (distOf sqrt points) (t.triangles 0 ((points.length : Int) - 1)) := by
  obtain ⟨L, hrun, _⟩ := triangulate_run sqrt MAXFLOAT junkF junkI points fuel
    (fun _ _ _ => True) (fun _ _ _ _ _ _ _ => trivial)
    (fun _ _ _ _ _ _ _ _ _ _ _ _ _ _ => trivial) (by omega) hfuel
  exact ⟨L, _, hrun, cost_le_tree sqrt MAXFLOAT points _
    (finalTable_spec sqrt MAXFLOAT junkF junkI points).2 hM t 0 _ (le_refl _) (by omega)
    (by omega) ht⟩

/-- Witness of C1: the 3 by 4 rectangle against the triangulation by the
diagonal `0-2`. -/
theorem triangulate_optimal_witness :
    ∃ tris cost, triangulate intSqrt fltMax (fun _ => 7) 11 4 rectangle =
        Except.ok (tris, cost) ∧
      cost ≤ totalPerimeter (distOf intSqrt rectangle)
        ((SplitTree.node 2 (SplitTree.node 1 SplitTree.leaf SplitTree.leaf)
          SplitTree.leaf).triangles 0 ((rectangle.length : Int) - 1)) :=
  triangulate_optimal intSqrt fltMax (fun _ => 7) 11 rectangle 4 (by decide) (by decide)
    rectangle_below _ (by simp [SplitTree.Valid, rectangle])

/-- C2 (cost matches the output): for `N >= 3` points whose candidate sums
all stay below `MAXFLOAT`, the cost returned by `triangulate` is the cost field
of cell `(0, N-1)` and equals the sum of the perimeters of the returned
triangles; and for every cell `(i, j)` of the upper triangle the cost field
equals the sum of the perimeters of the triangles `findTriangle(i, j)` appends. -/
theorem cost_matches_output (points : List (Point α)) (fuel : Nat)
    (hN : 3 ≤ points.length) (hfuel : points.length ≤ fuel)
    (hM : BelowSentinel MAXFLOAT (finalTable sqrt MAXFLOAT junkF junkI points)
      (points.length : Int)) :
    (∃ tris cost, triangulate sqrt MAXFLOAT junkF junkI fuel points = Except.ok (tris, cost) ∧
      cost = (getCell (finalTable sqrt MAXFLOAT junkF junkI points) (points.length : Int) 0
        ((points.length : Int) - 1)).cost ∧
      cost = totalPerimeter (distOf sqrt points) tris) ∧
    (∀ i j, 0 ≤ i → i ≤ j → j < (points.length : Int) →
      ∃ L, (∀ acc, findTriangle fuel i j (finalTable sqrt MAXFLOAT junkF junkI points)
          (points.length : Int) acc = Except.ok (acc ++ L)) ∧
        (getCell (finalTable sqrt MAXFLOAT junkF junkI points) (points.length : Int) i j).cost =
          totalPerimeter (distOf sqrt points) L) := by
  have hfin := (finalTable_spec sqrt MAXFLOAT junkF junkI points).2
  have hstop : ∀ i j, 0 ≤ i → i ≤ j → j < (points.length : Int) →
      Fresh (getCell (finalTable sqrt MAXFLOAT junkF junkI points) (points.length : Int) i j) →
      (i + 2 ≤ j → ∀ k, i < k → k < j →
        ¬ candidate (finalTable sqrt MAXFLOAT junkF junkI points) (points.length : Int) i k j
          < MAXFLOAT) →
      (getCell (finalTable sqrt MAXFLOAT junkF junkI points) (points.length : Int) i j).cost =
        totalPerimeter (distOf sqrt points) [] := by
    intro i j hi hij hjN _ hno
    rw [(cost_eq_emitted_stop sqrt MAXFLOAT points _ hfin hM i j hi hij hjN hno).2]
    simp [totalPerimeter]
  have hnode : ∀ i k j L1 L2, 0 ≤ i → i < k → k < j → j < (points.length : Int) →
      (getCell (finalTable sqrt MAXFLOAT junkF junkI points) (points.length : Int) i j).i = i →
      (getCell (finalTable sqrt MAXFLOAT junkF junkI points) (points.length : Int) i j).k = k →
      (getCell (finalTable sqrt MAXFLOAT junkF junkI points) (points.length : Int) i j).j = j →
      (getCell (finalTable sqrt MAXFLOAT junkF junkI points) (points.length : Int) i k).cost =
        totalPerimeter (distOf sqrt points) L1 →
      (getCell (finalTable sqrt MAXFLOAT junkF junkI points) (points.length : Int) k j).cost =
        totalPerimeter (distOf sqrt points) L2 →
      (getCell (finalTable sqrt MAXFLOAT junkF junkI points) (points.length : Int) i j).cost =
        totalPerimeter (distOf sqrt points) ((i, k, j) :: (L1 ++ L2)) := by
    intro i k j L1 L2 hi hik hkj hjN _ hk _ h1 h2
    exact cost_eq_emitted_node sqrt MAXFLOAT points _ hfin hM i k j L1 L2 hi hik hkj hjN hk h1 h2
  constructor
  · obtain ⟨L, hrun, hP⟩ := triangulate_run sqrt MAXFLOAT junkF junkI points fuel
      (fun i j L => (getCell (finalTable sqrt MAXFLOAT junkF junkI points)
        (points.length : Int) i j).cost = totalPerimeter (distOf sqrt points) L)
      hstop hnode (by omega) hfuel
    exact ⟨L, _, hrun, rfl, hP⟩
  · intro i j hi hij hjN
    exact extract_induction sqrt MAXFLOAT points _ hfin
      (fun i j L => (getCell (finalTable sqrt MAXFLOAT junkF junkI points)
        (points.length : Int) i j).cost = totalPerimeter (distOf sqrt points) L)
      hstop hnode fuel i j hi hij hjN (by omega) (by omega)

/-- Witness of C2: the 3 by 4 rectangle. -/
theorem cost_matches_output_witness :
    (∃ tris cost, triangulate intSqrt fltMax (fun _ => 7) 11 4 rectangle =
        Except.ok (tris, cost) ∧
      cost = (getCell (finalTable intSqrt fltMax (fun _ => 7) 11 rectangle)
        (rectangle.length : Int) 0 ((rectangle.length : Int) - 1)).cost ∧
      cost = totalPerimeter (distOf intSqrt rectangle) tris) ∧
    (∀ i j, 0 ≤ i → i ≤ j → j < (rectangle.length : Int) →
      ∃ L, (∀ acc, findTriangle 4 i j (finalTable intSqrt fltMax (fun _ => 7) 11 rectangle)
          (rectangle.length : Int) acc = Except.ok (acc ++ L)) ∧
        (getCell (finalTable intSqrt fltMax (fun _ => 7) 11 rectangle)
          (rectangle.length : Int) i j).cost = totalPerimeter (distOf intSqrt rectangle) L) :=
  cost_matches_output intSqrt fltMax (fun _ => 7) 11 rectangle 4 (by decide) (by decide)
    rectangle_below

/-- C3 (triangle count), evaluation at the failing input: on the empty point
sequence (`N = 0`, a valid input for which the claim promises a list with
`max(N-2, 0) = 0` elements) `triangulate` returns no triangle list at all,
whatever the fuel: the lookup of the root cell fails. -/
theorem triangle_count_fails_on_empty (fuel : Nat) (r : List Triangle × α) :
    triangulate sqrt MAXFLOAT junkF junkI fuel ([] : List (Point α)) ≠ Except.ok r :=
  triangulate_nil_ne_ok sqrt MAXFLOAT junkF junkI fuel r

/-- The part of C3 the code satisfies: for `N >= 1` points whose candidate
sums all stay below `MAXFLOAT` the returned list has `max(N-2, 0)` triangles. -/
theorem triangle_count_nonempty (points : List (Point α)) (fuel : Nat)
    (hN : 1 ≤ points.length) (hfuel : points.length ≤ fuel)
    (hM : BelowSentinel MAXFLOAT (finalTable sqrt MAXFLOAT junkF junkI points)
      (points.length : Int)) :
    ∃ tris cost, triangulate sqrt MAXFLOAT junkF junkI fuel points = Except.ok (tris, cost) ∧
      (tris.length : Int) = max ((points.length : Int) - 2) 0 := by
  have hfin := (finalTable_spec sqrt MAXFLOAT junkF junkI points).2
  obtain ⟨L, hrun, hP⟩ := triangulate_run sqrt MAXFLOAT junkF junkI points fuel
    (fun i j L => (L.length : Int) = max (j - i - 1) 0)
    (fun i j hi hij hjN _ hno => by
      have := (cost_eq_emitted_stop sqrt MAXFLOAT points _ hfin hM i j hi hij hjN hno).1
      simp only [List.length_nil, Nat.cast_zero]
      omega)
    (fun i k j L1 L2 hi hik hkj hjN _ _ _ h1 h2 => by
      simp only [List.length_cons, List.length_append, Nat.cast_add, Nat.cast_one, h1, h2]
      omega)
    hN hfuel
  refine ⟨L, _, hrun, ?_⟩
  rw [hP]
  congr 1
  ring

/-- C4 (degenerate sizes), evaluation at the failing input: on the empty point
sequence the table has no cells and the lookup of the root cell `(0, N-1)`,
at index `-1`, is a failed table access. -/
theorem degenerate_empty_fails (fuel : Nat) :
    triangulate sqrt MAXFLOAT junkF junkI (fuel + 1) ([] : List (Point α)) =
      Except.error Err.outOfBounds :=
  triangulate_nil sqrt MAXFLOAT junkF junkI fuel

/-- The part of C4 the code satisfies: for one or two points `triangulate`
returns the empty triangle list and cost `0`. -/
theorem degenerate_one_two (points : List (Point α)) (fuel : Nat)
    (hN : points.length = 1 ∨ points.length = 2) (hfuel : points.length ≤ fuel) :
    triangulate sqrt MAXFLOAT junkF junkI fuel points = Except.ok ([], 0) := by
  have hfin := (finalTable_spec sqrt MAXFLOAT junkF junkI points).2
  obtain ⟨L, hrun, hP⟩ := triangulate_run sqrt MAXFLOAT junkF junkI points fuel
    (fun i j L => j < i + 2 → L = [])
    (fun _ _ _ _ _ _ _ _ => rfl)
    (fun i k j L1 L2 hi hik hkj hjN _ _ _ h1 h2 h => by omega)
    (by omega) hfuel
  have hL := hP (by omega)
  have hc := ((hfin.2.2.1 0 ((points.length : Int) - 1) (le_refl _) (by omega) (by omega)).1
    (by omega)).1
  rw [hrun, hL, hc]

/-- C5 (well-formed triangles): every triangle `(i, k, j)` of a list returned
by `triangulate` satisfies `0 <= i < k < j < N`; and for `N >= 1` points (and
enough fuel) `triangulate` does return a list. -/
theorem triangles_well_formed (points : List (Point α)) (fuel : Nat) :
    (∀ tris cost, triangulate sqrt MAXFLOAT junkF junkI fuel points = Except.ok (tris, cost) →
      ∀ t ∈ tris, 0 ≤ t.1 ∧ t.1 < t.2.1 ∧ t.2.1 < t.2.2 ∧ t.2.2 < (points.length : Int)) ∧
    (1 ≤ points.length → points.length ≤ fuel →
      ∃ r, triangulate sqrt MAXFLOAT junkF junkI fuel points = Except.ok r) := by
  constructor
  · intro tris cost h t ht
    have key := triangulate_result sqrt MAXFLOAT junkF junkI points fuel
      (fun i j L => ∀ t ∈ L, i ≤ t.1 ∧ t.1 < t.2.1 ∧ t.2.1 < t.2.2 ∧ t.2.2 ≤ j)
      (fun _ _ _ _ _ _ _ t ht => by simp at ht)
      (fun i k j L1 L2 hi hik hkj hjN _ _ _ h1 h2 t ht => by
        simp only [List.mem_cons, List.mem_append] at ht
        rcases ht with rfl | ht | ht
        · exact ⟨le_refl _, hik, hkj, le_refl _⟩
        · have := h1 t ht
          exact ⟨this.1, this.2.1, this.2.2.1, by omega⟩
        · have := h2 t ht
          exact ⟨by omega, this.2.1, this.2.2.1, this.2.2.2⟩)
      (tris, cost) h t ht
    exact ⟨key.1, key.2.1, key.2.2.1, by omega⟩
  · intro hN hfuel
    obtain ⟨L, hrun, _⟩ := triangulate_run sqrt MAXFLOAT junkF junkI points fuel
      (fun _ _ _ => True) (fun _ _ _ _ _ _ _ => trivial)
      (fun _ _ _ _ _ _ _ _ _ _ _ _ _ _ => trivial) hN hfuel
    exact ⟨_, hrun⟩

/-- Witness of C5: the two triangles returned for the 3 by 4 rectangle. -/
theorem triangles_well_formed_witness :
    ∀ t ∈ [((0 : Int), (1 : Int), (3 : Int)), (1, 2, 3)],
      0 ≤ t.1 ∧ t.1 < t.2.1 ∧ t.2.1 < t.2.2 ∧ t.2.2 < (rectangle.length : Int) :=
  (triangles_well_formed intSqrt fltMax (fun _ => 7) 11 rectangle 4).1 _ _ rectangle_run

/-- Counterexample to C6 as stated, for `float` arithmetic: the three points
`(0,0)`, `(3*2^63, 0)`, `(3*2^63, 4*2^63)` have every exact candidate sum
below `MAXFLOAT`, but the squares of line 59 overflow, every distance is an
infinity, the root cell stays unfilled and `triangulate` returns the empty
list: the boundary edge `(0, 1)` is a side of no returned triangle. -/
theorem boundary_edge_lost :
    BelowSentinel fltMax (finalTable intSqrt fltMax (fun _ => 7) 11 bigTriangleExact)
      (bigTriangleExact.length : Int) ∧
    triangulate Flt.sqrt (Flt.fin fltMax) (fun _ => Flt.fin 7) 11 3 bigTriangle =
      Except.ok ([], Flt.fin fltMax) ∧
    isBoundaryEdge (bigTriangle.length : Int) 0 1 ∧
    sideCount ([] : List Triangle) 0 1 = 0 :=
  ⟨bigTriangleExact_below, bigTriangle_run, Or.inl ⟨by decide, by decide, by decide⟩, rfl⟩

/-- C6 as amended (combinatorial validity): in exact arithmetic, for `N >= 3`
points whose candidate sums all stay below `MAXFLOAT`, in the list returned by
`triangulate` no triangle and no sub-range occurs twice, every boundary edge
`(i, i+1)` and the closing edge `(0, N-1)` is a side of exactly one returned
triangle, and every other vertex pair that is a side of a returned triangle is
a side of exactly two. -/
theorem triangulation_valid (points : List (Point α)) (fuel : Nat)
    (hN : 3 ≤ points.length) (hfuel : points.length ≤ fuel)
    (hM : BelowSentinel MAXFLOAT (finalTable sqrt MAXFLOAT junkF junkI points)
      (points.length : Int)) :
    ∃ tris cost, triangulate sqrt MAXFLOAT junkF junkI fuel points = Except.ok (tris, cost) ∧
      tris.Nodup ∧ (tris.map rangeOf).Nodup ∧
      (∀ u v, isBoundaryEdge (points.length : Int) u v → sideCount tris u v = 1) ∧
      (∀ u v, u ≠ v → ¬ isBoundaryEdge (points.length : Int) u v →
        ¬ isBoundaryEdge (points.length : Int) v u →
        sideCount tris u v ≠ 0 → sideCount tris u v = 2) := by
  have hfin := (finalTable_spec sqrt MAXFLOAT junkF junkI points).2
  obtain ⟨L, hrun, hP⟩ := triangulate_run sqrt MAXFLOAT junkF junkI points fuel
    (fun i j L => Triangulates i j L)
    (fun i j hi hij hjN _ hno => triangulates_stop i j hij
      (cost_eq_emitted_stop sqrt MAXFLOAT points _ hfin hM i j hi hij hjN hno).1)
    (fun i k j L1 L2 _ hik hkj _ _ _ _ h1 h2 => triangulates_node i k j L1 L2 hik hkj h1 h2)
    (by omega) hfuel
  refine ⟨L, _, hrun, List.Nodup.of_map rangeOf hP.2.2.1, hP.2.2.1, ?_, ?_⟩
  · intro u v hb
    unfold isBoundaryEdge at hb
    have huv : u < v := by omega
    obtain ⟨_, q, r, _⟩ := hP.2.2.2 u v huv
    rcases hb with ⟨h1, h2, h3⟩ | ⟨h1, h2⟩
    · exact r (by omega) (by omega) (by omega) h2
    · exact q h1 h2 (by omega)
  · intro u v hne hb1 hb2 hc
    rcases lt_or_gt_of_ne hne with huv | huv
    · exact other_pairs_twice (points.length : Int) L (by omega) hP u v huv hb1 hc
    · rw [sideCount_comm] at hc ⊢
      exact other_pairs_twice (points.length : Int) L (by omega) hP v u huv hb2 hc

/-- Witness of C6: the 3 by 4 rectangle. -/
theorem triangulation_valid_witness :
    ∃ tris cost, triangulate intSqrt fltMax (fun _ => 7) 11 4 rectangle =
        Except.ok (tris, cost) ∧
      tris.Nodup ∧ (tris.map rangeOf).Nodup ∧
      (∀ u v, isBoundaryEdge (rectangle.length : Int) u v → sideCount tris u v = 1) ∧
      (∀ u v, u ≠ v → ¬ isBoundaryEdge (rectangle.length : Int) u v →
        ¬ isBoundaryEdge (rectangle.length : Int) v u →
        sideCount tris u v ≠ 0 → sideCount tris u v = 2) :=
  triangulation_valid intSqrt fltMax (fun _ => 7) 11 rectangle 4 (by decide) (by decide)
    rectangle_below

/-- C7 (recurrence invariant): in the finished table, with every candidate sum
below `MAXFLOAT`, each cell `(i, j)` with `j >= i+2` has
`cost(i,j) = dist(i,j) + min over i < k < j of
[cost(i,k) + dist(i,k) + cost(k,j) + dist(k,j)]`, the stored apex attains that
minimum, and filling `c1`, filling `c2`, adding and scanning yields exactly
that minimum and that apex. -/
theorem recurrence_invariant (points : List (Point α))
    (hM : BelowSentinel MAXFLOAT (finalTable sqrt MAXFLOAT junkF junkI points)
      (points.length : Int))
    (i j : Int) (hi : 0 ≤ i) (hij : i + 2 ≤ j) (hjN : j < (points.length : Int)) :
    i < (getCell (finalTable sqrt MAXFLOAT junkF junkI points) (points.length : Int) i j).k ∧
    (getCell (finalTable sqrt MAXFLOAT junkF junkI points) (points.length : Int) i j).k < j ∧
    (getCell (finalTable sqrt MAXFLOAT junkF junkI points) (points.length : Int) i j).cost =
      distOf sqrt points i j +
        candidate (finalTable sqrt MAXFLOAT junkF junkI points) (points.length : Int) i
          (getCell (finalTable sqrt MAXFLOAT junkF junkI points) (points.length : Int) i j).k
          j ∧
    (∀ k, i < k → k < j →
      candidate (finalTable sqrt MAXFLOAT junkF junkI points) (points.length : Int) i
        (getCell (finalTable sqrt MAXFLOAT junkF junkI points) (points.length : Int) i j).k j ≤
      candidate (finalTable sqrt MAXFLOAT junkF junkI points) (points.length : Int) i k j) ∧
    (∀ k, i < k → k < j →
      candidate (finalTable sqrt MAXFLOAT junkF junkI points) (points.length : Int) i k j =
        (getCell (finalTable sqrt MAXFLOAT junkF junkI points) (points.length : Int) i k).cost +
          distOf sqrt points i k +
        (getCell (finalTable sqrt MAXFLOAT junkF junkI points) (points.length : Int) k j).cost +
          distOf sqrt points k j) ∧
    (∃ c1 c2 r,
      fillLeft (points.length : Int) i j (finalTable sqrt MAXFLOAT junkF junkI points)
        (newFloats junkF (j - i - 1)) 0 = Except.ok c1 ∧
      fillRight (points.length : Int) i j (finalTable sqrt MAXFLOAT junkF junkI points)
        (newFloats junkF (j - i - 1)) 0 = Except.ok c2 ∧
      scan i j c2.1 c1.1 MAXFLOAT junkI = Except.ok r ∧
      r.2.1 = candidate (finalTable sqrt MAXFLOAT junkF junkI points) (points.length : Int) i
        (getCell (finalTable sqrt MAXFLOAT junkF junkI points) (points.length : Int) i j).k j ∧
      r.2.2 =
        (getCell (finalTable sqrt MAXFLOAT junkF junkI points) (points.length : Int) i j).k) := by
  have hfin := (finalTable_spec sqrt MAXFLOAT junkF junkI points).2
  obtain ⟨_, _, hk1, hk2, hcost, hmin, _⟩ := filled_of_below sqrt MAXFLOAT points _ hfin hM i j
    hi hij hjN
  refine ⟨hk1, hk2, ?_, hmin, ?_,
    scratch_recomputes sqrt MAXFLOAT junkF junkI points _ hfin hM i j hi hij hjN⟩
  · rw [hcost, add_comm]
  · intro k hk1 hk2
    have hd1 := hfin.2.1 i k hi (by omega) (by omega)
    have hd2 := hfin.2.1 k j (by omega) (by omega) hjN
    rw [← hd1, ← hd2]
    unfold candidate leftCost rightCost
    ring

/-- Witness of C7: the root cell `(0, 3)` of the 3 by 4 rectangle. -/
theorem recurrence_invariant_witness :
    (getCell (finalTable intSqrt fltMax (fun _ => 7) 11 rectangle)
      (rectangle.length : Int) 0 3).cost =
    distOf intSqrt rectangle 0 3 +
      candidate (finalTable intSqrt fltMax (fun _ => 7) 11 rectangle) (rectangle.length : Int) 0
        (getCell (finalTable intSqrt fltMax (fun _ => 7) 11 rectangle)
          (rectangle.length : Int) 0 3).k 3 :=
  (recurrence_invariant intSqrt fltMax (fun _ => 7) 11 rectangle rectangle_below 0 3
    (by decide) (by decide) (by decide)).2.2.1

/-- C8 (tie-break): in every filled cell `(i, j)` with `j >= i+2` of the
finished table the stored apex lies in the open interval `(i, j)`, minimises
the candidate sum, and no `k` with `i < k < apex` has a candidate sum less
than or equal to the one at the apex. -/
theorem tie_break_smallest (points : List (Point α)) (i j : Int) (hi : 0 ≤ i)
    (hij : i + 2 ≤ j) (hjN : j < (points.length : Int))
    (hfilled : ¬ (getCell (finalTable sqrt MAXFLOAT junkF junkI points)
      (points.length : Int) i j).i < 0) :
    i < (getCell (finalTable sqrt MAXFLOAT junkF junkI points) (points.length : Int) i j).k ∧
    (getCell (finalTable sqrt MAXFLOAT junkF junkI points) (points.length : Int) i j).k < j ∧
    (∀ k, i < k → k < j →
      candidate (finalTable sqrt MAXFLOAT junkF junkI points) (points.length : Int) i
        (getCell (finalTable sqrt MAXFLOAT junkF junkI points) (points.length : Int) i j).k j ≤
      candidate (finalTable sqrt MAXFLOAT junkF junkI points) (points.length : Int) i k j) ∧
    (∀ k, i < k →
      k < (getCell (finalTable sqrt MAXFLOAT junkF junkI points) (points.length : Int) i j).k →
      ¬ candidate (finalTable sqrt MAXFLOAT junkF junkI points) (points.length : Int) i k j ≤
        candidate (finalTable sqrt MAXFLOAT junkF junkI points) (points.length : Int) i
          (getCell (finalTable sqrt MAXFLOAT junkF junkI points) (points.length : Int) i j).k
          j) := by
  have hfin := (finalTable_spec sqrt MAXFLOAT junkF junkI points).2
  rcases (hfin.2.2.1 i j hi (by omega) hjN).2 hij with ⟨_, _, h3⟩ | ⟨_, _, h3, h4, _, _, h7, h8⟩
  · exact absurd (by rw [h3.1]; decide) hfilled
  · exact ⟨h3, h4, h7, fun k hk1 hk2 => not_le.2 (h8 k hk1 hk2)⟩

set_option maxRecDepth 100000 in
/-- Witness of C8: the root cell `(0, 3)` of the 3 by 4 rectangle, where both
apexes tie and the smaller one is stored. -/
theorem tie_break_smallest_witness :
    0 < (getCell (finalTable intSqrt fltMax (fun _ => 7) 11 rectangle)
      (rectangle.length : Int) 0 3).k ∧
    (getCell (finalTable intSqrt fltMax (fun _ => 7) 11 rectangle)
      (rectangle.length : Int) 0 3).k < 3 ∧
    (∀ k, 0 < k → k < 3 →
      candidate (finalTable intSqrt fltMax (fun _ => 7) 11 rectangle) (rectangle.length : Int) 0
        (getCell (finalTable intSqrt fltMax (fun _ => 7) 11 rectangle)
          (rectangle.length : Int) 0 3).k 3 ≤
      candidate (finalTable intSqrt fltMax (fun _ => 7) 11 rectangle) (rectangle.length : Int)
        0 k 3) ∧
    (∀ k, 0 < k →
      k < (getCell (finalTable intSqrt fltMax (fun _ => 7) 11 rectangle)
        (rectangle.length : Int) 0 3).k →
      ¬ candidate (finalTable intSqrt fltMax (fun _ => 7) 11 rectangle) (rectangle.length : Int)
          0 k 3 ≤
        candidate (finalTable intSqrt fltMax (fun _ => 7) 11 rectangle) (rectangle.length : Int)
          0 (getCell (finalTable intSqrt fltMax (fun _ => 7) 11 rectangle)
            (rectangle.length : Int) 0 3).k 3) :=
  tie_break_smallest intSqrt fltMax (fun _ => 7) 11 rectangle 0 3 (by decide) (by decide)
    (by decide) (by decide)

set_option maxRecDepth 100000 in
/-- Counterexample to C9: for three points whose only candidate sum is not
below `MAXFLOAT` the root cell `(0, 2)` stays unfilled, and `triangulate`
returns normally with the empty list, fewer than `N - 2 = 1` triangles, and
the cost `MAXFLOAT`; no error is surfaced. -/
theorem silent_partial_result :
    triangulate intSqrt fltMax (fun _ => 7) 11 3 farPoints = Except.ok ([], fltMax) ∧
    (getCell (finalTable intSqrt fltMax (fun _ => 7) 11 farPoints)
      (farPoints.length : Int) 0 2).i = -1 ∧
    (([] : List Triangle).length : Int) < (farPoints.length : Int) - 2 := by
  refine ⟨by rfl, by rfl, by decide⟩

/-- C9 as amended: there is no internal-error condition. For `3 ≤ N ≤ 46340`
points, where `N * N` fits an `int`, in exact arithmetic with non-negative
distances, `triangulate` returns normally; the root cell `(0, N-1)` is
unfilled exactly when no candidate sum of it is below `MAXFLOAT`, and then the
result is the empty list, fewer than `N - 2` triangles, with the cost
`MAXFLOAT`; otherwise the list has exactly `N - 2` triangles. -/
theorem partial_results_returned (points : List (Point α)) (fuel : Nat)
    (hN : 3 ≤ points.length) (hN2 : points.length ≤ 46340) (hfuel : points.length ≤ fuel)
    (hM : 0 ≤ MAXFLOAT) (hd : ∀ i j, 0 ≤ distOf sqrt points i j) :
    (points.length : Int) * (points.length : Int) ≤ 2147483647 ∧
    (Fresh (getCell (finalTable sqrt MAXFLOAT junkF junkI points) (points.length : Int) 0
        ((points.length : Int) - 1)) ↔
      ∀ k, 0 < k → k < (points.length : Int) - 1 →
        ¬ candidate (finalTable sqrt MAXFLOAT junkF junkI points) (points.length : Int) 0 k
          ((points.length : Int) - 1) < MAXFLOAT) ∧
    ∃ tris cost, triangulate sqrt MAXFLOAT junkF junkI fuel points = Except.ok (tris, cost) ∧
      (Fresh (getCell (finalTable sqrt MAXFLOAT junkF junkI points) (points.length : Int) 0
          ((points.length : Int) - 1)) →
        tris = [] ∧ cost = MAXFLOAT ∧ (tris.length : Int) < (points.length : Int) - 2) ∧
      (¬ Fresh (getCell (finalTable sqrt MAXFLOAT junkF junkI points) (points.length : Int) 0
          ((points.length : Int) - 1)) → (tris.length : Int) = (points.length : Int) - 2) := by
  have hfin := (finalTable_spec sqrt MAXFLOAT junkF junkI points).2
  refine ⟨(square_fits _ (by omega) (by omega)).2,
    ((sentinel_cases sqrt MAXFLOAT points _ hfin 0 ((points.length : Int) - 1) (le_refl _)
      (by omega) (by omega)).2 (by omega)).1, ?_⟩
  obtain ⟨tris, cost, hrun, h1, h2⟩ := all_or_nothing sqrt MAXFLOAT junkF junkI points fuel hN
    hfuel hM hd
  refine ⟨tris, cost, hrun, fun hfr => ?_, h2⟩
  obtain ⟨e1, e2⟩ := h1 hfr
  refine ⟨e1, e2, ?_⟩
  rw [e1]
  simp only [List.length_nil, Nat.cast_zero]
  omega

set_option maxRecDepth 100000 in
/-- Witness of C9 as amended: the three far points, whose root cell is
unfilled, give the empty list and the cost `MAXFLOAT`; the 3 by 4 rectangle,
whose root cell is filled, gives `4 - 2` triangles. -/
theorem partial_results_returned_witness :
    (∃ tris cost, triangulate intSqrt fltMax (fun _ => 7) 11 3 farPoints =
        Except.ok (tris, cost) ∧ tris = [] ∧ cost = fltMax) ∧
    (∃ tris cost, triangulate intSqrt fltMax (fun _ => 7) 11 4 rectangle =
        Except.ok (tris, cost) ∧ (tris.length : Int) = (rectangle.length : Int) - 2) := by
  constructor
  · obtain ⟨_, _, tris, cost, hrun, h1, _⟩ := partial_results_returned intSqrt fltMax
      (fun _ => 7) 11 farPoints 3 (by decide) (by decide) (by decide) (by decide)
      (distOf_nonneg intSqrt intSqrt_nonneg farPoints)
    obtain ⟨e1, e2, _⟩ := h1 farPoints_fresh
    exact ⟨tris, cost, hrun, e1, e2⟩
  · obtain ⟨_, _, tris, cost, hrun, _, h2⟩ := partial_results_returned intSqrt fltMax
      (fun _ => 7) 11 rectangle 4 (by decide) (by decide) (by decide) (by decide)
      (distOf_nonneg intSqrt intSqrt_nonneg rectangle)
    exact ⟨tris, cost, hrun, h2 (fun hfr => absurd hfr.1 (by decide))⟩

/-- C10 (pre-order emission): in the finished table, for every cell `(i, j)`
(`0 <= i, j < N`) with the sentinel apex `findTriangle(i, j)` leaves the
triangle vector unchanged, and for every cell with a non-sentinel apex `k` it
appends exactly `(i, k, j)`, then what `findTriangle(i, k)` appends, then what
`findTriangle(k, j)` appends. -/
theorem preorder_emission (points : List (Point α)) (fuel : Nat) (i j : Int)
    (hi : 0 ≤ i) (hiN : i < (points.length : Int)) (hj : 0 ≤ j)
    (hjN : j < (points.length : Int)) (hfuel : points.length ≤ fuel) :
    ((getCell (finalTable sqrt MAXFLOAT junkF junkI points) (points.length : Int) i j).i < 0 →
      ∀ acc, findTriangle fuel i j (finalTable sqrt MAXFLOAT junkF junkI points)
        (points.length : Int) acc = Except.ok acc) ∧
    (¬ (getCell (finalTable sqrt MAXFLOAT junkF junkI points) (points.length : Int) i j).i < 0 →
      ∃ L1 L2,
        (∀ acc, findTriangle fuel i
          (getCell (finalTable sqrt MAXFLOAT junkF junkI points) (points.length : Int) i j).k
          (finalTable sqrt MAXFLOAT junkF junkI points) (points.length : Int) acc =
            Except.ok (acc ++ L1)) ∧
        (∀ acc, findTriangle fuel
          (getCell (finalTable sqrt MAXFLOAT junkF junkI points) (points.length : Int) i j).k j
          (finalTable sqrt MAXFLOAT junkF junkI points) (points.length : Int) acc =
            Except.ok (acc ++ L2)) ∧
        (∀ acc, findTriangle fuel i j (finalTable sqrt MAXFLOAT junkF junkI points)
          (points.length : Int) acc =
            Except.ok (acc ++ (i, (getCell (finalTable sqrt MAXFLOAT junkF junkI points)
              (points.length : Int) i j).k, j) :: (L1 ++ L2)))) := by
  have hfin := (finalTable_spec sqrt MAXFLOAT junkF junkI points).2
  have hr := readAt_getCell (finalTable sqrt MAXFLOAT junkF junkI points) (points.length : Int)
    i j hfin.1 hi hiN hj hjN
  obtain ⟨f, rfl⟩ : ∃ f, fuel = f + 1 := ⟨fuel - 1, by omega⟩
  constructor
  · intro hneg acc
    exact findTriangle_stop f i j _ _ _ acc hr hneg
  · intro hpos
    have hij : i ≤ j := by
      by_contra hlt
      exact hpos (by rw [(hfin.2.2.2 i j hj (by omega) hiN).1]; decide)
    have hfilled : (getCell (finalTable sqrt MAXFLOAT junkF junkI points)
          (points.length : Int) i j).i = i ∧
        (getCell (finalTable sqrt MAXFLOAT junkF junkI points) (points.length : Int) i j).j = j ∧
        i < (getCell (finalTable sqrt MAXFLOAT junkF junkI points)
          (points.length : Int) i j).k ∧
        (getCell (finalTable sqrt MAXFLOAT junkF junkI points) (points.length : Int) i j).k
          < j := by
      obtain ⟨hsmall, hbig⟩ := hfin.2.2.1 i j hi hij hjN
      by_cases hsp : j < i + 2
      · exact absurd (by rw [(hsmall hsp).2.1]; decide) hpos
      · rcases hbig (by omega) with ⟨_, _, h3⟩ | ⟨h1, h2, h3, h4, _⟩
        · exact absurd (by rw [h3.1]; decide) hpos
        · exact ⟨h1, h2, h3, h4⟩
    obtain ⟨h1, h2, h3, h4⟩ := hfilled
    obtain ⟨L1, hL1⟩ := extract_exists sqrt MAXFLOAT points _ hfin f i
      (getCell (finalTable sqrt MAXFLOAT junkF junkI points) (points.length : Int) i j).k hi
      (by omega) (by omega) (by omega) (by omega)
    obtain ⟨L2, hL2⟩ := extract_exists sqrt MAXFLOAT points _ hfin f
      (getCell (finalTable sqrt MAXFLOAT junkF junkI points) (points.length : Int) i j).k j
      (by omega) (by omega) hjN (by omega) (by omega)
    refine ⟨L1, L2, fun acc => findTriangle_mono _ _ f _ _ _ _ (hL1 acc),
      fun acc => findTriangle_mono _ _ f _ _ _ _ (hL2 acc), fun acc => ?_⟩
    have := findTriangle_node f i j _ _ _ acc L1 L2 hr hpos (by rw [h1]; exact hL1)
      (by rw [h2]; exact hL2)
    rw [h1, h2] at this
    exact this

set_option maxRecDepth 100000 in
/-- Witness of C10: the root cell `(0, 3)` of the 3 by 4 rectangle, whose apex
is `1`. -/
theorem preorder_emission_witness :
    ∃ L1 L2,
      (∀ acc, findTriangle 4 0
        (getCell (finalTable intSqrt fltMax (fun _ => 7) 11 rectangle)
          (rectangle.length : Int) 0 3).k
        (finalTable intSqrt fltMax (fun _ => 7) 11 rectangle) (rectangle.length : Int) acc =
          Except.ok (acc ++ L1)) ∧
      (∀ acc, findTriangle 4
        (getCell (finalTable intSqrt fltMax (fun _ => 7) 11 rectangle)
          (rectangle.length : Int) 0 3).k 3
        (finalTable intSqrt fltMax (fun _ => 7) 11 rectangle) (rectangle.length : Int) acc =
          Except.ok (acc ++ L2)) ∧
      (∀ acc, findTriangle 4 0 3 (finalTable intSqrt fltMax (fun _ => 7) 11 rectangle)
        (rectangle.length : Int) acc =
          Except.ok (acc ++ (0, (getCell (finalTable intSqrt fltMax (fun _ => 7) 11 rectangle)
            (rectangle.length : Int) 0 3).k, 3) :: (L1 ++ L2))) :=
  (preorder_emission intSqrt fltMax (fun _ => 7) 11 rectangle 4 0 3 (by decide) (by decide)
    (by decide) (by decide) (by decide)).2 (by decide)

/-- Counterexample to C11 as stated, for `float` arithmetic: for the three
points `(0,0)`, `(3*2^63, 0)`, `(3*2^63, 4*2^63)` the distance sum
`dist(0,1) + dist(1,2) = 7 * 2^63` is below `MAXFLOAT` and exact arithmetic
gives `[(0, 1, 2)]`, but the squares of line 59 overflow to infinity and
`triangulate` returns the empty list with the cost `MAXFLOAT`. -/
theorem single_triangle_overflow :
    distOf intSqrt bigTriangleExact 0 1 + distOf intSqrt bigTriangleExact 1 2 < fltMax ∧
    triangulate intSqrt fltMax (fun _ => 7) 11 3 bigTriangleExact =
      Except.ok ([(0, 1, 2)], 110680464442257309696) ∧
    triangulate Flt.sqrt (Flt.fin fltMax) (fun _ => Flt.fin 7) 11 3 bigTriangle =
      Except.ok ([], Flt.fin fltMax) := by
  refine ⟨?_, bigTriangleExact_run, bigTriangle_run⟩
  rw [bigTriangleExact_dist.1, bigTriangleExact_dist.2.1]
  decide

/-- C11 as amended (single triangle): in exact arithmetic, for exactly three
points whose candidate sum `dist(0,1) + dist(1,2)` is below `MAXFLOAT`,
`triangulate` returns the list `[(0, 1, 2)]` and the cost
`dist(0,1) + dist(1,2) + dist(0,2)`; over the reals, for the points `(0,0)`,
`(1,0)`, `(0,1)` the cost is `1 + sqrt 2 + 1`. -/
theorem single_triangle :
    (∀ (points : List (Point α)) (fuel : Nat), points.length = 3 → 3 ≤ fuel →
      distOf sqrt points 0 1 + distOf sqrt points 1 2 < MAXFLOAT →
      triangulate sqrt MAXFLOAT junkF junkI fuel points =
        Except.ok ([(0, 1, 2)],
          distOf sqrt points 0 1 + distOf sqrt points 1 2 + distOf sqrt points 0 2)) ∧
    (∀ (junkR : Nat → ℝ) (junkK : Int) (fuel : Nat), 3 ≤ fuel →
      triangulate Real.sqrt ((fltMax : Int) : ℝ) junkR junkK fuel
          [⟨0, 0⟩, ⟨1, 0⟩, ⟨0, 1⟩] =
        Except.ok ([(0, 1, 2)], 1 + Real.sqrt 2 + 1)) := by
  refine ⟨fun points fuel hN hfuel hM =>
    single_triangle_run sqrt MAXFLOAT junkF junkI points fuel hN hfuel hM, ?_⟩
  intro junkR junkK fuel hfuel
  have d01 : distOf Real.sqrt [(⟨0, 0⟩ : Point ℝ), ⟨1, 0⟩, ⟨0, 1⟩] 0 1 = 1 := by
    rw [distOf_eq Real.sqrt [(⟨0, 0⟩ : Point ℝ), ⟨1, 0⟩, ⟨0, 1⟩] 0 1 ⟨0, 0⟩ ⟨1, 0⟩ rfl rfl]
    norm_num
  have d12 : distOf Real.sqrt [(⟨0, 0⟩ : Point ℝ), ⟨1, 0⟩, ⟨0, 1⟩] 1 2 = Real.sqrt 2 := by
    rw [distOf_eq Real.sqrt [(⟨0, 0⟩ : Point ℝ), ⟨1, 0⟩, ⟨0, 1⟩] 1 2 ⟨1, 0⟩ ⟨0, 1⟩ rfl rfl]
    norm_num
  have d02 : distOf Real.sqrt [(⟨0, 0⟩ : Point ℝ), ⟨1, 0⟩, ⟨0, 1⟩] 0 2 = 1 := by
    rw [distOf_eq Real.sqrt [(⟨0, 0⟩ : Point ℝ), ⟨1, 0⟩, ⟨0, 1⟩] 0 2 ⟨0, 0⟩ ⟨0, 1⟩ rfl rfl]
    norm_num
  have h := single_triangle_run Real.sqrt ((fltMax : Int) : ℝ) junkR junkK
    [⟨0, 0⟩, ⟨1, 0⟩, ⟨0, 1⟩] fuel rfl hfuel (by rw [d01, d12]; exact sqrt_two_lt_fltMax)
  rw [d01, d12, d02] at h
  exact h

set_option maxRecDepth 100000 in
/-- Witness of C11: the right triangle with sides 3, 4 and 5. -/
theorem single_triangle_witness :
    triangulate intSqrt fltMax (fun _ => 7) 11 3 rightTriangle =
      Except.ok ([(0, 1, 2)],
        distOf intSqrt rightTriangle 0 1 + distOf intSqrt rightTriangle 1 2 +
          distOf intSqrt rightTriangle 0 2) :=
  (single_triangle intSqrt fltMax (fun _ => 7) 11).1 rightTriangle 3 (by decide) (by decide)
    (by decide)

/-- C12 (quadrilateral): for exactly four points whose candidate sums are below
`MAXFLOAT` (those of the cells `(0,2)` and `(1,3)`, and one of the root cell),
`triangulate` returns 2 triangles and the cost
`dist(0,1) + dist(1,2) + dist(2,3) + dist(0,3) + 2 * min(dist(0,2), dist(1,3))`,
the two triangles sharing the shorter diagonal (the diagonal `1-3` at a tie);
over the reals, for the unit square the result is two triangles of cost
`2 * (2 + sqrt 2)`. -/
theorem quadrilateral :
    (∀ (points : List (Point α)) (fuel : Nat), points.length = 4 → 4 ≤ fuel →
      distOf sqrt points 0 1 + distOf sqrt points 1 2 < MAXFLOAT →
      distOf sqrt points 1 2 + distOf sqrt points 2 3 < MAXFLOAT →
      (distOf sqrt points 0 1 + distOf sqrt points 1 2 + distOf sqrt points 2 3 +
          2 * distOf sqrt points 1 3 < MAXFLOAT ∨
        distOf sqrt points 0 1 + distOf sqrt points 1 2 + distOf sqrt points 2 3 +
          2 * distOf sqrt points 0 2 < MAXFLOAT) →
      ∃ tris, triangulate sqrt MAXFLOAT junkF junkI fuel points =
          Except.ok (tris, distOf sqrt points 0 1 + distOf sqrt points 1 2 +
            distOf sqrt points 2 3 + distOf sqrt points 0 3 +
            2 * min (distOf sqrt points 0 2) (distOf sqrt points 1 3)) ∧
        tris.length = 2 ∧
        ((distOf sqrt points 1 3 ≤ distOf sqrt points 0 2 ∧
            tris = [(0, 1, 3), (1, 2, 3)]) ∨
          (distOf sqrt points 0 2 < distOf sqrt points 1 3 ∧
            tris = [(0, 2, 3), (0, 1, 2)]))) ∧
    (∀ (junkR : Nat → ℝ) (junkK : Int) (fuel : Nat), 4 ≤ fuel →
      triangulate Real.sqrt ((fltMax : Int) : ℝ) junkR junkK fuel
          [⟨0, 0⟩, ⟨1, 0⟩, ⟨1, 1⟩, ⟨0, 1⟩] =
        Except.ok ([(0, 1, 3), (1, 2, 3)], 2 * (2 + Real.sqrt 2))) := by
  refine ⟨fun points fuel hN hfuel h1 h2 h3 =>
    quadrilateral_run sqrt MAXFLOAT junkF junkI points fuel hN hfuel h1 h2 h3, ?_⟩
  intro junkR junkK fuel hfuel
  have d01 : distOf Real.sqrt [(⟨0, 0⟩ : Point ℝ), ⟨1, 0⟩, ⟨1, 1⟩, ⟨0, 1⟩] 0 1 = 1 := by
    rw [distOf_eq Real.sqrt [(⟨0, 0⟩ : Point ℝ), ⟨1, 0⟩, ⟨1, 1⟩, ⟨0, 1⟩] 0 1 ⟨0, 0⟩ ⟨1, 0⟩
      rfl rfl]
    norm_num
  have d12 : distOf Real.sqrt [(⟨0, 0⟩ : Point ℝ), ⟨1, 0⟩, ⟨1, 1⟩, ⟨0, 1⟩] 1 2 = 1 := by
    rw [distOf_eq Real.sqrt [(⟨0, 0⟩ : Point ℝ), ⟨1, 0⟩, ⟨1, 1⟩, ⟨0, 1⟩] 1 2 ⟨1, 0⟩ ⟨1, 1⟩
      rfl rfl]
    norm_num
  have d23 : distOf Real.sqrt [(⟨0, 0⟩ : Point ℝ), ⟨1, 0⟩, ⟨1, 1⟩, ⟨0, 1⟩] 2 3 = 1 := by
    rw [distOf_eq Real.sqrt [(⟨0, 0⟩ : Point ℝ), ⟨1, 0⟩, ⟨1, 1⟩, ⟨0, 1⟩] 2 3 ⟨1, 1⟩ ⟨0, 1⟩
      rfl rfl]
    norm_num
  have d03 : distOf Real.sqrt [(⟨0, 0⟩ : Point ℝ), ⟨1, 0⟩, ⟨1, 1⟩, ⟨0, 1⟩] 0 3 = 1 := by
    rw [distOf_eq Real.sqrt [(⟨0, 0⟩ : Point ℝ), ⟨1, 0⟩, ⟨1, 1⟩, ⟨0, 1⟩] 0 3 ⟨0, 0⟩ ⟨0, 1⟩
      rfl rfl]
    norm_num
  have d02 : distOf Real.sqrt [(⟨0, 0⟩ : Point ℝ), ⟨1, 0⟩, ⟨1, 1⟩, ⟨0, 1⟩] 0 2
      = Real.sqrt 2 := by
    rw [distOf_eq Real.sqrt [(⟨0, 0⟩ : Point ℝ), ⟨1, 0⟩, ⟨1, 1⟩, ⟨0, 1⟩] 0 2 ⟨0, 0⟩ ⟨1, 1⟩
      rfl rfl]
    norm_num
  have d13 : distOf Real.sqrt [(⟨0, 0⟩ : Point ℝ), ⟨1, 0⟩, ⟨1, 1⟩, ⟨0, 1⟩] 1 3
      = Real.sqrt 2 := by
    rw [distOf_eq Real.sqrt [(⟨0, 0⟩ : Point ℝ), ⟨1, 0⟩, ⟨1, 1⟩, ⟨0, 1⟩] 1 3 ⟨1, 0⟩ ⟨0, 1⟩
      rfl rfl]
    norm_num
  have hs := sqrt_two_le_two
  have hf := fltMax_real
  obtain ⟨tris, hrun, _, hcase⟩ := quadrilateral_run Real.sqrt ((fltMax : Int) : ℝ) junkR junkK
    [⟨0, 0⟩, ⟨1, 0⟩, ⟨1, 1⟩, ⟨0, 1⟩] fuel rfl hfuel
    (by rw [d01, d12, hf]; norm_num) (by rw [d12, d23, hf]; norm_num)
    (Or.inl (by rw [d01, d12, d23, d13, hf]; linarith))
  rw [d01, d12, d23, d03, d02, d13, min_self] at hrun
  rw [d02, d13] at hcase
  rcases hcase with ⟨_, hL⟩ | ⟨hlt, _⟩
  · have e : (1 : ℝ) + 1 + 1 + 1 + 2 * Real.sqrt 2 = 2 * (2 + Real.sqrt 2) := by ring
    rw [hrun, hL, e]
  · exact absurd hlt (lt_irrefl _)

set_option maxRecDepth 100000 in
/-- Witness of C12: the 3 by 4 rectangle, whose diagonals both have length 5. -/
theorem quadrilateral_witness :
    ∃ tris, triangulate intSqrt fltMax (fun _ => 7) 11 4 rectangle =
        Except.ok (tris, distOf intSqrt rectangle 0 1 + distOf intSqrt rectangle 1 2 +
          distOf intSqrt rectangle 2 3 + distOf intSqrt rectangle 0 3 +
          2 * min (distOf intSqrt rectangle 0 2) (distOf intSqrt rectangle 1 3)) ∧
      tris.length = 2 ∧
      ((distOf intSqrt rectangle 1 3 ≤ distOf intSqrt rectangle 0 2 ∧
          tris = [(0, 1, 3), (1, 2, 3)]) ∨
        (distOf intSqrt rectangle 0 2 < distOf intSqrt rectangle 1 3 ∧
          tris = [(0, 2, 3), (0, 1, 2)])) :=
  (quadrilateral intSqrt fltMax (fun _ => 7) 11).1 rectangle 4 (by decide) (by decide)
    (by decide) (by decide) (Or.inl (by decide))

/-- C13 (monotonic, non-negative cost): in the finished table, with
non-negative distances (and the constant `MAXFLOAT` non-negative), every cell
`(i, j)` with `0 <= i <= j < N` has `cost(i,j) >= 0`, and every filled cell with
`j >= i+2` and stored apex `k` has `cost(i,j) >= cost(i,k) + cost(k,j)`. -/
theorem cost_monotone_nonneg (points : List (Point α)) (hM : 0 ≤ MAXFLOAT)
    (hd : ∀ i j, 0 ≤ distOf sqrt points i j) (i j : Int) (hi : 0 ≤ i) (hij : i ≤ j)
    (hjN : j < (points.length : Int)) :
    0 ≤ (getCell (finalTable sqrt MAXFLOAT junkF junkI points) (points.length : Int) i j).cost ∧
    (i + 2 ≤ j →
      ¬ (getCell (finalTable sqrt MAXFLOAT junkF junkI points) (points.length : Int) i j).i < 0 →
      (getCell (finalTable sqrt MAXFLOAT junkF junkI points) (points.length : Int) i
          (getCell (finalTable sqrt MAXFLOAT junkF junkI points) (points.length : Int) i j).k).cost +
        (getCell (finalTable sqrt MAXFLOAT junkF junkI points) (points.length : Int)
          (getCell (finalTable sqrt MAXFLOAT junkF junkI points) (points.length : Int) i j).k
          j).cost ≤
      (getCell (finalTable sqrt MAXFLOAT junkF junkI points) (points.length : Int) i j).cost) := by
  have hfin := (finalTable_spec sqrt MAXFLOAT junkF junkI points).2
  refine ⟨cost_nonneg_aux sqrt MAXFLOAT points _ hfin hM hd (j - i).toNat i j hi hij hjN
    (by omega), fun hbig hfilled => ?_⟩
  rcases (hfin.2.2.1 i j hi hij hjN).2 hbig with ⟨_, _, h3⟩ | ⟨_, _, h3, h4, _, h6, _, _⟩
  · exact absurd (by rw [h3.1]; decide) hfilled
  · rw [h6, candidate_eq sqrt MAXFLOAT points _ hfin i _ j hi h3 h4 hjN,
      hfin.2.1 i j hi hij hjN]
    have d1 := hd i (getCell (finalTable sqrt MAXFLOAT junkF junkI points)
      (points.length : Int) i j).k
    have d2 := hd (getCell (finalTable sqrt MAXFLOAT junkF junkI points)
      (points.length : Int) i j).k j
    have d3 := hd i j
    linarith

set_option maxRecDepth 100000 in
/-- Witness of C13: the root cell `(0, 3)` of the 3 by 4 rectangle. -/
theorem cost_monotone_nonneg_witness :
    0 ≤ (getCell (finalTable intSqrt fltMax (fun _ => 7) 11 rectangle)
      (rectangle.length : Int) 0 3).cost ∧
    ((0 : Int) + 2 ≤ 3 →
      ¬ (getCell (finalTable intSqrt fltMax (fun _ => 7) 11 rectangle)
        (rectangle.length : Int) 0 3).i < 0 →
      (getCell (finalTable intSqrt fltMax (fun _ => 7) 11 rectangle) (rectangle.length : Int) 0
          (getCell (finalTable intSqrt fltMax (fun _ => 7) 11 rectangle)
            (rectangle.length : Int) 0 3).k).cost +
        (getCell (finalTable intSqrt fltMax (fun _ => 7) 11 rectangle) (rectangle.length : Int)
          (getCell (finalTable intSqrt fltMax (fun _ => 7) 11 rectangle)
            (rectangle.length : Int) 0 3).k 3).cost ≤
      (getCell (finalTable intSqrt fltMax (fun _ => 7) 11 rectangle)
        (rectangle.length : Int) 0 3).cost) :=
  cost_monotone_nonneg intSqrt fltMax (fun _ => 7) 11 rectangle (by decide)
    (distOf_nonneg intSqrt intSqrt_nonneg rectangle) 0 3 (by decide) (by decide) (by decide)

/-- C14 (level frame and dependency order): on a table `T` of `N * N` cells,
processing the width level `diff` of the cost loop changes only cells `(i, j)`
with `j - i = diff` and no `dist` field; what it writes there (the cost, and
either nothing or the same indices) is the same on every table `U` that agrees
with `T` on the cost fields of the upper-triangle cells of span below `diff`
and on the `dist` fields of the upper-triangle cells of span up to `diff`;
hence after any first `d` levels the cells of span below `d` already have
their value of the finished table and all other cells still have the value
they had before the cost loop. -/
theorem level_frame (N : Int) (T : List (Cell α)) (hlen : (T.length : Int) = N * N) :
    (∀ diff, 0 ≤ diff →
      ∃ T2, costLevel MAXFLOAT junkF junkI N diff T = Except.ok T2 ∧
        (T2.length : Int) = N * N ∧
        (∀ a b, 0 ≤ a → a < N → 0 ≤ b → b < N → b - a ≠ diff →
          getCell T2 N a b = getCell T N a b) ∧
        (∀ a b, 0 ≤ a → a < N → 0 ≤ b → b < N →
          (getCell T2 N a b).dist = (getCell T N a b).dist) ∧
        (∀ (junkG : Nat → α) (junkJ : Int) (U : List (Cell α)), (U.length : Int) = N * N →
          (∀ a b, 0 ≤ a → a ≤ b → b < N → b - a < diff →
            (getCell U N a b).cost = (getCell T N a b).cost) →
          (∀ a b, 0 ≤ a → a ≤ b → b < N → b - a ≤ diff →
            (getCell U N a b).dist = (getCell T N a b).dist) →
          ∃ U2, costLevel MAXFLOAT junkG junkJ N diff U = Except.ok U2 ∧
            ∀ a b, 0 ≤ a → b < N → b - a = diff →
              (getCell U2 N a b).cost = (getCell T2 N a b).cost ∧
              (((getCell U2 N a b).i = (getCell U N a b).i ∧
                  (getCell U2 N a b).k = (getCell U N a b).k ∧
                  (getCell U2 N a b).j = (getCell U N a b).j ∧
                  (getCell T2 N a b).i = (getCell T N a b).i ∧
                  (getCell T2 N a b).k = (getCell T N a b).k ∧
                  (getCell T2 N a b).j = (getCell T N a b).j) ∨
                ((getCell U2 N a b).i = (getCell T2 N a b).i ∧
                  (getCell U2 N a b).k = (getCell T2 N a b).k ∧
                  (getCell U2 N a b).j = (getCell T2 N a b).j)))) ∧
    (∀ d : Nat, d ≤ N.toNat →
      ∃ Td Tf, costLevels MAXFLOAT junkF junkI N d T = Except.ok Td ∧
        costPhase MAXFLOAT junkF junkI N T = Except.ok Tf ∧
        ∀ a b, 0 ≤ a → a < N → 0 ≤ b → b < N →
          ((0 ≤ b - a ∧ b - a < d) → getCell Td N a b = getCell Tf N a b) ∧
          (¬ (0 ≤ b - a ∧ b - a < d) → getCell Td N a b = getCell T N a b)) := by
  refine ⟨fun diff hd => ?_, fun d hd => costLevels_prefix MAXFLOAT junkF junkI N T hlen d hd⟩
  obtain ⟨T2, hrun, hl, hfr, hdist⟩ := costLevel_frame MAXFLOAT junkF junkI N diff T hlen hd
  refine ⟨T2, hrun, hl, hfr, hdist, fun junkG junkJ U hU hc hdd => ?_⟩
  obtain ⟨U2, hrunU, _⟩ := costLevel_frame MAXFLOAT junkG junkJ N diff U hU hd
  exact ⟨U2, hrunU, fun a b ha hbN hspan =>
    costLevel_reads MAXFLOAT junkF junkI junkG junkJ N diff T U T2 U2 hd hlen hU hc hdd hrun
      hrunU a b ha hbN hspan⟩

/-- Witness of C14: a freshly allocated table for three points, after the first
two levels of the cost loop. -/
theorem level_frame_witness :
    ∃ Td Tf, costLevels fltMax (fun _ => 7) 11 3 2 (newCells (fun _ => (7 : Int)) 9)
        = Except.ok Td ∧
      costPhase fltMax (fun _ => 7) 11 3 (newCells (fun _ => (7 : Int)) 9) = Except.ok Tf ∧
      ∀ a b, 0 ≤ a → a < 3 → 0 ≤ b → b < 3 →
        ((0 ≤ b - a ∧ b - a < ((2 : Nat) : Int)) → getCell Td 3 a b = getCell Tf 3 a b) ∧
        (¬ (0 ≤ b - a ∧ b - a < ((2 : Nat) : Int)) →
          getCell Td 3 a b = getCell (newCells (fun _ => (7 : Int)) 9) 3 a b) :=
  (level_frame fltMax (fun _ => 7) 11 3 (newCells (fun _ => (7 : Int)) 9) (by decide)).2 2
    (by decide)

/-- C15, order independence within a level. On every table of `N * N` cells
(in particular on every table whose levels below `diff` are finished),
running the cells of level `diff` with the columns taken in any permutation
`order` of `diff, ..., N-1` returns the same table as the loop of the source,
which takes them in increasing `j`; so the cost loop run with any schedule
`orders` of its levels returns the table of the sequential cost loop. Together
with independence from the uninitialised memory this makes the result a
function of the points alone: for any two choices of the uninitialised values
the finished tables agree on every cell `(a, b)` with `a ≤ b` (the cells
below the diagonal are never assigned) and `triangulate` returns the same
triangle list and cost, for every recursion bound. -/
theorem level_order_independent (N : Int) (hN : 0 ≤ N) :
    (∀ (T : List (Cell α)) (diff : Int) (order : List Int), (T.length : Int) = N * N →
      0 ≤ diff → order.Perm (levelColumns N diff) →
      costLevelIn MAXFLOAT junkF junkI N diff order T =
        costLevel MAXFLOAT junkF junkI N diff T) ∧
    (∀ (T : List (Cell α)) (orders : Int → List Int), (T.length : Int) = N * N →
      (∀ diff, 0 ≤ diff → diff < N → (orders diff).Perm (levelColumns N diff)) →
      costPhaseIn MAXFLOAT junkF junkI N orders T = costPhase MAXFLOAT junkF junkI N T) ∧
    (∀ (points : List (Point α)) (junkG : Nat → α) (junkJ : Int),
      (∀ a b, 0 ≤ a → a ≤ b → b < (points.length : Int) →
        getCell (finalTable sqrt MAXFLOAT junkF junkI points) (points.length : Int) a b =
          getCell (finalTable sqrt MAXFLOAT junkG junkJ points) (points.length : Int) a b) ∧
      ∀ fuel, triangulate sqrt MAXFLOAT junkF junkI fuel points =
        triangulate sqrt MAXFLOAT junkG junkJ fuel points) := by
  refine ⟨fun T diff order hlen hd hperm =>
      costLevelIn_eq MAXFLOAT junkF junkI N diff T hlen hN hd order hperm,
    fun T orders hlen hperm => costPhaseIn_eq MAXFLOAT junkF junkI N T hlen hN orders hperm,
    fun points junkG junkJ => ⟨fun a b ha hab hbN => ?_,
      fun fuel => triangulate_junk sqrt MAXFLOAT junkF junkI junkG junkJ fuel points⟩⟩
  exact finished_unique sqrt MAXFLOAT points _ _
    (finalTable_spec sqrt MAXFLOAT junkF junkI points).2
    (finalTable_spec sqrt MAXFLOAT junkG junkJ points).2 (b - a).toNat a b ha hab hbN (by omega)

/-- Witness of C15: level 1 of a table of 3 × 3 cells, columns taken in the
order 2, 1. -/
theorem level_order_independent_witness :
    costLevelIn fltMax (fun _ => (7 : Int)) 11 3 1 [2, 1] (newCells (fun _ => (7 : Int)) 9) =
      costLevel fltMax (fun _ => (7 : Int)) 11 3 1 (newCells (fun _ => (7 : Int)) 9) :=
  (level_order_independent intSqrt fltMax (fun _ => (7 : Int)) 11 3 (by decide)).1
    (newCells (fun _ => (7 : Int)) 9) 1 [2, 1] (by decide) (by decide) (by decide)

/-- C16, sentinel cells characterised. The table the cost loop of
`triangulate` returns satisfies, for every `0 ≤ i ≤ j < N`: if `j < i+2` the
cell `(i, j)` has cost `0` and its three index fields hold `-1`; if
`j ≥ i+2` the three index fields hold `-1` exactly when no candidate sum
`leftCost(k) + rightCost(k)` with `i < k < j` is below `MAXFLOAT`, in that
case the cost field is `MAXFLOAT`, and otherwise the cell stores its row in
`i`, its column in `j` and an apex `k` with `i < k < j`. -/
theorem sentinel_cells (points : List (Point α)) (i j : Int) (hi : 0 ≤ i) (hij : i ≤ j)
    (hjN : j < (points.length : Int)) :
    fillTable sqrt MAXFLOAT junkF junkI points =
      Except.ok (finalTable sqrt MAXFLOAT junkF junkI points) ∧
    (j < i + 2 →
      (getCell (finalTable sqrt MAXFLOAT junkF junkI points) (points.length : Int) i j).cost = 0 ∧
      (getCell (finalTable sqrt MAXFLOAT junkF junkI points) (points.length : Int) i j).i = -1 ∧
      (getCell (finalTable sqrt MAXFLOAT junkF junkI points) (points.length : Int) i j).k = -1 ∧
      (getCell (finalTable sqrt MAXFLOAT junkF junkI points) (points.length : Int) i j).j = -1) ∧
    (i + 2 ≤ j →
      (((getCell (finalTable sqrt MAXFLOAT junkF junkI points) (points.length : Int) i j).i = -1 ∧
          (getCell (finalTable sqrt MAXFLOAT junkF junkI points) (points.length : Int) i j).k
            = -1 ∧
          (getCell (finalTable sqrt MAXFLOAT junkF junkI points) (points.length : Int) i j).j
            = -1) ↔
        ∀ k, i < k → k < j →
          ¬ candidate (finalTable sqrt MAXFLOAT junkF junkI points) (points.length : Int) i k j
            < MAXFLOAT) ∧
      ((∀ k, i < k → k < j →
          ¬ candidate (finalTable sqrt MAXFLOAT junkF junkI points) (points.length : Int) i k j
            < MAXFLOAT) →
        (getCell (finalTable sqrt MAXFLOAT junkF junkI points) (points.length : Int) i j).cost
          = MAXFLOAT) ∧
      (¬ (∀ k, i < k → k < j →
          ¬ candidate (finalTable sqrt MAXFLOAT junkF junkI points) (points.length : Int) i k j
            < MAXFLOAT) →
        (getCell (finalTable sqrt MAXFLOAT junkF junkI points) (points.length : Int) i j).i = i ∧
        (getCell (finalTable sqrt MAXFLOAT junkF junkI points) (points.length : Int) i j).j = j ∧
        i < (getCell (finalTable sqrt MAXFLOAT junkF junkI points) (points.length : Int) i j).k ∧
        (getCell (finalTable sqrt MAXFLOAT junkF junkI points) (points.length : Int) i j).k
          < j)) :=
  ⟨(finalTable_spec sqrt MAXFLOAT junkF junkI points).1,
    sentinel_cases sqrt MAXFLOAT points _ (finalTable_spec sqrt MAXFLOAT junkF junkI points).2
      i j hi hij hjN⟩

/-- Witness of C16: the cell `(0, 2)` of three points so far apart that the
only candidate sum is not below the sentinel; the cell holds cost `MAXFLOAT`
and the indices `-1`. -/
theorem sentinel_cells_witness :
    (getCell (finalTable intSqrt fltMax (fun _ => 7) 11 farPoints)
      (farPoints.length : Int) 0 2).cost = fltMax ∧
    (getCell (finalTable intSqrt fltMax (fun _ => 7) 11 farPoints)
      (farPoints.length : Int) 0 2).i = -1 := by
  have h := (sentinel_cells intSqrt fltMax (fun _ => 7) 11 farPoints 0 2 (by decide) (by decide)
    (by decide)).2.2 (by decide)
  exact ⟨h.2.1 (h.1.1 farPoints_fresh), farPoints_fresh.1⟩

/-- C17, distance phase. On every table of `N * N` cells (the fresh table of
`triangulate` in particular) the distance loop returns a table in which, for
every `0 ≤ i ≤ j < N`, the `dist` field of cell `(i, j)` is
`sqrt((x_i - x_j)^2 + (y_i - y_j)^2)` for the points `i` and `j`; the `cost`,
`i`, `k` and `j` fields of every cell and the whole of every cell with
`i > j` are as before the loop. Over the reals, with the real square root, the
stored distance is non-negative and is `0` on the diagonal. For no point the
loop does nothing, and for one point its only step is the distance of point
`0` to itself, so for `N < 2` no pair of distinct points is computed. -/
theorem distance_phase :
    (∀ (points : List (Point α)) (C : List (Cell α)),
      (C.length : Int) = (points.length : Int) * (points.length : Int) →
      ∃ C2, distancePhase sqrt points (points.length : Int) C = Except.ok C2 ∧
        (C2.length : Int) = (points.length : Int) * (points.length : Int) ∧
        (∀ i j, 0 ≤ i → i ≤ j → j < (points.length : Int) →
          ∃ p q, readAt points i = Except.ok p ∧ readAt points j = Except.ok q ∧
            (getCell C2 (points.length : Int) i j).dist =
              sqrt ((p.x - q.x) * (p.x - q.x) + (p.y - q.y) * (p.y - q.y))) ∧
        (∀ a b, 0 ≤ a → a < (points.length : Int) → 0 ≤ b → b < (points.length : Int) →
          (getCell C2 (points.length : Int) a b).cost = (getCell C (points.length : Int) a b).cost ∧
          (getCell C2 (points.length : Int) a b).i = (getCell C (points.length : Int) a b).i ∧
          (getCell C2 (points.length : Int) a b).k = (getCell C (points.length : Int) a b).k ∧
          (getCell C2 (points.length : Int) a b).j = (getCell C (points.length : Int) a b).j) ∧
        (∀ a b, 0 ≤ b → b < a → a < (points.length : Int) →
          getCell C2 (points.length : Int) a b = getCell C (points.length : Int) a b)) ∧
    (∀ (points : List (Point ℝ)) (C : List (Cell ℝ)),
      (C.length : Int) = (points.length : Int) * (points.length : Int) →
      ∃ C2, distancePhase Real.sqrt points (points.length : Int) C = Except.ok C2 ∧
        ∀ i j, 0 ≤ i → i ≤ j → j < (points.length : Int) →
          ∃ p q, readAt points i = Except.ok p ∧ readAt points j = Except.ok q ∧
            (getCell C2 (points.length : Int) i j).dist =
              Real.sqrt ((p.x - q.x) ^ 2 + (p.y - q.y) ^ 2) ∧
            0 ≤ (getCell C2 (points.length : Int) i j).dist ∧
            (i = j → (getCell C2 (points.length : Int) i j).dist = 0)) ∧
    (∀ C : List (Cell α), distancePhase sqrt ([] : List (Point α)) 0 C = Except.ok C) ∧
    (∀ (p : Point α) (C : List (Cell α)),
      distancePhase sqrt [p] 1 C = (do
        let d ← calculateDistance sqrt 0 0 [p]
        let c ← readAt C 0
        writeAt C 0 { c with dist := d })) := by
  refine ⟨fun points C hlen => ?_, fun points C hlen => ?_, distancePhase_nil sqrt,
    distancePhase_single sqrt⟩
  · obtain ⟨C2, hrun, hl, hdist, hkeep, hlow⟩ := distancePhase_frame sqrt points _ C rfl hlen
    refine ⟨C2, hrun, hl, fun i j hi hij hjN => ?_, hkeep, hlow⟩
    obtain ⟨p, q, hp, hq, e⟩ := distOf_euclid sqrt points i j hi (by omega) (by omega) hjN
    exact ⟨p, q, hp, hq, by rw [hdist i j hi hij hjN, e]⟩
  · obtain ⟨C2, hrun, _, hdist, _, _⟩ := distancePhase_frame Real.sqrt points _ C rfl hlen
    refine ⟨C2, hrun, fun i j hi hij hjN => ?_⟩
    obtain ⟨p, q, hp, hq, e⟩ := distOf_euclid Real.sqrt points i j hi (by omega) (by omega) hjN
    have e2 : (p.x - q.x) * (p.x - q.x) + (p.y - q.y) * (p.y - q.y) =
        (p.x - q.x) ^ 2 + (p.y - q.y) ^ 2 := by ring
    rw [e2] at e
    refine ⟨p, q, hp, hq, by rw [hdist i j hi hij hjN, e], ?_, fun hij2 => ?_⟩
    · rw [hdist i j hi hij hjN, e]
      exact Real.sqrt_nonneg _
    · subst hij2
      rw [hp] at hq
      injection hq with hq
      subst hq
      rw [hdist i i hi hij hjN, e]
      simp

/-- Witness of C17: the distance loop on the fresh table of the 3 by 4
rectangle. -/
theorem distance_phase_witness :
    ∃ C2, distancePhase intSqrt rectangle (rectangle.length : Int)
        (newCells (fun _ => (7 : Int)) 16) = Except.ok C2 ∧
      (C2.length : Int) = (rectangle.length : Int) * (rectangle.length : Int) :=
  ((distance_phase intSqrt).1 rectangle (newCells (fun _ => (7 : Int)) 16) (by decide)).imp
    (fun _ h => ⟨h.1, h.2.1⟩)

/-- C18, counterexample to the depth bound as stated. For one point the bound
`N - 2` is negative, yet the call `findTriangle(0, 0)` is made and returns: it
needs one call frame (depth `0`), and no frame at all is not enough. -/
theorem depth_bound_fails_one_point :
    (onePoint.length : Int) - 2 < 0 ∧
    findTriangle 1 0 ((onePoint.length : Int) - 1) (finalTable intSqrt fltMax (fun _ => 7) 11
      onePoint) (onePoint.length : Int) [] = Except.ok [] ∧
    findTriangle ((onePoint.length : Int) - 2 + 1).toNat 0 ((onePoint.length : Int) - 1)
      (finalTable intSqrt fltMax (fun _ => 7) 11 onePoint) (onePoint.length : Int) [] =
        Except.error Err.outOfFuel := by
  refine ⟨by decide, rfl, rfl⟩

/-- C18, extraction terminates. For `N ≥ 1` points, in the table the fill
phase of `triangulate` returns every filled cell `(row, col)` of the upper
triangle stores `i = row`, `j = col` and an apex with `row < k < col`, so both
recursive calls of `findTriangle` are on sub-ranges of smaller span; the call
`findTriangle(i, j)` on a range `0 ≤ i ≤ j < N` returns a list with every
recursion bound of at least `max(j - i - 1, 0) + 1` nested calls, that is with
recursion depth at most `max(j - i - 1, 0)`, and `findTriangle(0, N-1)` with
depth at most `max(N - 2, 0)`. -/
theorem extraction_terminates (points : List (Point α)) (hN : 1 ≤ points.length) :
    (∀ row col, 0 ≤ row → row ≤ col → col < (points.length : Int) →
      ¬ (getCell (finalTable sqrt MAXFLOAT junkF junkI points) (points.length : Int)
        row col).i < 0 →
      (getCell (finalTable sqrt MAXFLOAT junkF junkI points) (points.length : Int) row col).i
        = row ∧
      (getCell (finalTable sqrt MAXFLOAT junkF junkI points) (points.length : Int) row col).j
        = col ∧
      row < (getCell (finalTable sqrt MAXFLOAT junkF junkI points) (points.length : Int)
        row col).k ∧
      (getCell (finalTable sqrt MAXFLOAT junkF junkI points) (points.length : Int) row col).k
        < col) ∧
    (∀ i j, 0 ≤ i → i ≤ j → j < (points.length : Int) →
      ∃ L, ∀ fuel acc, (j - i - 1).toNat + 1 ≤ fuel →
        findTriangle fuel i j (finalTable sqrt MAXFLOAT junkF junkI points)
          (points.length : Int) acc = Except.ok (acc ++ L)) ∧
    (∃ L, ∀ fuel acc, (points.length - 2) + 1 ≤ fuel →
      findTriangle fuel 0 ((points.length : Int) - 1)
        (finalTable sqrt MAXFLOAT junkF junkI points) (points.length : Int) acc =
          Except.ok (acc ++ L)) := by
  have hfin := (finalTable_spec sqrt MAXFLOAT junkF junkI points).2
  refine ⟨fun row col hr hrc hcN hfilled =>
      filled_structure sqrt MAXFLOAT points _ hfin row col hr hrc hcN hfilled,
    fun i j hi hij hjN => extract_fuel sqrt MAXFLOAT points _ hfin i j hi hij hjN, ?_⟩
  obtain ⟨L, hL⟩ := extract_fuel sqrt MAXFLOAT points _ hfin 0 ((points.length : Int) - 1)
    (le_refl _) (by omega) (by omega)
  exact ⟨L, fun fuel acc hf => hL fuel acc (by omega)⟩

/-- Witness of C18: the 3 by 4 rectangle, where a recursion bound of
`(4 - 2) + 1` nested calls is enough. -/
theorem extraction_terminates_witness :
    ∃ L, ∀ fuel acc, (rectangle.length - 2) + 1 ≤ fuel →
      findTriangle fuel 0 ((rectangle.length : Int) - 1)
        (finalTable intSqrt fltMax (fun _ => 7) 11 rectangle) (rectangle.length : Int) acc =
          Except.ok (acc ++ L) :=
  (extraction_terminates intSqrt fltMax (fun _ => 7) 11 rectangle (by decide)).2.2

/-- Counterexample to C19 as stated, for 32-bit `int`: with `65536` points the
product `N * N` of line 74 wraps to `0`, the table has no cell, and the first
write of the distance loop, `C[0].dist`, is outside the allocation. -/
theorem allocation_wraps :
    wrapInt ((manyPoints.length : Int) * (manyPoints.length : Int)) = 0 ∧
    fillTable32 intSqrt fltMax (fun _ => (7 : Int)) 11 manyPoints =
      Except.error Err.outOfBounds :=
  manyPoints_fails

/-- C19 as amended, in-bounds access for `1 ≤ N ≤ 46340` points. Every read
and write of the table, of `points` and of the scratch buffers is checked
against the allocated length and an index outside it ends the run with
`Err.outOfBounds`. No run of `triangulate` ends so, whatever the recursion
bound: the distance loop, the cost loop, `findTriangle` and the read `C[N-1]`
stay in range, and with a bound of `N` the run returns its result. The table
holds `N * N` cells and a scratch buffer `diff - 1` floats; on any
table of `N * N` cells the step of a cell `(j - diff, j)` with
`0 ≤ diff ≤ j < N` stays in range, the scratch buffers included. `N * N` and
every table index fit the 32-bit `int`, so the table allocated with 32-bit
`int` is the same. -/
theorem accesses_in_range (points : List (Point α)) (hN : 1 ≤ points.length)
    (hN2 : points.length ≤ 46340) :
    (∀ fuel, triangulate sqrt MAXFLOAT junkF junkI fuel points ≠
      Except.error Err.outOfBounds) ∧
    (∀ fuel, points.length ≤ fuel →
      ∃ r, triangulate sqrt MAXFLOAT junkF junkI fuel points = Except.ok r) ∧
    ((newCells junkF ((points.length : Int) * (points.length : Int))).length : Int) =
      (points.length : Int) * (points.length : Int) ∧
    (∀ diff : Int, 2 ≤ diff → ((newFloats junkF (diff - 1)).length : Int) = diff - 1) ∧
    (∀ (T : List (Cell α)) (diff j : Int),
      (T.length : Int) = (points.length : Int) * (points.length : Int) →
      0 ≤ diff → diff ≤ j → j < (points.length : Int) →
      ∃ T2, costCell MAXFLOAT junkF junkI (points.length : Int) diff j T = Except.ok T2) ∧
    (∀ i j : Int, 0 ≤ i → i < (points.length : Int) → 0 ≤ j → j < (points.length : Int) →
      0 ≤ i * (points.length : Int) + j ∧
      i * (points.length : Int) + j < (points.length : Int) * (points.length : Int) ∧
      wrapInt (i * (points.length : Int) + j) = i * (points.length : Int) + j) ∧
    wrapInt ((points.length : Int) * (points.length : Int)) =
      (points.length : Int) * (points.length : Int) ∧
    fillTable32 sqrt MAXFLOAT junkF junkI points = fillTable sqrt MAXFLOAT junkF junkI points := by
  have hsq := square_fits (points.length : Int) (by omega) (by omega)
  refine ⟨fun fuel h => ?_, fun fuel hf => ?_,
    newCells_length junkF _ (Int.mul_nonneg (by omega) (by omega)),
    fun diff hd => newFloats_length junkF _ (by omega), fun T diff j hlen hd hdj hjN => ?_,
    fun i j hi hiN hj hjN => ?_, wrapInt_fits _ hsq.1 hsq.2,
    fillTable32_eq sqrt MAXFLOAT junkF junkI points hN2⟩
  · rcases triangulate_inRange sqrt MAXFLOAT junkF junkI points hN fuel with e | ⟨r, e⟩
    · rw [e] at h
      injection h with h
      exact Err.noConfusion h
    · rw [e] at h
      exact Except.noConfusion h
  · rcases triangulate_inRange sqrt MAXFLOAT junkF junkI points hN fuel with e | ⟨r, e⟩
    · obtain ⟨L, hL, _⟩ := triangulate_run sqrt MAXFLOAT junkF junkI points fuel
        (fun _ _ _ => True) (fun _ _ _ _ _ _ _ => trivial)
        (fun _ _ _ _ _ _ _ _ _ _ _ _ _ _ => trivial) hN hf
      exact ⟨_, hL⟩
    · exact ⟨r, e⟩
  · obtain ⟨T2, h, _⟩ := costCell_step MAXFLOAT junkF junkI _ diff j T hlen hd hdj hjN
    exact ⟨T2, h⟩
  · obtain ⟨a, b⟩ := idx_range (points.length : Int) i j hi hiN hj hjN
    exact ⟨a, b, wrapInt_fits _ a (by omega)⟩

/-- Witness of C19 as amended: the 3 by 4 rectangle run with a recursion bound
too small for the extraction still makes no access out of range. -/
theorem accesses_in_range_witness :
    triangulate intSqrt fltMax (fun _ => 7) 11 1 rectangle ≠ Except.error Err.outOfBounds :=
  (accesses_in_range intSqrt fltMax (fun _ => 7) 11 rectangle (by decide) (by decide)).1 1

end Claims

end Triangulation
